import Mathlib

/-!
# DumpIt: the ledger and the settlements of the trading game

A shallow embedding of `src/modules/DumpItGameHelper.js` (class `DumpIt`).

Modelling conventions.

* JavaScript numbers are rationals (`ℚ`); a decimal such as `10.05` stands for the double
  nearest to it.  Sums, differences, products and quotients are taken exactly: their
  rounding to a double, an error of about one part in `10 ^ 16`, is not modelled.  The
  exception is `roundUpCents`, where `Math.ceil` turns such an error into a whole cent:
  there the operand is computed as the doubles compute it (`toDouble`).  Share counts are
  integers (`ℤ`), as delivered by the command layer
  (`interaction.options.getInteger("shares", true)`, an integer option declared without
  a minimum).  Executions in which a division by zero occurs are outside the model
  (JavaScript yields `NaN`/`Infinity` there).
* The MongoDB collections `users`, `transactions` and `properties` are lists of
  documents; `findOne`/`updateOne` act on the first matching document and every
  store call is atomic.
* A portfolio is the JavaScript object `user.portfolio`, kept as an association list
  in key order.  Every user document is inserted by `createAccount` with
  `portfolio: {}`, so the field is always present.  Symbols are plain tickers (no `.`,
  no name inherited from `Object.prototype`), so that `portfolio[symbol]` and the update
  path `portfolio.${symbol}` address the key `symbol`.
* The quote provider is external: its answer is an argument of the operation; an
  operation that asks for several symbols takes the provider's answer per symbol.
* Timestamps are the instants they denote (milliseconds since the epoch), also where
  the source stores them as ISO strings; the BSON type of a stored timestamp is kept
  apart (`timestampType`), since a query compares only values of the type of its operand
  (`matchesGte`).  `new Date(y, m, 1)` for the running month is an argument
  (`startOfMonth`), and so is `new Date().getFullYear()` (`wallYear`).
* The heartbeat and the month and year checks take `now` as a `Date` of the local time
  zone, kept as its calendar fields (daylight-saving shifts are not modelled).
* The instance field `runRollOverBonus` is passed in and returned.
* `new Date()` is an argument (`now`, milliseconds since the epoch).
* An operation returns the new database together with `some result`, or `none` when
  the JavaScript code throws (a `TypeError` on a `null` user document).
* Operations run one at a time.  Where two operations overlap, an operation is cut at
  the `await` of its read of the user document (`buyStockWrite`, `sellStockWrite`).
-/

namespace DumpIt

/-! ## Data model -/

/-- A portfolio entry `{ shares, avgPrice }`. -/
structure Holding where
  shares : ℤ
  avgPrice : ℚ
deriving DecidableEq

/-- The object `user.portfolio`: stock symbol ↦ `{ shares, avgPrice }`. -/
abbrev Portfolio := List (String × Holding)

/-- A document of the `users` collection. -/
structure User where
  userId : String
  username : String
  balance : ℚ
  portfolio : Portfolio
  created : Nat
  /-- The field `updated`, absent until `createAccount` is called again for the id. -/
  updated : Option Nat := none
deriving DecidableEq

/-- The `type` field of a transaction: `'buy'` or `'sell'`. -/
inductive TxType where
  | buy
  | sell
deriving DecidableEq

/-- A document of the `transactions` collection. -/
structure Transaction where
  userId : String
  symbol : String
  shares : ℤ
  price : ℚ
  type : TxType
  timestamp : Nat
deriving DecidableEq

/-- A JavaScript `Date`, kept as its fields in the local time zone: `getFullYear()`,
`getMonth()` (0 to 11), `getDate()` and the milliseconds since local midnight. -/
structure JsDate where
  year : Nat
  month : Nat
  date : Nat
  msOfDay : Nat
deriving DecidableEq

/-- The `value` of a document of the `properties` collection; `date` is an ISO string
written by `toISOString()`, kept as the date it denotes. -/
inductive PropValue where
  | bool (b : Bool)
  | num (n : ℚ)
  | str (s : String)
  | date (d : JsDate)
deriving DecidableEq

/-- A document of the `annals` collection: `{ year, results }`, the results being the
final balance reported for each account. -/
structure AnnalsEntry where
  year : ℚ
  results : List (String × ℚ)
deriving DecidableEq

/-- The database: the collections `users`, `transactions`, `properties` and `annals`. -/
structure State where
  users : List User
  transactions : List Transaction
  properties : List (String × PropValue)
  annals : List AnnalsEntry := []
deriving DecidableEq

/-- The object `Settings` of `app-config.json`, which is not part of the sources: the
three amounts the ledger reads from it. -/
structure Settings where
  startingBalance : ℚ
  monthlyAward : ℚ
  endOfYearAward : ℚ
deriving DecidableEq

/-! ## Store primitives -/

/-- The lookup `portfolio[symbol]` (`none` is `undefined`). -/
def portfolioGet : Portfolio → String → Option Holding
  | [], _ => none
  | (k, h) :: rest, symbol => if k = symbol then some h else portfolioGet rest symbol

/-- The update `$set: { portfolio.symbol: h }`: overwrite the key in place, or add it. -/
def portfolioSet : Portfolio → String → Holding → Portfolio
  | [], symbol, h => [(symbol, h)]
  | (k, h0) :: rest, symbol, h =>
    if k = symbol then (k, h) :: rest else (k, h0) :: portfolioSet rest symbol h

/-- The update `$unset: { portfolio.symbol: "" }`: drop the key. -/
def portfolioUnset : Portfolio → String → Portfolio
  | [], _ => []
  | (k, h0) :: rest, symbol =>
    if k = symbol then portfolioUnset rest symbol else (k, h0) :: portfolioUnset rest symbol

/-- The query `users.findOne({ userId })`: the first matching document, or `null`. -/
def findOne : List User → String → Option User
  | [], _ => none
  | u :: rest, userId => if u.userId = userId then some u else findOne rest userId

/-- The call `users.updateOne({ userId }, update)`: apply the update to the first
matching document (no upsert). -/
def updateOne : List User → String → (User → User) → List User
  | [], _, _ => []
  | u :: rest, userId, f =>
    if u.userId = userId then f u :: rest else u :: updateOne rest userId f

/-- The call `properties.updateOne({ key }, { $set: { value } }, { upsert: true })`. -/
def upsertProperty : List (String × PropValue) → String → PropValue → List (String × PropValue)
  | [], key, v => [(key, v)]
  | (k, v0) :: rest, key, v =>
    if k = key then (k, v) :: rest else (k, v0) :: upsertProperty rest key v

/-! ## Rounding

JavaScript numbers are IEEE 754 doubles, and every arithmetic operation on them yields
the double nearest to the exact result.  `toDouble` is that rounding: 53 significant
bits, ties to the even significand, exponents down to the subnormal range (overflow to
`Infinity` is outside the model). -/

/-- The quotient `n / d` rounded to the nearest natural number, a tie to the even one. -/
def roundHalfEven (n d : ℕ) : ℕ :=
  let q := n / d
  let r := n % d
  if 2 * r < d then q
  else if d < 2 * r then q + 1
  else if q % 2 = 0 then q else q + 1

/-- The number of binary digits of `n`, at most `fuel` of them. -/
def bitLengthAux : ℕ → ℕ → ℕ
  | 0, _ => 0
  | fuel + 1, n => if n = 0 then 0 else bitLengthAux fuel (n / 2) + 1

/-- The number of binary digits of `n`. -/
def bitLength (n : ℕ) : ℕ := bitLengthAux n n

/-- The exponent `e` of the unit in the last place of the double nearest to `n / d`, for
positive `n` and `d`: `2 ^ 52 ≤ n / d / 2 ^ e < 2 ^ 53`, and `e` is at least `-1074`. -/
def doubleExponent (n d : ℕ) : ℤ :=
  let k : ℤ := (bitLength n : ℤ) - (bitLength d : ℤ)
  let e := if d * 2 ^ k.toNat ≤ n * 2 ^ (-k).toNat then k - 52 else k - 53
  max e (-1074)

/-- The double nearest to `x`, a tie going to the even significand. -/
def toDouble (x : ℚ) : ℚ :=
  let n := x.num.natAbs
  let d := x.den
  if n = 0 then 0
  else
    let e := doubleExponent n d
    let m := roundHalfEven (n * 2 ^ (-e).toNat) (d * 2 ^ e.toNat)
    (x.num.sign : ℚ) * (((m * 2 ^ e.toNat : ℕ) : ℚ) / ((2 ^ (-e).toNat : ℕ) : ℚ))

/-- Source: `roundUpCents(num) { return Math.ceil(num * 100) / 100; }`.  The argument is
a double (`toDouble num`: the number itself when it is a double, else the double it
stands for or that the operation computing it rounds to), and so is the product
`num * 100` that `Math.ceil` is applied to.  The quotient by 100 is written as the
decimal `n / 100`; it stands for the double nearest to it. -/
def roundUpCents (num : ℚ) : ℚ := (⌈toDouble (toDouble num * 100)⌉ : ℤ) / 100

/-- An amount is a whole number of cents. -/
def WholeCents (x : ℚ) : Prop := ∃ n : ℤ, x * 100 = n

/-! ## The price oracle -/

/-- What `fmp.stock(symbol).quote()` resolves to, as far as `getStockPrice` looks at it:
a non-empty array whose first element carries `price`, an object with an `error`
field, or anything else. -/
inductive FmpData where
  | quotes (price : ℚ)
  | error
  | other
deriving DecidableEq

/-- The object `getStockPrice` resolves to: `{ success: true, price }` or
`{ success: false, message }`. -/
inductive Response where
  | ok (price : ℚ)
  | failed (message : String)
deriving DecidableEq

/-- The field `response.success`. -/
def Response.success : Response → Bool
  | .ok _ => true
  | .failed _ => false

/-- The test `Object.hasOwn(response, "message")`. -/
def Response.hasMessage : Response → Bool
  | .ok _ => false
  | .failed _ => true

/-- Source: `#setAPILimitExceededFlag`. -/
def setAPILimitExceededFlag (db : State) : State :=
  { db with properties := upsertProperty db.properties "apiLimitExceeded" (.bool true) }

/-- Source: `getStockPrice(symbol)`; `data` is the provider's answer for `symbol`. -/
def getStockPrice (db : State) (data : FmpData) : State × Response :=
  match data with
  | .quotes price => (db, .ok price)
  | .error => (db, .failed "Stock symbol not tracked by this service .")
  | .other => (setAPILimitExceededFlag db, .failed "API limit exceeded. Please try again later.")

/-! ## Buying and selling -/

/-- The three objects `buyStock` returns. -/
inductive BuyResult where
  /-- The object `{ success: false, message, symbol }`. -/
  | quoteFailed (message : String) (symbol : String)
  /-- The object `{ success: false, cost }`. -/
  | insufficientFunds (cost : ℚ)
  /-- The object `{ success: true, balance, cost, shares, price }`. -/
  | bought (balance : ℚ) (cost : ℚ) (shares : ℤ) (price : ℚ)
deriving DecidableEq

/-- The field `result.success` of a `buyStock` result. -/
def BuyResult.success : BuyResult → Bool
  | .bought _ _ _ _ => true
  | _ => false

/-- Source: `buyStock(userId, symbol, shares)`; `data` is the provider's answer for
`symbol`, `now` the clock. -/
def buyStock (db : State) (data : FmpData) (now : Nat) (userId symbol : String) (shares : ℤ) :
    State × Option BuyResult :=
  -- const response = await this.getStockPrice(symbol);
  let (db1, response) := getStockPrice db data
  match response with
  -- if (response === undefined || (!response.success && Object.hasOwn(response, "message")))
  | .failed message => (db1, some (.quoteFailed message symbol))
  | .ok price =>
    let cost := roundUpCents (price * shares)
    match findOne db1.users userId with
    -- `user.balance` on `null`
    | none => (db1, none)
    | some user =>
      if user.balance < cost then
        (db1, some (.insufficientFunds cost))
      else
        -- if (user.portfolio && user.portfolio[symbol])
        let updatePortfolio : Holding :=
          match portfolioGet user.portfolio symbol with
          | some current =>
            { shares := current.shares + shares
              avgPrice := roundUpCents
                ((current.avgPrice * current.shares + cost) / (current.shares + shares)) }
          | none => { shares := shares, avgPrice := roundUpCents price }
        -- $set: { [portfolio.symbol]: updatePortfolio }, $inc: { balance: -cost }
        let users := updateOne db1.users userId fun u =>
          { u with
            portfolio := portfolioSet u.portfolio symbol updatePortfolio
            balance := u.balance + (-cost) }
        let transactions := db1.transactions ++
          [{ userId := userId, symbol := symbol, shares := shares, price := price,
             type := .buy, timestamp := now }]
        ({ db1 with users := users, transactions := transactions },
          some (.bought (user.balance - cost) cost shares price))

/-- The three objects `sellStock` returns. -/
inductive SellResult where
  /-- The object `{ success: false, message, username, symbol, reqShares, availShares,
  price: 0 }`. -/
  | quoteFailed (message : String) (username : String) (symbol : String) (reqShares : ℤ)
      (availShares : ℤ)
  /-- The object `{ success: false, username, symbol, reqShares, availShares, price }`. -/
  | insufficientShares (username : String) (symbol : String) (reqShares : ℤ)
      (availShares : ℤ) (price : ℚ)
  /-- The object `{ success: true, username, symbol, sharesLeft, gains, sellPrice }`. -/
  | sold (username : String) (symbol : String) (sharesLeft : ℤ) (gains : ℚ) (sellPrice : ℚ)
deriving DecidableEq

/-- The field `result.success` of a `sellStock` result. -/
def SellResult.success : SellResult → Bool
  | .sold _ _ _ _ _ => true
  | _ => false

/-- The update `$set: { portfolio.symbol.shares: n }` on an entry that is present (it is
only issued after the entry has been read). -/
def portfolioSetShares : Portfolio → String → ℤ → Portfolio
  | [], _, _ => []
  | (k, h0) :: rest, symbol, n =>
    if k = symbol then (k, { h0 with shares := n }) :: rest
    else (k, h0) :: portfolioSetShares rest symbol n

/-- The expression `user.portfolio[symbol]?.shares ?? 0`. -/
def availShares (p : Portfolio) (symbol : String) : ℤ :=
  match portfolioGet p symbol with
  | some h => h.shares
  | none => 0

/-- Source: `sellStock(userId, symbol, shares)`; `data` is the provider's answer for
`symbol`, `now` the clock. -/
def sellStock (db : State) (data : FmpData) (now : Nat) (userId symbol : String) (shares : ℤ) :
    State × Option SellResult :=
  -- const user = await this.users.findOne({ userId });
  let found := findOne db.users userId
  -- const response = await this.getStockPrice(symbol);
  let (db1, response) := getStockPrice db data
  match found with
  -- `user.username` resp. `user.portfolio` on `null`
  | none => (db1, none)
  | some user =>
    match response with
    -- if (!response.success || Object.hasOwn(response, "message"))
    | .failed message =>
      (db1, some (.quoteFailed message user.username symbol shares
        (availShares user.portfolio symbol)))
    | .ok price =>
      match portfolioGet user.portfolio symbol with
      -- !user.portfolio[symbol]
      | none =>
        (db1, some (.insufficientShares user.username symbol shares
          (availShares user.portfolio symbol) price))
      | some held =>
        if held.shares < shares then
          (db1, some (.insufficientShares user.username symbol shares
            (availShares user.portfolio symbol) price))
        else
          let gains := price * shares
          let remainingShares := held.shares - shares
          let users :=
            if remainingShares > 0 then
              -- $set: { [portfolio.symbol.shares]: remainingShares }, $inc: { balance: gains }
              updateOne db1.users userId fun u =>
                { u with
                  portfolio := portfolioSetShares u.portfolio symbol remainingShares
                  balance := u.balance + gains }
            else
              -- $unset: { [portfolio.symbol]: "" }, $inc: { balance: gains }
              updateOne db1.users userId fun u =>
                { u with
                  portfolio := portfolioUnset u.portfolio symbol
                  balance := u.balance + gains }
          let transactions := db1.transactions ++
            [{ userId := userId, symbol := symbol, shares := shares, price := price,
               type := .sell, timestamp := now }]
          ({ db1 with users := users, transactions := transactions },
            some (.sold user.username symbol remainingShares gains price))

/-! ## Buying and selling: the part after the read

An `await` is where another operation of the same process can run.  `buyStockWrite` and
`sellStockWrite` are `buyStock` and `sellStock` from the point on where the quote has
arrived and `users.findOne` has resolved to the document `user`; `db` is the database
at the time the writes are made. -/

/-- Source: `buyStock` after `const user = await this.users.findOne({ userId })`. -/
def buyStockWrite (db : State) (user : User) (price : ℚ) (now : Nat)
    (userId symbol : String) (shares : ℤ) : State × Option BuyResult :=
  let cost := roundUpCents (price * shares)
  if user.balance < cost then
    (db, some (.insufficientFunds cost))
  else
    -- if (user.portfolio && user.portfolio[symbol])
    let updatePortfolio : Holding :=
      match portfolioGet user.portfolio symbol with
      | some current =>
        { shares := current.shares + shares
          avgPrice := roundUpCents
            ((current.avgPrice * current.shares + cost) / (current.shares + shares)) }
      | none => { shares := shares, avgPrice := roundUpCents price }
    -- $set: { [portfolio.symbol]: updatePortfolio }, $inc: { balance: -cost }
    let users := updateOne db.users userId fun u =>
      { u with
        portfolio := portfolioSet u.portfolio symbol updatePortfolio
        balance := u.balance + (-cost) }
    let transactions := db.transactions ++
      [{ userId := userId, symbol := symbol, shares := shares, price := price,
         type := .buy, timestamp := now }]
    ({ db with users := users, transactions := transactions },
      some (.bought (user.balance - cost) cost shares price))

/-- Source: `sellStock` after `const response = await this.getStockPrice(symbol)`, for a
quote that succeeded. -/
def sellStockWrite (db : State) (user : User) (price : ℚ) (now : Nat)
    (userId symbol : String) (shares : ℤ) : State × Option SellResult :=
  match portfolioGet user.portfolio symbol with
  -- !user.portfolio[symbol]
  | none =>
    (db, some (.insufficientShares user.username symbol shares
      (availShares user.portfolio symbol) price))
  | some held =>
    if held.shares < shares then
      (db, some (.insufficientShares user.username symbol shares
        (availShares user.portfolio symbol) price))
    else
      let gains := price * shares
      let remainingShares := held.shares - shares
      let users :=
        if remainingShares > 0 then
          -- $set: { [portfolio.symbol.shares]: remainingShares }, $inc: { balance: gains }
          updateOne db.users userId fun u =>
            { u with
              portfolio := portfolioSetShares u.portfolio symbol remainingShares
              balance := u.balance + gains }
        else
          -- $unset: { [portfolio.symbol]: "" }, $inc: { balance: gains }
          updateOne db.users userId fun u =>
            { u with
              portfolio := portfolioUnset u.portfolio symbol
              balance := u.balance + gains }
      let transactions := db.transactions ++
        [{ userId := userId, symbol := symbol, shares := shares, price := price,
           type := .sell, timestamp := now }]
      ({ db with users := users, transactions := transactions },
        some (.sold user.username symbol remainingShares gains price))

/-! ## Accounts -/

/-- The two objects `createAccount` returns. -/
inductive CreateResult where
  /-- The object `{ success: true, message: 'Player created successfully.' }`. -/
  | created
  /-- The object `{ success: false, message, username }`; `username` is the new name when
  it differs from the stored one, and `null` otherwise. -/
  | alreadyExists (username : Option String)
deriving DecidableEq

/-- The field `result.success` of a `createAccount` result. -/
def CreateResult.success : CreateResult → Bool
  | .created => true
  | .alreadyExists _ => false

/-- The expression `Settings.startingBalance || 10000`. -/
def startingBalanceOrDefault (settings : Settings) : ℚ :=
  if settings.startingBalance = 0 then 10000 else settings.startingBalance

/-- Source: `createAccount(userId, username)`; `playerExists` is `findOne`. -/
def createAccount (settings : Settings) (db : State) (now : Nat) (userId username : String) :
    State × CreateResult :=
  match findOne db.users userId with
  | none =>
    let playerData : User :=
      { userId := userId, username := username,
        balance := startingBalanceOrDefault settings, portfolio := [], created := now }
    -- await this.users.insertOne(playerData);
    ({ db with users := db.users ++ [playerData] }, .created)
  | some playerExists =>
    -- updateOne({ userId }, { $set: { username, updated } }, { upsert: true })
    let users := updateOne db.users userId fun u =>
      { u with username := username, updated := some now }
    ({ db with users := users },
      .alreadyExists (if playerExists.username ≠ username then some username else none))

/-! ## Properties -/

/-- The query `properties.findOne({ key })`, reduced to the `value` of the document. -/
def propertyGet : List (String × PropValue) → String → Option PropValue
  | [], _ => none
  | (k, v) :: rest, key => if k = key then some v else propertyGet rest key

/-- The call `properties.updateOne({ key }, { $inc: { value: n } }, { upsert: true })`; the
value of the document, when there is one, is a number. -/
def incProperty : List (String × PropValue) → String → ℚ → List (String × PropValue)
  | [], key, n => [(key, .num n)]
  | (k, v0) :: rest, key, n =>
    if k = key then
      (k, match v0 with
          | .num v => .num (v + n)
          | other => other) :: rest
    else (k, v0) :: incProperty rest key n

/-! ## Month settlement -/

/-- The BSON type of a stored timestamp or of the operand of a query on it. -/
inductive BsonType where
  | date
  | string
deriving DecidableEq

/-- The BSON type of the field `timestamp` of a transaction document: `buyStock` and
`sellStock` insert `timestamp: new Date().toISOString()`, a string. -/
def timestampType : BsonType := .string

/-- The query operator `{ $gte: operand }` on a field: a comparison operator matches only
fields of the BSON type of its operand, and of these the ones not below it. -/
def matchesGte (operandType : BsonType) (operand : Nat) (fieldType : BsonType)
    (value : Nat) : Bool :=
  decide (fieldType = operandType) && decide (operand ≤ value)

/-- The provider's answer for each symbol during one run. -/
abbrev Oracle := String → FmpData

/-- The object `userOpenPrices`: `{ userId: { symbol: openingPrice } }`.  It is only
read by key; the newest binding of a key comes first. -/
abbrev OpenPrices := List ((String × String) × ℚ)

/-- The lookup `userOpenPrices[userId] && userOpenPrices[userId][symbol]`. -/
def openPriceGet : OpenPrices → String → String → Option ℚ
  | [], _, _ => none
  | ((u, s), v) :: rest, userId, symbol =>
    if u = userId ∧ s = symbol then some v else openPriceGet rest userId symbol

/-- A JavaScript number that may be missing is truthy when it is there and not zero. -/
def truthyNum : Option ℚ → Bool
  | some v => decide (v ≠ 0)
  | none => false

/-- The loop over the month's transactions that fills `userOpenPrices`. -/
def recordOpenPrices : List Transaction → OpenPrices → OpenPrices
  | [], acc => acc
  | tx :: rest, acc =>
    if tx.type = .buy then
      -- if (!userOpenPrices[tx.userId][tx.symbol]) userOpenPrices[tx.userId][tx.symbol] = tx.price
      if truthyNum (openPriceGet acc tx.userId tx.symbol) then recordOpenPrices rest acc
      else recordOpenPrices rest (((tx.userId, tx.symbol), tx.price) :: acc)
    else recordOpenPrices rest acc

/-- The expression
`(userOpenPrices[userId] && userOpenPrices[userId][symbol]) || portfolio[symbol].avgPrice`. -/
def openPriceOf (openPrices : OpenPrices) (userId symbol : String) (avgPrice : ℚ) : ℚ :=
  match openPriceGet openPrices userId symbol with
  | some v => if v = 0 then avgPrice else v
  | none => avgPrice

/-- The inner loop `for (const symbol in user.portfolio)` of
`#calculateAndAwardTopMonthlyGains`; `maxPctGain` is `none` for `-Infinity`.  A failed
quote makes the whole settlement return its message. -/
def maxPctGainLoop (oracle : Oracle) (openPrices : OpenPrices) (userId : String) :
    Portfolio → State → Option ℚ → State × Except String (Option ℚ)
  | [], db, maxPctGain => (db, .ok maxPctGain)
  | (symbol, stock) :: rest, db, maxPctGain =>
    let openPrice := openPriceOf openPrices userId symbol stock.avgPrice
    let (db1, response) := getStockPrice db (oracle symbol)
    match response with
    -- if (!response.success && Object.hasOwn(response, "message")) return { success: false, ... }
    | .failed message => (db1, .error message)
    | .ok price =>
      if openPrice > 0 then
        let pctGain := ((price - openPrice) / openPrice) * 100
        -- if (pctGain > maxPctGain) maxPctGain = pctGain
        match maxPctGain with
        | none => maxPctGainLoop oracle openPrices userId rest db1 (some pctGain)
        | some m =>
          if pctGain > m then maxPctGainLoop oracle openPrices userId rest db1 (some pctGain)
          else maxPctGainLoop oracle openPrices userId rest db1 (some m)
      else maxPctGainLoop oracle openPrices userId rest db1 maxPctGain

/-- The value `maxPctGain === -Infinity ? 0 : maxPctGain` stored in `userPctGains`. -/
def pctGainOrZero : Option ℚ → ℚ
  | none => 0
  | some g => g

/-- The score of one account: the body of the loop `for (const user of users)`. -/
def userPctGain (oracle : Oracle) (openPrices : OpenPrices) (user : User) (db : State) :
    State × Except String ℚ :=
  match maxPctGainLoop oracle openPrices user.userId user.portfolio db none with
  | (db1, .error message) => (db1, .error message)
  | (db1, .ok maxPctGain) => (db1, .ok (pctGainOrZero maxPctGain))

/-- The assignment `userPctGains[userId] = score` on the object `userPctGains`. -/
def pctGainSet : List (String × ℚ) → String → ℚ → List (String × ℚ)
  | [], userId, score => [(userId, score)]
  | (k, v0) :: rest, userId, score =>
    if k = userId then (k, score) :: rest else (k, v0) :: pctGainSet rest userId score

/-- The loop `for (const user of users)` that fills `userPctGains`. -/
def computePctGains (oracle : Oracle) (openPrices : OpenPrices) :
    List User → State → List (String × ℚ) → State × Except String (List (String × ℚ))
  | [], db, userPctGains => (db, .ok userPctGains)
  | user :: rest, db, userPctGains =>
    match userPctGain oracle openPrices user db with
    | (db1, .error message) => (db1, .error message)
    | (db1, .ok score) =>
      computePctGains oracle openPrices rest db1 (pctGainSet userPctGains user.userId score)

/-- The comparison `bestGain < 0`, with `none` for `-Infinity`. -/
def bestGainNegative : Option ℚ → Bool
  | none => true
  | some g => decide (g < 0)

/-- The comparison `pctGain > bestGain`, with `none` for `-Infinity`. -/
def exceedsBestGain (pctGain : ℚ) : Option ℚ → Bool
  | none => true
  | some g => decide (pctGain > g)

/-- One round of the loop `for (const userId in userPctGains)` on the pair
`(bestGain, bestUsers)`. -/
def selectStep (best : Option ℚ × List (String × ℚ)) (entry : String × ℚ) :
    Option ℚ × List (String × ℚ) :=
  let pctGain := entry.2
  if pctGain > 0 ∧ bestGainNegative best.1 then
    -- INITIAL CASE
    (some pctGain, best.2 ++ [entry])
  else if pctGain > 0 ∧ best.1 = some pctGain then
    -- TIE CASE
    (best.1, best.2 ++ [entry])
  else if pctGain > 0 ∧ exceedsBestGain pctGain best.1 then
    -- NEW-BEST CASE
    (some pctGain, [entry])
  else
    -- DEFAULT CASE
    best

/-- The winner selection: the loop `for (const userId in userPctGains)` started from
`bestGain = -Infinity`, `bestUsers = []`. -/
def selectBest (userPctGains : List (String × ℚ)) : Option ℚ × List (String × ℚ) :=
  userPctGains.foldl selectStep (none, [])

/-- The awards: `users.updateOne({ userId }, { $inc: { balance: award } })` for every
entry of `bestUsers`. -/
def awardUsers (users : List User) (award : ℚ) : List (String × ℚ) → List User
  | [] => users
  | winner :: rest =>
    awardUsers (updateOne users winner.1 fun u => { u with balance := u.balance + award })
      award rest

/-- The objects `#calculateAndAwardTopMonthlyGains` returns. -/
inductive Ceremony where
  /-- The object `{ success: false, message: response.message }` of a failed quote. -/
  | quoteFailed (message : String)
  /-- The object `{ success: false, message }` of the branch `bestGain === 0` ("no gains
  were made ... will roll over into the next month"). -/
  | noGains
  /-- The object `{ success: false, message: "No winner could be determined ..." }`. -/
  | noWinner
  /-- The object `{ success: true, userId, gain }`; `userId` is the joined ids of several
  winners, and `undefined` (`bestUsers.userId`) for a single winner; `gain` is `bestGain`
  (`none` for `-Infinity`). -/
  | awarded (userId : Option String) (gain : Option ℚ)
deriving DecidableEq

/-- The field `ceremony.success`. -/
def Ceremony.success : Ceremony → Bool
  | .awarded _ _ => true
  | _ => false

/-- Source: `#calculateAndAwardTopMonthlyGains()`.  Returns the database, the field
`runRollOverBonus` and the result. -/
def calculateAndAwardTopMonthlyGains (settings : Settings) (db : State)
    (runRollOverBonus : Bool) (oracle : Oracle) (startOfMonth : Nat) :
    State × Bool × Ceremony :=
  -- this.transactions.find({ timestamp: { $gte: startOfMonth } }), `startOfMonth` a `Date`
  let transactions := db.transactions.filter fun tx =>
    matchesGte .date startOfMonth timestampType tx.timestamp
  let userOpenPrices := recordOpenPrices transactions []
  match computePctGains oracle userOpenPrices db.users db [] with
  | (db1, .error message) => (db1, runRollOverBonus, .quoteFailed message)
  | (db1, .ok userPctGains) =>
    let best := selectBest userPctGains
    -- if (bestGain === 0)
    if best.1 = some 0 then (db1, true, .noGains)
    else if best.2.length > 1 then
      -- for (const user of bestUsers) users.updateOne(..., { $inc: { balance: monthlyAward } })
      ({ db1 with users := awardUsers db1.users settings.monthlyAward best.2 },
        runRollOverBonus,
        .awarded (some (String.intercalate ", " (best.2.map fun u => u.1))) best.1)
    else if best.2.length = 1 then
      -- users.updateOne({ userId: bestUsers[0].userId }, { $inc: { balance: monthlyAward } })
      ({ db1 with users := awardUsers db1.users settings.monthlyAward best.2 },
        runRollOverBonus, .awarded none best.1)
    else
      (db1, runRollOverBonus, .noWinner)

/-- Source: `rollOverBonus()`. -/
def rollOverBonus (db : State) : State :=
  { db with properties := incProperty db.properties "prizePool" 250 }

/-- The objects `transferMonthlyPrizePool` returns. -/
inductive TransferResult where
  /-- The object `{ success: false, message: 'Prize pool not found in properties.' }`. -/
  | notFound
  /-- The object `{ success: false, message: 'No bonus prize pool available ...' }`. -/
  | empty
  /-- The object `{ success: true, award, user }`. -/
  | transferred (award : ℚ) (user : String)
deriving DecidableEq

/-- Source: `transferMonthlyPrizePool(userId)`.  The `prizePool` document is only ever
written by `$inc`, so its value is a number; `none` is a `TypeError`. -/
def transferMonthlyPrizePool (db : State) (userId : String) : State × Option TransferResult :=
  let user := findOne db.users userId
  match propertyGet db.properties "prizePool" with
  | none => (db, some .notFound)
  | some (.num value) =>
    if value ≤ 0 then (db, some .empty)
    else
      match user with
      -- `user.username` on `null`
      | none => (db, none)
      | some user =>
        ({ db with users := updateOne db.users userId fun u =>
            { u with balance := u.balance + value } },
          some (.transferred value user.username))
  | some _ => (db, none)

/-- The objects `#EOMTasks` returns on the branches that reach a `return`. -/
inductive EOMResult where
  /-- The object `{ success: false, message: "No winners this month! ..." }`. -/
  | rolledOver
  /-- The object `{ success: false, message: "The ceremony failed ..." }`. -/
  | failed
deriving DecidableEq

/-- Source: `#EOMTasks()`.  Returns the database, the field `runRollOverBonus` and the
result; `none` is the `TypeError` of the first statement of the branch
`ceremony && ceremony.success`, which reads `ceremony.winner.userId` although no result
of `#calculateAndAwardTopMonthlyGains` has a field `winner`. -/
def EOMTasks (settings : Settings) (db : State) (runRollOverBonus : Bool) (oracle : Oracle)
    (startOfMonth : Nat) : State × Bool × Option EOMResult :=
  match calculateAndAwardTopMonthlyGains settings db runRollOverBonus oracle startOfMonth with
  | (db1, flag, ceremony) =>
    if ceremony.success then
      -- logger.log(`... Winner: ${ceremony.winner.userId} ...`)
      (db1, flag, none)
    else if flag then
      -- this.runRollOverBonus && !ceremony.success
      (rollOverBonus db1, false, some .rolledOver)
    else
      (db1, flag, some .failed)

/-! ## Year settlement -/

/-- The loop `for (const symbol in player.portfolio)` of `autoSellStocks`; a `sellStock`
that throws is caught and logged. -/
def autoSellPortfolio (oracle : Oracle) (now : Nat) (userId : String) :
    Portfolio → State → State
  | [], db => db
  | (symbol, stock) :: rest, db =>
    if stock.shares > 0 then
      autoSellPortfolio oracle now userId rest
        (sellStock db (oracle symbol) now userId symbol stock.shares).1
    else autoSellPortfolio oracle now userId rest db

/-- The loop `for (const player of players)` of `autoSellStocks`. -/
def autoSellPlayers (oracle : Oracle) (now : Nat) : List User → State → State
  | [], db => db
  | player :: rest, db =>
    autoSellPlayers oracle now rest (autoSellPortfolio oracle now player.userId player.portfolio db)

/-- Source: `autoSellStocks()`; the list returned is `playerGains`, one entry per
account with its final balance. -/
def autoSellStocks (db : State) (oracle : Oracle) (now : Nat) : State × List (String × ℚ) :=
  let db1 := autoSellPlayers oracle now db.users db
  (db1, db1.users.map fun player => (player.userId, player.balance))

/-- What a store call yields where it is not awaited: a pending promise. -/
structure Pending (α : Type) where
  resolvesTo : α

/-- A promise is an object, so it is truthy. -/
def Pending.truthy {α : Type} (_ : Pending α) : Bool := true

/-- A promise has no field `value`: `promise.value` is `undefined`, which is falsy. -/
def Pending.valueTruthy {α : Type} (_ : Pending α) : Bool := false

/-- The comparison `promise === 0`: an object is not the number 0. -/
def Pending.isZero {α : Type} (_ : Pending α) : Bool := false

/-- Source: `finalizeYearChecks()`; `none` is a thrown error.  The function is not
`async` and awaits none of its store calls, and the identifier `currentYear` it reads in
the last check is declared neither in the function nor in an enclosing scope, so that
evaluating the template `${currentYear}-12-31` throws a `ReferenceError`. -/
def finalizeYearChecks (db : State) : Option Bool :=
  let error := false
  -- const gameStarted = this.properties.findOne({ key: 'gameStarted' });
  let gameStarted : Pending (Option PropValue) := ⟨propertyGet db.properties "gameStarted"⟩
  -- if (!gameStarted || !gameStarted.value) error = true
  let error := if !gameStarted.truthy || !gameStarted.valueTruthy then true else error
  let currentYearFinalized : Pending (Option PropValue) :=
    ⟨propertyGet db.properties "currentYearFinalized"⟩
  -- if (currentYearFinalized && currentYearFinalized.value) error = true
  let error :=
    if currentYearFinalized.truthy && currentYearFinalized.valueTruthy then true else error
  -- const playersCount = this.users.countDocuments({});
  let playersCount : Pending Nat := ⟨db.users.length⟩
  let error := if playersCount.isZero then true else error
  let lastDayOfYear : Pending (Option PropValue) := ⟨propertyGet db.properties "lastDayOfYear"⟩
  -- if (!lastDayOfYear || lastDayOfYear.value !== `${currentYear}-12-31`)
  if !lastDayOfYear.truthy then
    -- error = true; return !error ? true : (logger.error(message), false)
    some (!(error || true))
  else
    -- the right operand is evaluated: ReferenceError on `currentYear`
    none

/-- Source: `findLargestAccountBalance()`: the first document in the order
`sort({ balance: -1 })`, or `null` when there is none. -/
def findLargestAccountBalance : List User → Option User
  | [] => none
  | u :: rest =>
    match findLargestAccountBalance rest with
    | none => some u
    | some best => if best.balance > u.balance then some best else some u

/-- Source: `getCurrentGameYear()`; `wallYear` is `new Date().getFullYear()`. -/
def getCurrentGameYear (db : State) (wallYear : Nat) : State × PropValue :=
  match propertyGet db.properties "year" with
  | none =>
    ({ db with properties := db.properties ++ [("year", .num wallYear)] }, .num wallYear)
  | some year => (db, year)

/-- The objects `finalizeYear` returns. -/
inductive FinalizeResult where
  /-- The array `[{ name: "Finalize Year Error", value: ... }]`. -/
  | checksFailed
  /-- The object `{ winner: { userId, balance }, leaderboard, message }`. -/
  | finalized (userId : String) (balance : ℚ)
deriving DecidableEq

/-- Source: `finalizeYear()`, up to the statement that throws; `none` is a thrown error.
The call `this.recordResultsToAnnals(currentYear, playerGains)` reads the identifier
`playerGains`, which `finalizeYear` does not declare (the value `autoSellStocks` returns
is dropped): a `ReferenceError`, so that no later statement is reached. -/
def finalizeYear (settings : Settings) (db : State) (oracle : Oracle) (now wallYear : Nat) :
    State × Option FinalizeResult :=
  match finalizeYearChecks db with
  | none => (db, none)
  | some false => (db, some .checksFailed)
  | some true =>
    let db1 := (autoSellStocks db oracle now).1
    match findLargestAccountBalance db1.users with
    -- `result.userId` on `null`
    | none => (db1, none)
    | some result =>
      let db2 := { db1 with users := updateOne db1.users result.userId fun u =>
        { u with balance := u.balance + settings.endOfYearAward } }
      let db3 := (getCurrentGameYear db2 wallYear).1
      (db3, none)

/-! ## The clock -/

/-- The Gregorian leap-year rule. -/
def isLeapYear (y : Nat) : Bool := (y % 4 == 0 && y % 100 != 0) || y % 400 == 0

/-- The number of days of month `m` (0 to 11) of year `y`. -/
def daysInMonth (y m : Nat) : Nat :=
  if m = 1 then (if isLeapYear y then 29 else 28)
  else if m = 3 ∨ m = 5 ∨ m = 8 ∨ m = 10 then 30
  else 31

/-- The number of days of year `y` before its month `m`. -/
def daysBeforeMonth (y : Nat) : Nat → Nat
  | 0 => 0
  | m + 1 => daysBeforeMonth y m + daysInMonth y m

/-- The number of days of the years before year `y`. -/
def daysBeforeYear (y : Nat) : Nat :=
  365 * y + (y + 3) / 4 - (y + 99) / 100 + (y + 399) / 400

/-- The constant `1000 * 60 * 60 * 24`. -/
def msPerDay : ℤ := 1000 * 60 * 60 * 24

/-- The time value of a date, in milliseconds (counted from the start of year 0, local
time): what `>=` and `-` on two `Date`s compare resp. subtract. -/
def JsDate.timeValue (d : JsDate) : ℤ :=
  ((daysBeforeYear d.year + daysBeforeMonth d.year d.month : Nat) + ((d.date : ℤ) - 1)) *
    msPerDay + d.msOfDay

/-- The date `new Date(now.getFullYear(), now.getMonth() + 1, 0)`: local midnight at the
start of the last day of the month of `now`. -/
def lastDayOfMonth (now : JsDate) : JsDate :=
  { year := now.year, month := now.month, date := daysInMonth now.year now.month,
    msOfDay := 0 }

/-- The instant `new Date(now.getFullYear(), now.getMonth(), 1)`, as a timestamp. -/
def startOfMonthOf (now : JsDate) : Nat :=
  (JsDate.timeValue { year := now.year, month := now.month, date := 1, msOfDay := 0 }).toNat

/-- JavaScript truthiness of a property value. -/
def PropValue.truthy : PropValue → Bool
  | .bool b => b
  | .num n => decide (n ≠ 0)
  | .str s => decide (s ≠ "")
  | .date _ => true

/-- The call `properties.updateOne({ key }, { $set: { value } })` without `upsert`: the
first matching document is rewritten, and nothing is inserted. -/
def updateProperty : List (String × PropValue) → String → PropValue → List (String × PropValue)
  | [], _, _ => []
  | (k, v0) :: rest, key, v =>
    if k = key then (k, v) :: rest else (k, v0) :: updateProperty rest key v

/-- Source: `#updateHeartbeatDate()`. -/
def updateHeartbeatDate (db : State) (now : JsDate) : State :=
  { db with properties := upsertProperty db.properties "heartbeatDate" (.date now) }

/-- Source: `#checkForMonthChange()`.  The property `lastDayOfCurrentMonth` is only ever
written here, with a date; any other value is read as a falsy value or an invalid date,
which differs from `now` in month and year. -/
def checkForMonthChange (db : State) (now : JsDate) : State :=
  let lastDay := lastDayOfMonth now
  let recomputed : List (String × PropValue) × JsDate :=
    (upsertProperty db.properties "lastDayOfCurrentMonth" (.date lastDay), lastDay)
  let (properties, lastDayDate) :=
    match propertyGet db.properties "lastDayOfCurrentMonth" with
    | some (.date stored) =>
      -- if (lastDayDate.getMonth() !== now.getMonth() || ...getFullYear() !== ...)
      if stored.month ≠ now.month ∨ stored.year ≠ now.year then recomputed
      else (db.properties, stored)
    -- if (!lastDayProp?.value)
    | _ => recomputed
  -- if (now >= lastDayDate)
  if now.timeValue ≥ lastDayDate.timeValue then
    { db with properties := upsertProperty properties "endOfMonthFlag" (.bool true) }
  else
    { db with properties := upsertProperty properties "endOfMonthFlag" (.bool false) }

/-- The date `new Date(year, 11, 31)`: local midnight at the start of 31 December. -/
def endOfYearOf (year : ℚ) : JsDate :=
  { year := ⌊year⌋.toNat, month := 11, date := 31, msOfDay := 0 }

/-- Source: `daysLeftInYear()`; `none` is the `TypeError` of `year.value` on `null`.  The
property `year` is only ever written with a number. -/
def daysLeftInYear (db : State) (now : JsDate) : Option ℤ :=
  match propertyGet db.properties "year" with
  | none => none
  | some (.num year) =>
    -- const endOfYear = new Date(year.value, 11, 31);
    let endOfYear : JsDate := endOfYearOf year
    let timeDiff := endOfYear.timeValue - now.timeValue
    let daysLeft : ℤ := ⌈((timeDiff : ℚ)) / (msPerDay : ℚ)⌉
    some (if daysLeft > 0 then daysLeft else 0)
  -- an invalid date: `NaN > 0` is false
  | some _ => some 0

/-- Source: `#checkForYearChange()`.  Returns the database and whether the year was
rolled forward; `none` is a thrown error. -/
def checkForYearChange (db : State) (now : JsDate) : State × Option Bool :=
  let currentYearFinalized := propertyGet db.properties "currentYearFinalized"
  let (db1, currentYear) := getCurrentGameYear db now.year
  let year := now.year
  -- currentYearFinalized && currentYearFinalized.value === true && currentYear !== year
  if currentYearFinalized = some (.bool true) ∧ currentYear ≠ .num year then
    match daysLeftInYear db1 now with
    | none => (db1, none)
    | some daysLeft =>
      if daysLeft ≤ 0 then
        let p1 := updateProperty db1.properties "year" (.num year)
        let p2 := updateProperty p1 "currentYearFinalized" (.bool false)
        let p3 := updateProperty p2 "lastDayOfYear" (.str (toString year ++ "-12-31"))
        let p4 := updateProperty p3 "gameStarted" (.bool false)
        ({ db1 with properties := p4 }, some true)
      else (db1, some false)
  else (db1, some false)

/-- One run of the interval callback of `#startHeartbeat()`; `none` is a thrown error. -/
def heartbeatTick (db : State) (now : JsDate) : State × Option Unit :=
  -- await this.#checkForMonthChange();
  let db1 := checkForMonthChange db now
  -- await this.#checkForYearChange();
  match checkForYearChange db1 now with
  | (db2, none) => (db2, none)
  | (db2, some _) =>
    -- await this.#updateHeartbeatDate();
    (updateHeartbeatDate db2 now, some ())

/-- Source: `#isEndOfTheMonth()`; `none` stands for the promise that never settles when
the property `endOfMonthFlag` is missing (`isEndOfMonth.value` on `null`). -/
def isEndOfTheMonth (db : State) (now : JsDate) : Option Bool :=
  let currentDate := now
  let lastDay := lastDayOfMonth currentDate
  match propertyGet db.properties "endOfMonthFlag" with
  | none => none
  | some value =>
    -- if (isEndOfMonth.value && currentDate.getDate() < lastDayOfMonth.getDate())
    some (value.truthy && decide (currentDate.date < lastDay.date))

/-- The objects `executeMonthlyAwardsCeremony` returns. -/
inductive CeremonyReport where
  /-- What `#EOMTasks()` returned. -/
  | endOfMonth (result : EOMResult)
  /-- The object `{ success: false, message }` of the branch `eom !== true`; the message
  depends on `daysLeft`. -/
  | notYet (daysLeft : ℤ)
deriving DecidableEq

/-- Source: `executeMonthlyAwardsCeremony()`.  Returns the database, the field
`runRollOverBonus` and the result; `none` is a thrown error or a promise that never
settles. -/
def executeMonthlyAwardsCeremony (settings : Settings) (db : State) (runRollOverBonus : Bool)
    (oracle : Oracle) (now : JsDate) : State × Bool × Option CeremonyReport :=
  match isEndOfTheMonth db now with
  | none => (db, runRollOverBonus, none)
  | some true =>
    match EOMTasks settings db runRollOverBonus oracle (startOfMonthOf now) with
    | (db1, flag, result) => (db1, flag, result.map CeremonyReport.endOfMonth)
  | some false =>
    let today := now
    let endOfMonth := lastDayOfMonth today
    let daysLeft : ℤ :=
      ⌈(((endOfMonth.timeValue - today.timeValue : ℤ) : ℚ)) / (msPerDay : ℚ)⌉
    (db, runRollOverBonus, some (.notYet daysLeft))

/-! ## Year settlement: the balance floor -/

/-- Source: the last loop of `finalizeYear()`,
`for (const user of await this.users.find({}).toArray())`, over the documents `users`
read at its start; `finalizeYear` throws before it reaches this loop. -/
def topUpBalances (settings : Settings) : List User → State → State
  | [], db => db
  | user :: rest, db =>
    if user.balance < settings.startingBalance then
      let difference := settings.startingBalance - user.balance
      -- await this.users.updateOne({ userId: user.userId }, { $inc: { balance: difference } })
      topUpBalances settings rest
        { db with users := updateOne db.users user.userId fun u =>
            { u with balance := u.balance + difference } }
    else topUpBalances settings rest db

/-- The top-up step of `finalizeYear()` on a database. -/
def topUpStep (settings : Settings) (db : State) : State :=
  topUpBalances settings db.users db

/-! ## Portfolio valuation -/

/-- A portfolio entry as `getUserPortfolio` returns it: `{ shares, avgPrice,
currentPrice, gains }`, the field `gains` being absent when the quote failed. -/
structure ValuedHolding where
  shares : ℤ
  avgPrice : ℚ
  currentPrice : ℚ
  gains : Option ℚ
deriving DecidableEq

/-- The loop `for (const symbol of Object.keys(user.portfolio))` of `getUserPortfolio`. -/
def valueHoldings (oracle : Oracle) : Portfolio → State → State × List (String × ValuedHolding)
  | [], db => (db, [])
  | (symbol, stock) :: rest, db =>
    let (db1, result) := getStockPrice db (oracle symbol)
    let valued : ValuedHolding :=
      match result with
      -- if (!result.success) user.portfolio[symbol].currentPrice = 0
      | .failed _ =>
        { shares := stock.shares, avgPrice := stock.avgPrice, currentPrice := 0, gains := none }
      | .ok currentPrice =>
        { shares := stock.shares, avgPrice := stock.avgPrice, currentPrice := currentPrice,
          gains := some (roundUpCents ((currentPrice - stock.avgPrice) * stock.shares)) }
    let (db2, others) := valueHoldings oracle rest db1
    (db2, (symbol, valued) :: others)

/-- The objects `getUserPortfolio` returns. -/
inductive PortfolioResult where
  /-- The object `{ success: false }`. -/
  | notFound
  /-- The object `{ success: true, portfolio }`. -/
  | valued (portfolio : List (String × ValuedHolding))
deriving DecidableEq

/-- Source: `getUserPortfolio(userId)`; `none` is the value `undefined` the function
returns when it runs off its end, the `return` being inside the test for a portfolio
that is not empty. -/
def getUserPortfolio (db : State) (oracle : Oracle) (userId : String) :
    State × Option PortfolioResult :=
  match findOne db.users userId with
  | none => (db, some .notFound)
  | some user =>
    -- if (user.portfolio && Object.keys(user.portfolio).length !== 0)
    if user.portfolio.length ≠ 0 then
      let (db1, portfolio) := valueHoldings oracle user.portfolio db
      (db1, some (.valued portfolio))
    else (db, none)

/-- What the top-up step makes of one account: raised to the floor when below it. -/
def toppedUp (settings : Settings) (u : User) : User :=
  if u.balance < settings.startingBalance then
    { u with balance := settings.startingBalance }
  else u

/-- The loop invariant of the winner selection, after the entries `done` have been
visited: with `bestGain = -Infinity` nothing was selected and no visited score is
positive; otherwise `bestGain` is positive, it bounds the visited scores, and
`bestUsers` holds, in order, exactly the visited entries with that score. -/
def SelectInv (done : List (String × ℚ)) (best : Option ℚ × List (String × ℚ)) : Prop :=
  match best.1 with
  | none => best.2 = [] ∧ ∀ v ∈ done, v.2 ≤ 0
  | some g =>
    0 < g ∧ (∀ v ∈ done, v.2 ≤ g) ∧ (∀ u, u ∈ best.2 ↔ u ∈ done ∧ u.2 = g) ∧
      best.2 ≠ [] ∧ best.2.Sublist done

/-- Two databases agree on everything except, possibly, the property
`apiLimitExceeded`. -/
def SameLedger (db db1 : State) : Prop :=
  db1.users = db.users ∧ db1.transactions = db.transactions ∧ db1.annals = db.annals ∧
    ∀ key, key ≠ "apiLimitExceeded" →
      propertyGet db1.properties key = propertyGet db.properties key

/-- The object `userOpenPrices` as `#calculateAndAwardTopMonthlyGains` computes it: the
opening prices recorded from the transactions its query returns. -/
def monthOpenPrices (db : State) (startOfMonth : Nat) : OpenPrices :=
  recordOpenPrices (db.transactions.filter fun tx =>
    matchesGte .date startOfMonth timestampType tx.timestamp) []

/-- The opening price of a holding as the comments of `#calculateAndAwardTopMonthlyGains`
and the spec (4.4) describe it: the price of the first `buy` transaction of that
(account, symbol) recorded since the start of the month, falling back to the holding's
average cost when there is no in-month buy. -/
def openPriceSpec (transactions : List Transaction) (startOfMonth : Nat)
    (userId symbol : String) (avgCost : ℚ) : ℚ :=
  match (transactions.filter fun tx =>
      decide (startOfMonth ≤ tx.timestamp) && (decide (tx.type = .buy) &&
        (decide (tx.userId = userId) && decide (tx.symbol = symbol)))).head? with
  | some tx => tx.price
  | none => avgCost

/-- The spec's percentage gain (4.4): `(current - open) / open * 100`. -/
def pctGainSpec (current opening : ℚ) : ℚ := (current - opening) / opening * 100

/-- The price the provider quotes for a symbol (0 when it quotes none). -/
def quotedPrice (oracle : Oracle) (symbol : String) : ℚ :=
  match oracle symbol with
  | .quotes price => price
  | _ => 0

/-- The percentage gain of a portfolio entry over its average cost. -/
def avgCostGain (oracle : Oracle) (entry : String × Holding) : ℚ :=
  pctGainSpec (quotedPrice oracle entry.1) entry.2.avgPrice

/-- The spec's percentage gain of a portfolio entry of an account in a month. -/
def entryGainSpec (db : State) (oracle : Oracle) (startOfMonth : Nat) (userId : String)
    (entry : String × Holding) : ℚ :=
  pctGainSpec (quotedPrice oracle entry.1)
    (openPriceSpec db.transactions startOfMonth userId entry.1 entry.2.avgPrice)

/-! ## Observations on a database -/

/-- The stored balance of an account (`none` when the account does not exist). -/
def balanceOf (db : State) (userId : String) : Option ℚ :=
  (findOne db.users userId).map fun u => u.balance

/-- The stored portfolio entry of an account for a symbol (`none` when the account
does not exist or does not hold the symbol). -/
def holdingOf (db : State) (userId symbol : String) : Option Holding :=
  (findOne db.users userId).bind fun u => portfolioGet u.portfolio symbol

/-- The data-model invariant of a portfolio: every entry has `shares > 0` and
`avgPrice >= 0`. -/
def PortfolioInv (p : Portfolio) : Prop :=
  ∀ e ∈ p, 0 < e.2.shares ∧ 0 ≤ e.2.avgPrice

/-- The portfolio invariant for every account of the database. -/
def StateInv (db : State) : Prop :=
  ∀ u ∈ db.users, PortfolioInv u.portfolio

/-! ## Named parts of `buyStock` and `sellStock` -/

/-- The update `buyStock` applies to the stored user document. -/
def buyUpdate (symbol : String) (entry : Holding) (cost : ℚ) (u : User) : User :=
  { u with portfolio := portfolioSet u.portfolio symbol entry, balance := u.balance + (-cost) }

/-- The portfolio entry `updatePortfolio` that `buyStock` computes. -/
def buyEntry (user : User) (symbol : String) (shares : ℤ) (price : ℚ) : Holding :=
  match portfolioGet user.portfolio symbol with
  | some current =>
    { shares := current.shares + shares
      avgPrice := roundUpCents
        ((current.avgPrice * current.shares + roundUpCents (price * shares)) /
          (current.shares + shares)) }
  | none => { shares := shares, avgPrice := roundUpCents price }

/-- The update `sellStock` applies to the stored user document. -/
def sellUpdate (symbol : String) (remainingShares : ℤ) (gains : ℚ) (u : User) : User :=
  if remainingShares > 0 then
    { u with
      portfolio := portfolioSetShares u.portfolio symbol remainingShares
      balance := u.balance + gains }
  else
    { u with portfolio := portfolioUnset u.portfolio symbol, balance := u.balance + gains }

/-! ## Named parts of `autoSellStocks` -/

/-- What the full sale of a portfolio entry credits: `price * shares` when the provider
quotes the symbol, nothing when it does not. -/
def saleProceeds (oracle : Oracle) (e : String × Holding) : ℚ :=
  match oracle e.1 with
  | .quotes price => price * e.2.shares
  | _ => 0

/-- The stored user document after `sellStock` was asked to sell the entry `e` in full:
the update of a sale that leaves no share when the provider quotes the symbol, the
document as it was when it does not. -/
def liquidateEntry (oracle : Oracle) (u : User) (e : String × Holding) : User :=
  match oracle e.1 with
  | .quotes price => sellUpdate e.1 0 (price * e.2.shares) u
  | _ => u

/-- The stored user document after the entries were sold one after the other. -/
def liquidateEntries (oracle : Oracle) (entries : Portfolio) (u : User) : User :=
  entries.foldl (liquidateEntry oracle) u

/-- The stored user document after all entries of its portfolio were sold. -/
def liquidateUser (oracle : Oracle) (u : User) : User :=
  liquidateEntries oracle u.portfolio u

/-! ## Sample data -/

/-- A user document with id `"A"`. -/
def sampleUser (balance : ℚ) (portfolio : Portfolio) : User :=
  { userId := "A", username := "alice", balance := balance, portfolio := portfolio,
    created := 0 }

/-- A database holding the single account `"A"`. -/
def sampleDb (balance : ℚ) (portfolio : Portfolio) : State :=
  { users := [sampleUser balance portfolio], transactions := [], properties := [] }

/-- Settings with a monthly award of 250. -/
def sampleSettings : Settings :=
  { startingBalance := 10000, monthlyAward := 250, endOfYearAward := 5000 }

/-- A provider quoting `X` at 105.00 and `Y` at 210.00, and no other symbol. -/
def sampleOracle : Oracle := fun symbol =>
  if symbol = "X" then .quotes 105 else if symbol = "Y" then .quotes 210 else .error

/-- Two accounts whose only holdings gain 5.00% each at `sampleOracle`, and a prize pool
of 500. -/
def tiedDb : State :=
  { users :=
      [{ userId := "A", username := "alice", balance := 9000,
         portfolio := [("X", { shares := 10, avgPrice := 100 })], created := 0 },
       { userId := "B", username := "bob", balance := 8000,
         portfolio := [("Y", { shares := 10, avgPrice := 200 })], created := 0 }]
    transactions := []
    properties := [("prizePool", .num 500)] }

/-- One account whose holding gains 5.00% at `sampleOracle`, and a prize pool of 250. -/
def winnerDb : State :=
  { users :=
      [{ userId := "A", username := "alice", balance := 9000,
         portfolio := [("X", { shares := 10, avgPrice := 100 })], created := 0 }]
    transactions := []
    properties := [("prizePool", .num 250)] }

/-- An account holding 20 `X` at an average cost of 90.00. -/
def openingUser : User :=
  { userId := "A", username := "alice", balance := 9000,
    portfolio := [("X", { shares := 20, avgPrice := 90 })], created := 0 }

/-- A database with `openingUser` and its two buys of `X`: 10 shares at 80.00 at the
instant 5, and 10 shares at 100.00 at the instant 50. -/
def openingDb : State :=
  { users := [openingUser]
    transactions :=
      [{ userId := "A", symbol := "X", shares := 10, price := 80, type := .buy, timestamp := 5 },
       { userId := "A", symbol := "X", shares := 10, price := 100, type := .buy,
         timestamp := 50 }]
    properties := [] }

/-- A database on which the four preconditions of the year settlement hold for the game
year 2025: the game has started, the year is not finalized, there is an account, and
`lastDayOfYear` is `2025-12-31`. -/
def readyDb : State :=
  { users :=
      [{ userId := "A", username := "alice", balance := 12000, portfolio := [], created := 0 },
       { userId := "B", username := "bob", balance := 9000, portfolio := [], created := 0 }]
    transactions := []
    properties :=
      [("gameStarted", .bool true), ("currentYearFinalized", .bool false),
       ("year", .num 2025), ("lastDayOfYear", .str "2025-12-31")] }

/-- The database `readyDb` with the year already finalized. -/
def finalizedDb : State :=
  { readyDb with
    properties :=
      [("gameStarted", .bool false), ("currentYearFinalized", .bool true),
       ("year", .num 2025), ("lastDayOfYear", .str "2025-12-31")] }

/-- The date 31 January 2025, 10:00, the last day of its month. -/
def lastOfJanuary : JsDate := { year := 2025, month := 0, date := 31, msOfDay := 36000000 }

/-- The date 1 January 2026, 10:00. -/
def newYearsDay : JsDate := { year := 2026, month := 0, date := 1, msOfDay := 36000000 }

/-- The database `winnerDb` with a `lastDayOfCurrentMonth` computed in December 2024. -/
def decemberDb : State :=
  { winnerDb with
    properties :=
      [("prizePool", .num 250),
       ("lastDayOfCurrentMonth",
        .date { year := 2024, month := 11, date := 31, msOfDay := 0 })] }

/-- An account holding `Z` (not quoted by `sampleOracle`) and `X` (quoted at 105.00). -/
def liquidationA : User :=
  { userId := "A", username := "alice", balance := 9000,
    portfolio := [("Z", { shares := 1, avgPrice := 50 }),
      ("X", { shares := 10, avgPrice := 100 })],
    created := 0 }

/-- An account holding `Y` (quoted at 210.00 by `sampleOracle`). -/
def liquidationB : User :=
  { userId := "B", username := "bob", balance := 8000,
    portfolio := [("Y", { shares := 2, avgPrice := 200 })], created := 0 }

/-- The two accounts `liquidationA` and `liquidationB`. -/
def liquidationDb : State :=
  { users := [liquidationA, liquidationB], transactions := [], properties := [] }

/-! ## Lemmas on rounding -/

/-- Reference values of `toDouble`: integers stay as they are, and the doubles nearest
to 0.1 and to 10.05 are `0x1.999999999999ap-4` and `0x1.419999999999ap+3`. -/
theorem toDouble_examples :
    toDouble 1005 = 1005 ∧ toDouble (-630) = -630 ∧ toDouble 0 = 0 ∧
      toDouble (1 / 10) = 3602879701896397 / 2 ^ 55 ∧
      toDouble (1005 / 100) = 2828823515942093 / 2 ^ 48 ∧
      toDouble (2828823515942093 / 2 ^ 48 * 100) = 8840073487319041 / 2 ^ 43 := by
  refine ⟨by decide!, by decide!, by decide!, by decide!, by decide!, by decide!⟩

theorem toDouble_nonneg {x : ℚ} (h : 0 ≤ x) : 0 ≤ toDouble x := by
  unfold toDouble
  simp only
  split
  · exact le_refl _
  · have hnum : 0 ≤ x.num := Rat.num_nonneg.mpr h
    have hsign : (0 : ℚ) ≤ (x.num.sign : ℚ) := Int.cast_nonneg.mpr (Int.sign_nonneg.mpr hnum)
    exact mul_nonneg hsign (div_nonneg (Nat.cast_nonneg _) (Nat.cast_nonneg _))

theorem roundUpCents_nonneg {x : ℚ} (h : 0 ≤ x) : 0 ≤ roundUpCents x := by
  unfold roundUpCents
  have h1 : 0 ≤ toDouble (toDouble x * 100) :=
    toDouble_nonneg (mul_nonneg (toDouble_nonneg h) (by norm_num))
  have h2 : (0 : ℤ) ≤ ⌈toDouble (toDouble x * 100)⌉ := Int.ceil_nonneg h1
  have h3 : (0 : ℚ) ≤ ((⌈toDouble (toDouble x * 100)⌉ : ℤ) : ℚ) := Int.cast_nonneg.mpr h2
  exact div_nonneg h3 (by norm_num)

/-! ## Lemmas on the store primitives -/

theorem portfolioGet_set_same (p : Portfolio) (symbol : String) (h : Holding) :
    portfolioGet (portfolioSet p symbol h) symbol = some h := by
  induction p with
  | nil => simp [portfolioSet, portfolioGet]
  | cons e rest ih =>
    obtain ⟨k, h0⟩ := e
    by_cases hk : k = symbol
    · simp [portfolioSet, portfolioGet, hk]
    · simp [portfolioSet, portfolioGet, hk, ih]

theorem portfolioGet_set_other (p : Portfolio) (symbol other : String) (h : Holding)
    (hne : other ≠ symbol) :
    portfolioGet (portfolioSet p symbol h) other = portfolioGet p other := by
  induction p with
  | nil => simp [portfolioSet, portfolioGet, Ne.symm hne]
  | cons e rest ih =>
    obtain ⟨k, h0⟩ := e
    by_cases hk : k = symbol
    · subst hk
      simp [portfolioSet, portfolioGet, Ne.symm hne]
    · by_cases hko : k = other
      · subst hko
        simp [portfolioSet, portfolioGet, hne]
      · simp [portfolioSet, portfolioGet, hk, hko, ih]

theorem portfolioGet_unset_same (p : Portfolio) (symbol : String) :
    portfolioGet (portfolioUnset p symbol) symbol = none := by
  induction p with
  | nil => simp [portfolioUnset, portfolioGet]
  | cons e rest ih =>
    obtain ⟨k, h0⟩ := e
    by_cases hk : k = symbol
    · simp [portfolioUnset, hk, ih]
    · simp [portfolioUnset, portfolioGet, hk, ih]

theorem portfolioGet_unset_other (p : Portfolio) (symbol other : String)
    (hne : other ≠ symbol) :
    portfolioGet (portfolioUnset p symbol) other = portfolioGet p other := by
  induction p with
  | nil => simp [portfolioUnset, portfolioGet]
  | cons e rest ih =>
    obtain ⟨k, h0⟩ := e
    by_cases hk : k = symbol
    · subst hk
      simp [portfolioUnset, portfolioGet, Ne.symm hne, ih]
    · by_cases hko : k = other
      · subst hko
        simp [portfolioUnset, portfolioGet, hne]
      · simp [portfolioUnset, portfolioGet, hk, hko, ih]

theorem portfolioGet_setShares_same (p : Portfolio) (symbol : String) (n : ℤ) (held : Holding)
    (hg : portfolioGet p symbol = some held) :
    portfolioGet (portfolioSetShares p symbol n) symbol =
      some { shares := n, avgPrice := held.avgPrice } := by
  induction p with
  | nil => simp [portfolioGet] at hg
  | cons e rest ih =>
    obtain ⟨k, h0⟩ := e
    by_cases hk : k = symbol
    · simp [portfolioGet, hk] at hg
      simp [portfolioSetShares, portfolioGet, hk, hg]
    · simp [portfolioGet, hk] at hg
      simp [portfolioSetShares, portfolioGet, hk, ih hg]

theorem portfolioGet_setShares_other (p : Portfolio) (symbol other : String) (n : ℤ)
    (hne : other ≠ symbol) :
    portfolioGet (portfolioSetShares p symbol n) other = portfolioGet p other := by
  induction p with
  | nil => simp [portfolioSetShares, portfolioGet]
  | cons e rest ih =>
    obtain ⟨k, h0⟩ := e
    by_cases hk : k = symbol
    · subst hk
      simp [portfolioSetShares, portfolioGet, Ne.symm hne]
    · by_cases hko : k = other
      · subst hko
        simp [portfolioSetShares, portfolioGet, hne]
      · simp [portfolioSetShares, portfolioGet, hk, hko, ih]

theorem portfolioGet_mem (p : Portfolio) (symbol : String) (held : Holding)
    (hg : portfolioGet p symbol = some held) : (symbol, held) ∈ p := by
  induction p with
  | nil => simp [portfolioGet] at hg
  | cons e rest ih =>
    obtain ⟨k, h0⟩ := e
    by_cases hk : k = symbol
    · simp [portfolioGet, hk] at hg
      simp [hk, hg]
    · simp [portfolioGet, hk] at hg
      exact List.mem_cons_of_mem _ (ih hg)

theorem mem_portfolioSet (p : Portfolio) (symbol : String) (h : Holding)
    (e : String × Holding) (he : e ∈ portfolioSet p symbol h) : e ∈ p ∨ e.2 = h := by
  induction p with
  | nil =>
    simp [portfolioSet] at he
    right; rw [he]
  | cons e0 rest ih =>
    obtain ⟨k, h0⟩ := e0
    by_cases hk : k = symbol
    · simp [portfolioSet, hk] at he
      rcases he with he | he
      · right; rw [he]
      · left; exact List.mem_cons_of_mem _ he
    · simp [portfolioSet, hk] at he
      rcases he with he | he
      · left; rw [he]; exact List.mem_cons_self _ _
      · rcases ih he with h1 | h1
        · left; exact List.mem_cons_of_mem _ h1
        · right; exact h1

theorem mem_portfolioUnset (p : Portfolio) (symbol : String)
    (e : String × Holding) (he : e ∈ portfolioUnset p symbol) : e ∈ p := by
  induction p with
  | nil => simp [portfolioUnset] at he
  | cons e0 rest ih =>
    obtain ⟨k, h0⟩ := e0
    by_cases hk : k = symbol
    · simp [portfolioUnset, hk] at he
      exact List.mem_cons_of_mem _ (ih he)
    · simp [portfolioUnset, hk] at he
      rcases he with he | he
      · rw [he]; exact List.mem_cons_self _ _
      · exact List.mem_cons_of_mem _ (ih he)

theorem mem_portfolioSetShares (p : Portfolio) (symbol : String) (n : ℤ)
    (e : String × Holding) (he : e ∈ portfolioSetShares p symbol n) :
    e ∈ p ∨ (e.2.shares = n ∧ ∃ e0 ∈ p, e.2.avgPrice = e0.2.avgPrice) := by
  induction p with
  | nil => simp [portfolioSetShares] at he
  | cons e0 rest ih =>
    obtain ⟨k, h0⟩ := e0
    by_cases hk : k = symbol
    · simp [portfolioSetShares, hk] at he
      rcases he with he | he
      · right
        refine ⟨by rw [he], (k, h0), List.mem_cons_self _ _, by rw [he]⟩
      · left; exact List.mem_cons_of_mem _ he
    · simp [portfolioSetShares, hk] at he
      rcases he with he | he
      · left; rw [he]; exact List.mem_cons_self _ _
      · rcases ih he with h1 | ⟨h1, e1, he1, h2⟩
        · left; exact List.mem_cons_of_mem _ h1
        · right; exact ⟨h1, e1, List.mem_cons_of_mem _ he1, h2⟩

theorem findOne_updateOne_same (users : List User) (userId : String) (f : User → User)
    (user : User) (hu : findOne users userId = some user) (hf : (f user).userId = userId) :
    findOne (updateOne users userId f) userId = some (f user) := by
  induction users with
  | nil => simp [findOne] at hu
  | cons u rest ih =>
    by_cases hk : u.userId = userId
    · simp [findOne, hk] at hu
      subst hu
      simp [updateOne, findOne, hk, hf]
    · simp [findOne, hk] at hu
      simp [updateOne, findOne, hk, ih hu]

theorem findOne_updateOne_other (users : List User) (userId other : String) (f : User → User)
    (hf : ∀ u, (f u).userId = u.userId) (hne : other ≠ userId) :
    findOne (updateOne users userId f) other = findOne users other := by
  induction users with
  | nil => simp [updateOne, findOne]
  | cons u rest ih =>
    by_cases hk : u.userId = userId
    · have h1 : ¬ (f u).userId = other := by rw [hf, hk]; exact Ne.symm hne
      have h2 : ¬ u.userId = other := by rw [hk]; exact Ne.symm hne
      simp [updateOne, findOne, hk, h1, h2, Ne.symm hne]
    · by_cases hko : u.userId = other
      · simp [updateOne, findOne, hk, hko, hne]
      · simp [updateOne, findOne, hk, hko, ih]

theorem mem_updateOne (users : List User) (userId : String) (f : User → User)
    (u : User) (hu : u ∈ updateOne users userId f) :
    u ∈ users ∨ ∃ u0, findOne users userId = some u0 ∧ u = f u0 := by
  induction users with
  | nil => simp [updateOne] at hu
  | cons u1 rest ih =>
    by_cases hk : u1.userId = userId
    · simp [updateOne, hk] at hu
      rcases hu with hu | hu
      · right; exact ⟨u1, by simp [findOne, hk], hu⟩
      · left; exact List.mem_cons_of_mem _ hu
    · simp [updateOne, hk] at hu
      rcases hu with hu | hu
      · left; rw [hu]; exact List.mem_cons_self _ _
      · rcases ih hu with h1 | ⟨u0, h1, h2⟩
        · left; exact List.mem_cons_of_mem _ h1
        · right; exact ⟨u0, by simp [findOne, hk, h1], h2⟩

theorem findOne_mem (users : List User) (userId : String) (user : User)
    (hu : findOne users userId = some user) : user ∈ users ∧ user.userId = userId := by
  induction users with
  | nil => simp [findOne] at hu
  | cons u rest ih =>
    by_cases hk : u.userId = userId
    · simp [findOne, hk] at hu
      subst hu
      exact ⟨List.mem_cons_self _ _, hk⟩
    · simp [findOne, hk] at hu
      exact ⟨List.mem_cons_of_mem _ (ih hu).1, (ih hu).2⟩

/-! ## Lemmas on `buyStock` and `sellStock` -/

theorem buyStock_bought (db : State) (now : Nat) (userId symbol : String) (shares : ℤ)
    (p : ℚ) (user : User) (hu : findOne db.users userId = some user)
    (hb : ¬ user.balance < roundUpCents (p * shares)) :
    buyStock db (.quotes p) now userId symbol shares =
      ({ db with
          users := updateOne db.users userId
            (buyUpdate symbol (buyEntry user symbol shares p) (roundUpCents (p * shares)))
          transactions := db.transactions ++
            [{ userId := userId, symbol := symbol, shares := shares, price := p,
               type := .buy, timestamp := now }] },
        some (.bought (user.balance - roundUpCents (p * shares)) (roundUpCents (p * shares))
          shares p)) := by
  simp only [buyStock, getStockPrice, hu, hb, if_false]
  rfl

theorem buyStock_insufficient (db : State) (now : Nat) (userId symbol : String) (shares : ℤ)
    (p : ℚ) (user : User) (hu : findOne db.users userId = some user)
    (hb : user.balance < roundUpCents (p * shares)) :
    buyStock db (.quotes p) now userId symbol shares =
      (db, some (.insufficientFunds (roundUpCents (p * shares)))) := by
  simp only [buyStock, getStockPrice, hu, hb, if_true]

theorem buyStock_no_user (db : State) (now : Nat) (userId symbol : String) (shares : ℤ)
    (p : ℚ) (hu : findOne db.users userId = none) :
    buyStock db (.quotes p) now userId symbol shares = (db, none) := by
  simp only [buyStock, getStockPrice, hu]

theorem buyStock_error (db : State) (now : Nat) (userId symbol : String) (shares : ℤ) :
    buyStock db .error now userId symbol shares =
      (db, some (.quoteFailed "Stock symbol not tracked by this service ." symbol)) := by
  simp only [buyStock, getStockPrice]

theorem buyStock_other (db : State) (now : Nat) (userId symbol : String) (shares : ℤ) :
    buyStock db .other now userId symbol shares =
      (setAPILimitExceededFlag db,
        some (.quoteFailed "API limit exceeded. Please try again later." symbol)) := by
  simp only [buyStock, getStockPrice]

/-- Every `buyStock` that does not return `success: true` leaves `users` and
`transactions` as they were. -/
theorem buyStock_unchanged_of_not_success (db : State) (data : FmpData) (now : Nat)
    (userId symbol : String) (shares : ℤ)
    (h : ∀ r, (buyStock db data now userId symbol shares).2 = some r → r.success = false) :
    (buyStock db data now userId symbol shares).1.users = db.users ∧
      (buyStock db data now userId symbol shares).1.transactions = db.transactions := by
  cases data with
  | error => rw [buyStock_error]; exact ⟨rfl, rfl⟩
  | other => rw [buyStock_other]; exact ⟨rfl, rfl⟩
  | quotes p =>
    cases hu : findOne db.users userId with
    | none => rw [buyStock_no_user db now userId symbol shares p hu]; exact ⟨rfl, rfl⟩
    | some user =>
      by_cases hb : user.balance < roundUpCents (p * shares)
      · rw [buyStock_insufficient db now userId symbol shares p user hu hb]; exact ⟨rfl, rfl⟩
      · have h1 := h _ (by rw [buyStock_bought db now userId symbol shares p user hu hb])
        simp [BuyResult.success] at h1

theorem sellStock_sold (db : State) (now : Nat) (userId symbol : String) (shares : ℤ)
    (p : ℚ) (user : User) (held : Holding) (hu : findOne db.users userId = some user)
    (hg : portfolioGet user.portfolio symbol = some held) (hs : ¬ held.shares < shares) :
    sellStock db (.quotes p) now userId symbol shares =
      ({ db with
          users := updateOne db.users userId
            (sellUpdate symbol (held.shares - shares) (p * shares))
          transactions := db.transactions ++
            [{ userId := userId, symbol := symbol, shares := shares, price := p,
               type := .sell, timestamp := now }] },
        some (.sold user.username symbol (held.shares - shares) (p * shares) p)) := by
  simp only [sellStock, getStockPrice, hu, hg, hs, if_false]
  by_cases hr : held.shares - shares > 0
  · simp only [hr, if_true]
    have : sellUpdate symbol (held.shares - shares) (p * shares) = fun u =>
        { u with
          portfolio := portfolioSetShares u.portfolio symbol (held.shares - shares)
          balance := u.balance + p * shares } := by
      funext u; simp [sellUpdate, hr]
    rw [this]
  · simp only [hr, if_false]
    have : sellUpdate symbol (held.shares - shares) (p * shares) = fun u =>
        { u with
          portfolio := portfolioUnset u.portfolio symbol
          balance := u.balance + p * shares } := by
      funext u; simp [sellUpdate, hr]
    rw [this]

theorem sellStock_insufficient (db : State) (now : Nat) (userId symbol : String) (shares : ℤ)
    (p : ℚ) (user : User) (held : Holding) (hu : findOne db.users userId = some user)
    (hg : portfolioGet user.portfolio symbol = some held) (hs : held.shares < shares) :
    sellStock db (.quotes p) now userId symbol shares =
      (db, some (.insufficientShares user.username symbol shares held.shares p)) := by
  simp only [sellStock, getStockPrice, hu, hg, hs, if_true, availShares]

theorem sellStock_absent (db : State) (now : Nat) (userId symbol : String) (shares : ℤ)
    (p : ℚ) (user : User) (hu : findOne db.users userId = some user)
    (hg : portfolioGet user.portfolio symbol = none) :
    sellStock db (.quotes p) now userId symbol shares =
      (db, some (.insufficientShares user.username symbol shares 0 p)) := by
  simp only [sellStock, getStockPrice, hu, hg, availShares]

theorem sellStock_no_user (db : State) (data : FmpData) (now : Nat) (userId symbol : String)
    (shares : ℤ) (hu : findOne db.users userId = none) :
    sellStock db data now userId symbol shares = ((getStockPrice db data).1, none) := by
  simp only [sellStock, hu]

theorem sellStock_error (db : State) (now : Nat) (userId symbol : String) (shares : ℤ)
    (user : User) (hu : findOne db.users userId = some user) :
    sellStock db .error now userId symbol shares =
      (db, some (.quoteFailed "Stock symbol not tracked by this service ." user.username
        symbol shares (availShares user.portfolio symbol))) := by
  simp only [sellStock, getStockPrice, hu]

theorem sellStock_other (db : State) (now : Nat) (userId symbol : String) (shares : ℤ)
    (user : User) (hu : findOne db.users userId = some user) :
    sellStock db .other now userId symbol shares =
      (setAPILimitExceededFlag db,
        some (.quoteFailed "API limit exceeded. Please try again later." user.username
          symbol shares (availShares user.portfolio symbol))) := by
  simp only [sellStock, getStockPrice, hu]

theorem getStockPrice_users (db : State) (data : FmpData) :
    (getStockPrice db data).1.users = db.users ∧
      (getStockPrice db data).1.transactions = db.transactions := by
  cases data <;> exact ⟨rfl, rfl⟩

/-- Every `sellStock` that does not return `success: true` leaves `users` and
`transactions` as they were. -/
theorem sellStock_unchanged_of_not_success (db : State) (data : FmpData) (now : Nat)
    (userId symbol : String) (shares : ℤ)
    (h : ∀ r, (sellStock db data now userId symbol shares).2 = some r → r.success = false) :
    (sellStock db data now userId symbol shares).1.users = db.users ∧
      (sellStock db data now userId symbol shares).1.transactions = db.transactions := by
  cases hu : findOne db.users userId with
  | none =>
    rw [sellStock_no_user db data now userId symbol shares hu]
    exact getStockPrice_users db data
  | some user =>
    cases data with
    | error => rw [sellStock_error db now userId symbol shares user hu]; exact ⟨rfl, rfl⟩
    | other => rw [sellStock_other db now userId symbol shares user hu]; exact ⟨rfl, rfl⟩
    | quotes p =>
      cases hg : portfolioGet user.portfolio symbol with
      | none =>
        rw [sellStock_absent db now userId symbol shares p user hu hg]; exact ⟨rfl, rfl⟩
      | some held =>
        by_cases hs : held.shares < shares
        · rw [sellStock_insufficient db now userId symbol shares p user held hu hg hs]
          exact ⟨rfl, rfl⟩
        · have h1 := h _ (by rw [sellStock_sold db now userId symbol shares p user held hu hg hs])
          simp [SellResult.success] at h1

theorem buyUpdate_userId (symbol : String) (entry : Holding) (cost : ℚ) (u : User) :
    (buyUpdate symbol entry cost u).userId = u.userId := rfl

theorem sellUpdate_userId (symbol : String) (remainingShares : ℤ) (gains : ℚ) (u : User) :
    (sellUpdate symbol remainingShares gains u).userId = u.userId := by
  unfold sellUpdate
  split <;> rfl

theorem sellUpdate_balance (symbol : String) (remainingShares : ℤ) (gains : ℚ) (u : User) :
    (sellUpdate symbol remainingShares gains u).balance = u.balance + gains := by
  unfold sellUpdate
  split <;> rfl

theorem findOne_sampleDb (balance : ℚ) (portfolio : Portfolio) :
    findOne (sampleDb balance portfolio).users "A" = some (sampleUser balance portfolio) := by
  simp [sampleDb, sampleUser, findOne]

theorem roundUpCents_eq_of (x : ℚ) (n : ℤ) (h : ⌈toDouble (toDouble x * 100)⌉ = n) :
    roundUpCents x = (n : ℚ) / 100 := by
  unfold roundUpCents
  rw [h]

theorem holdingOf_buyStock (db : State) (now : Nat) (userId symbol : String) (shares : ℤ)
    (p : ℚ) (user : User) (hu : findOne db.users userId = some user)
    (hb : ¬ user.balance < roundUpCents (p * shares)) :
    holdingOf (buyStock db (.quotes p) now userId symbol shares).1 userId symbol =
      some (buyEntry user symbol shares p) := by
  rw [buyStock_bought db now userId symbol shares p user hu hb]
  have hid := (findOne_mem db.users userId user hu).2
  simp only [holdingOf]
  rw [findOne_updateOne_same db.users userId _ user hu (by rw [buyUpdate_userId]; exact hid)]
  simp [buyUpdate, portfolioGet_set_same]

theorem balanceOf_buyStock (db : State) (now : Nat) (userId symbol : String) (shares : ℤ)
    (p : ℚ) (user : User) (hu : findOne db.users userId = some user)
    (hb : ¬ user.balance < roundUpCents (p * shares)) :
    balanceOf (buyStock db (.quotes p) now userId symbol shares).1 userId =
      some (user.balance - roundUpCents (p * shares)) := by
  rw [buyStock_bought db now userId symbol shares p user hu hb]
  have hid := (findOne_mem db.users userId user hu).2
  simp only [balanceOf]
  rw [findOne_updateOne_same db.users userId _ user hu (by rw [buyUpdate_userId]; exact hid)]
  simp [buyUpdate, sub_eq_add_neg]

theorem balanceOf_sellStock (db : State) (now : Nat) (userId symbol : String) (shares : ℤ)
    (p : ℚ) (user : User) (held : Holding) (hu : findOne db.users userId = some user)
    (hg : portfolioGet user.portfolio symbol = some held) (hs : ¬ held.shares < shares) :
    balanceOf (sellStock db (.quotes p) now userId symbol shares).1 userId =
      some (user.balance + p * shares) := by
  rw [sellStock_sold db now userId symbol shares p user held hu hg hs]
  have hid := (findOne_mem db.users userId user hu).2
  simp only [balanceOf]
  rw [findOne_updateOne_same db.users userId _ user hu (by rw [sellUpdate_userId]; exact hid)]
  simp [sellUpdate_balance]

theorem holdingOf_sellStock (db : State) (now : Nat) (userId symbol other : String)
    (shares : ℤ) (p : ℚ) (user : User) (held : Holding)
    (hu : findOne db.users userId = some user)
    (hg : portfolioGet user.portfolio symbol = some held) (hs : ¬ held.shares < shares) :
    holdingOf (sellStock db (.quotes p) now userId symbol shares).1 userId other =
      portfolioGet (sellUpdate symbol (held.shares - shares) (p * shares) user).portfolio
        other := by
  rw [sellStock_sold db now userId symbol shares p user held hu hg hs]
  have hid := (findOne_mem db.users userId user hu).2
  simp only [holdingOf]
  rw [findOne_updateOne_same db.users userId _ user hu (by rw [sellUpdate_userId]; exact hid)]
  rfl

theorem stateInv_of_users_eq {db db1 : State} (h : db1.users = db.users) (hinv : StateInv db) :
    StateInv db1 := by
  intro u hu
  rw [h] at hu
  exact hinv u hu

theorem buyEntry_inv (user : User) (symbol : String) (shares : ℤ) (p : ℚ)
    (hinv : PortfolioInv user.portfolio) (hs : 0 < shares) (hp : 0 ≤ p) :
    0 < (buyEntry user symbol shares p).shares ∧ 0 ≤ (buyEntry user symbol shares p).avgPrice := by
  have hsq : (0 : ℚ) < (shares : ℚ) := by exact_mod_cast hs
  have hcost : 0 ≤ roundUpCents (p * shares) :=
    roundUpCents_nonneg (mul_nonneg hp (le_of_lt hsq))
  unfold buyEntry
  cases hg : portfolioGet user.portfolio symbol with
  | none => exact ⟨hs, roundUpCents_nonneg hp⟩
  | some current =>
    have h1 : 0 < current.shares := (hinv _ (portfolioGet_mem _ _ _ hg)).1
    have h2 : 0 ≤ current.avgPrice := (hinv _ (portfolioGet_mem _ _ _ hg)).2
    have h1q : (0 : ℚ) < (current.shares : ℚ) := by exact_mod_cast h1
    refine ⟨by show 0 < current.shares + shares; omega, ?_⟩
    apply roundUpCents_nonneg
    apply div_nonneg
    · exact add_nonneg (mul_nonneg h2 (le_of_lt h1q)) hcost
    · linarith

/-! ## The claims -/

/-- C1, evaluation at the failing input: the amount `buyStock` debits is not
`ceil(p*s*100)/100`.  One share at 10.05, bought from a balance of 10000, is debited
10.06 and not `ceil(10.05 * 1 * 100) / 100 = 10.05`: on doubles `10.05 * 100` is
`1005.0000000000001`, which `Math.ceil` takes to 1006.  The result reports the cost
10.06, the new balance and the price.  What every buy that goes through debits, and
reports as its cost, is `roundUpCents(p * s)` as the doubles compute it. -/
theorem buyStock_debits_a_cent_more :
    (buyStock (sampleDb 10000 []) (.quotes (1005 / 100)) 1 "A" "X" 1).2 =
        some (.bought (10000 - 1006 / 100) (1006 / 100) 1 (1005 / 100)) ∧
      balanceOf (buyStock (sampleDb 10000 []) (.quotes (1005 / 100)) 1 "A" "X" 1).1 "A" =
        some (10000 - 1006 / 100) ∧
      ((⌈(1005 / 100 : ℚ) * ((1 : ℤ) : ℚ) * 100⌉ : ℤ) : ℚ) / 100 = 1005 / 100 ∧
      (1005 : ℚ) < toDouble (toDouble (1005 / 100 * ((1 : ℤ) : ℚ)) * 100) ∧
      (∀ (db : State) (now : Nat) (userId symbol : String) (shares : ℤ) (p : ℚ) (user : User),
        findOne db.users userId = some user → roundUpCents (p * shares) ≤ user.balance →
        balanceOf (buyStock db (.quotes p) now userId symbol shares).1 userId =
            some (user.balance - roundUpCents (p * shares)) ∧
          (buyStock db (.quotes p) now userId symbol shares).2 =
            some (.bought (user.balance - roundUpCents (p * shares))
              (roundUpCents (p * shares)) shares p)) := by
  have hr : roundUpCents (1005 / 100 * ((1 : ℤ) : ℚ)) = 1006 / 100 := by
    rw [roundUpCents_eq_of _ 1006 (by decide!)]
    norm_num
  have hb : ¬ (sampleUser 10000 []).balance < roundUpCents (1005 / 100 * ((1 : ℤ) : ℚ)) := by
    rw [hr]
    norm_num [sampleUser]
  refine ⟨?_, ?_, by decide!, by decide!, ?_⟩
  · rw [buyStock_bought _ 1 "A" "X" 1 (1005 / 100) _ (findOne_sampleDb _ _) hb, hr]
    rfl
  · rw [balanceOf_buyStock _ 1 "A" "X" 1 (1005 / 100) _ (findOne_sampleDb _ _) hb, hr]
    rfl
  · intro db now userId symbol shares p user hu hle
    exact ⟨balanceOf_buyStock db now userId symbol shares p user hu (not_lt.mpr hle),
      by rw [buyStock_bought db now userId symbol shares p user hu (not_lt.mpr hle)]⟩

/-- C2, counterexample: the stored average cost is not the exact share-weighted mean.
A first buy of 3 shares at 10.001 costs 30.01 and stores `avgPrice` 10.01, not
`30.01 / 3`; a buy of 2 shares at 10.01 (cost 20.02) into a holding of 1 share at 10.00
stores 10.01, not `(10.00 * 1 + 20.02) / (1 + 2)`. -/
theorem buyStock_avgPrice_not_exact_mean :
    ((buyStock (sampleDb 10000 []) (.quotes (10001 / 1000)) 1 "A" "X" 3).2 =
        some (.bought (10000 - 3001 / 100) (3001 / 100) 3 (10001 / 1000)) ∧
      holdingOf (buyStock (sampleDb 10000 []) (.quotes (10001 / 1000)) 1 "A" "X" 3).1 "A" "X" =
        some { shares := 3, avgPrice := 1001 / 100 } ∧
      (1001 / 100 : ℚ) ≠ (3001 / 100) / 3) ∧
    ((buyStock (sampleDb 10000 [("X", { shares := 1, avgPrice := 10 })])
          (.quotes (1001 / 100)) 1 "A" "X" 2).2 =
        some (.bought (10000 - 2002 / 100) (2002 / 100) 2 (1001 / 100)) ∧
      holdingOf (buyStock (sampleDb 10000 [("X", { shares := 1, avgPrice := 10 })])
          (.quotes (1001 / 100)) 1 "A" "X" 2).1 "A" "X" =
        some { shares := 3, avgPrice := 1001 / 100 } ∧
      (1001 / 100 : ℚ) ≠ (10 * 1 + 2002 / 100) / (1 + 2)) := by
  have c1 : roundUpCents (10001 / 1000 * ((3 : ℤ) : ℚ)) = 3001 / 100 := by
    rw [roundUpCents_eq_of _ 3001 (by decide!)]; norm_num
  have c2 : roundUpCents (10001 / 1000) = 1001 / 100 := by
    rw [roundUpCents_eq_of _ 1001 (by decide!)]; norm_num
  have c3 : roundUpCents (1001 / 100 * ((2 : ℤ) : ℚ)) = 2002 / 100 := by
    rw [roundUpCents_eq_of _ 2002 (by decide!)]; norm_num
  have c4 : roundUpCents ((10 * ((1 : ℤ) : ℚ) + 2002 / 100) / (((1 : ℤ) : ℚ) + ((2 : ℤ) : ℚ))) =
      1001 / 100 := by
    rw [roundUpCents_eq_of _ 1001 (by decide!)]; norm_num
  have b1 : ¬ (sampleUser 10000 []).balance < roundUpCents (10001 / 1000 * ((3 : ℤ) : ℚ)) := by
    rw [c1]; norm_num [sampleUser]
  have b2 : ¬ (sampleUser 10000 [("X", { shares := 1, avgPrice := 10 })]).balance <
      roundUpCents (1001 / 100 * ((2 : ℤ) : ℚ)) := by
    rw [c3]; norm_num [sampleUser]
  refine ⟨⟨?_, ?_, by norm_num⟩, ⟨?_, ?_, by norm_num⟩⟩
  · rw [buyStock_bought _ 1 "A" "X" 3 _ _ (findOne_sampleDb _ _) b1, c1]
    rfl
  · rw [holdingOf_buyStock _ 1 "A" "X" 3 _ _ (findOne_sampleDb _ _) b1]
    simp only [buyEntry, sampleUser, portfolioGet, c2]
  · rw [buyStock_bought _ 1 "A" "X" 2 _ _ (findOne_sampleDb _ _) b2, c3]
    rfl
  · rw [holdingOf_buyStock _ 1 "A" "X" 2 _ _ (findOne_sampleDb _ _) b2]
    simp only [buyEntry, sampleUser, portfolioGet, if_true, c3, c4]
    norm_num

/-- C2, amended: for every buy that goes through (oracle price `p`, balance at least
`c = roundUpCents(p*s)`), the stored entry of the symbol afterwards has
`avgPrice = roundUpCents((avgPrice_old*shares_old + c)/(shares_old + s))` and
`shares = shares_old + s` when the symbol was already held (with `shares_old + s ≠ 0`),
and `avgPrice = roundUpCents(p)`, `shares = s` when it was not held. -/
theorem buyStock_avgPrice_rounded (db : State) (now : Nat) (userId symbol : String)
    (shares : ℤ) (p : ℚ) (user : User) (hu : findOne db.users userId = some user)
    (hb : roundUpCents (p * shares) ≤ user.balance) :
    (∀ current, portfolioGet user.portfolio symbol = some current →
        current.shares + shares ≠ 0 →
        holdingOf (buyStock db (.quotes p) now userId symbol shares).1 userId symbol =
          some { shares := current.shares + shares
                 avgPrice := roundUpCents
                   ((current.avgPrice * current.shares + roundUpCents (p * shares)) /
                     (current.shares + shares)) }) ∧
      (portfolioGet user.portfolio symbol = none →
        holdingOf (buyStock db (.quotes p) now userId symbol shares).1 userId symbol =
          some { shares := shares, avgPrice := roundUpCents p }) := by
  rw [holdingOf_buyStock db now userId symbol shares p user hu (not_lt.mpr hb)]
  constructor
  · intro current hg _
    simp only [buyEntry, hg]
  · intro hg
    simp only [buyEntry, hg]

/-- Witness for C2 (amended): 2 shares at 10.01 bought into a holding of 1 share at 10.00,
and 3 shares at 10.001 bought as a first holding. -/
theorem buyStock_avgPrice_rounded_witness :
    holdingOf (buyStock (sampleDb 10000 [("X", { shares := 1, avgPrice := 10 })])
        (.quotes (1001 / 100)) 1 "A" "X" 2).1 "A" "X" =
      some { shares := 1 + 2
             avgPrice := roundUpCents
               ((10 * ((1 : ℤ) : ℚ) + roundUpCents (1001 / 100 * ((2 : ℤ) : ℚ))) /
                 (((1 : ℤ) : ℚ) + ((2 : ℤ) : ℚ))) } ∧
    holdingOf (buyStock (sampleDb 10000 []) (.quotes (10001 / 1000)) 1 "A" "X" 3).1 "A" "X" =
      some { shares := 3, avgPrice := roundUpCents (10001 / 1000) } :=
  ⟨(buyStock_avgPrice_rounded (sampleDb 10000 [("X", { shares := 1, avgPrice := 10 })]) 1
      "A" "X" 2 (1001 / 100) (sampleUser 10000 [("X", { shares := 1, avgPrice := 10 })])
      (findOne_sampleDb _ _)
      (by rw [roundUpCents_eq_of _ 2002 (by decide!)]
          norm_num [sampleUser])).1
      { shares := 1, avgPrice := 10 } (by simp [sampleUser, portfolioGet]) (by decide),
   (buyStock_avgPrice_rounded (sampleDb 10000 []) 1 "A" "X" 3 (10001 / 1000)
      (sampleUser 10000 []) (findOne_sampleDb _ _)
      (by rw [roundUpCents_eq_of _ 3001 (by decide!)]
          norm_num [sampleUser])).2
      (by simp [sampleUser, portfolioGet])⟩

/-- C3: with an oracle price `p` and an existing account, `buyStock` returns the
insufficient-funds failure exactly when the balance is less than
`cost = roundUpCents(p*shares)`; and whenever `buyStock` returns `success: false`
(quote not found, rate-limited, or insufficient funds) the user documents (balances and
portfolios) and the transaction log are unchanged. -/
theorem buyStock_failure_no_mutation (db : State) (data : FmpData) (now : Nat)
    (userId symbol : String) (shares : ℤ) :
    (∀ p user, data = .quotes p → findOne db.users userId = some user →
        ((buyStock db data now userId symbol shares).2 =
            some (.insufficientFunds (roundUpCents (p * shares))) ↔
          user.balance < roundUpCents (p * shares))) ∧
      (∀ r, (buyStock db data now userId symbol shares).2 = some r → r.success = false →
        (buyStock db data now userId symbol shares).1.users = db.users ∧
          (buyStock db data now userId symbol shares).1.transactions = db.transactions) := by
  constructor
  · intro p user hd hu
    subst hd
    by_cases hb : user.balance < roundUpCents (p * shares)
    · rw [buyStock_insufficient db now userId symbol shares p user hu hb]
      simp [hb]
    · rw [buyStock_bought db now userId symbol shares p user hu hb]
      simp [hb]
  · intro r hr hs
    apply buyStock_unchanged_of_not_success
    intro r1 hr1
    rw [hr] at hr1
    cases hr1
    exact hs

/-- Witness for C3: account `"A"` with balance 500 orders 10 shares at 100.00 (cost
1000.00); the order fails for insufficient funds and nothing is stored. -/
theorem buyStock_failure_no_mutation_witness :
    (sampleUser 500 []).balance < roundUpCents (100 * ((10 : ℤ) : ℚ)) ∧
      (buyStock (sampleDb 500 []) (.quotes 100) 1 "A" "X" 10).2 =
        some (.insufficientFunds (roundUpCents (100 * ((10 : ℤ) : ℚ)))) ∧
      (buyStock (sampleDb 500 []) (.quotes 100) 1 "A" "X" 10).1.users =
        (sampleDb 500 []).users ∧
      (buyStock (sampleDb 500 []) (.quotes 100) 1 "A" "X" 10).1.transactions =
        (sampleDb 500 []).transactions :=
  have hlt : (sampleUser 500 []).balance < roundUpCents (100 * ((10 : ℤ) : ℚ)) := by
    rw [roundUpCents_eq_of _ 100000 (by decide!)]
    norm_num [sampleUser]
  have h := buyStock_failure_no_mutation (sampleDb 500 []) (.quotes 100) 1 "A" "X" 10
  have hr := (h.1 100 (sampleUser 500 []) rfl (findOne_sampleDb _ _)).mpr hlt
  ⟨hlt, hr, h.2 _ hr rfl⟩

/-- C8, evaluation at the failing input: `roundUpCents` does not return the least whole
number of cents that is at least its argument, and applying it twice is not applying it
once.  `roundUpCents(10.05)` is 10.06, a cent above its argument, which is a whole number
of cents already: on doubles `10.05 * 100` is `1005.0000000000001`.  `roundUpCents(0.061)`
is 0.07, and `roundUpCents(0.07)` is 0.08, since `0.07 * 100` is `7.000000000000001`. -/
theorem roundUpCents_moves_whole_cents :
    roundUpCents (1005 / 100) = 1006 / 100 ∧
      (1005 : ℚ) < toDouble (toDouble (1005 / 100) * 100) ∧
      roundUpCents (61 / 1000) = 7 / 100 ∧
      roundUpCents (roundUpCents (61 / 1000)) = 8 / 100 ∧
      (7 : ℚ) < toDouble (toDouble (7 / 100) * 100) ∧
      roundUpCents (roundUpCents (61 / 1000)) ≠ roundUpCents (61 / 1000) := by
  have h1 : roundUpCents (61 / 1000) = 7 / 100 := by
    rw [roundUpCents_eq_of _ 7 (by decide!)]
    norm_num
  have h2 : roundUpCents (7 / 100) = 8 / 100 := by
    rw [roundUpCents_eq_of _ 8 (by decide!)]
    norm_num
  refine ⟨?_, by decide!, h1, ?_, by decide!, ?_⟩
  · rw [roundUpCents_eq_of _ 1006 (by decide!)]
    norm_num
  · rw [h1, h2]
  · rw [h1, h2]
    norm_num

/-- C4, counterexample: an order with a zero or negative share count is not rejected.
Buying -10 shares at 100.00 returns `success: true` and credits the balance
(10000 becomes 11000); buying 0 shares of a new symbol returns `success: true` and
stores an entry with 0 shares; selling -5 shares at 100.00 from a holding of 10 returns
`success: true`, debits 500 and leaves 15 shares. -/
theorem nonpositive_shares_not_rejected :
    ((buyStock (sampleDb 10000 []) (.quotes 100) 1 "A" "X" (-10)).2 =
        some (.bought 11000 (-1000) (-10) 100) ∧
      balanceOf (buyStock (sampleDb 10000 []) (.quotes 100) 1 "A" "X" (-10)).1 "A" =
        some 11000) ∧
    ((buyStock (sampleDb 10000 []) (.quotes 100) 1 "A" "X" 0).2 =
        some (.bought 10000 0 0 100) ∧
      holdingOf (buyStock (sampleDb 10000 []) (.quotes 100) 1 "A" "X" 0).1 "A" "X" =
        some { shares := 0, avgPrice := 100 }) ∧
    ((sellStock (sampleDb 10000 [("X", { shares := 10, avgPrice := 100 })])
          (.quotes 100) 1 "A" "X" (-5)).2 =
        some (.sold "alice" "X" 15 (-500) 100) ∧
      balanceOf (sellStock (sampleDb 10000 [("X", { shares := 10, avgPrice := 100 })])
          (.quotes 100) 1 "A" "X" (-5)).1 "A" = some 9500) := by
  have c1 : roundUpCents (100 * (((-10 : ℤ)) : ℚ)) = -1000 := by
    rw [roundUpCents_eq_of _ (-100000) (by decide!)]; norm_num
  have c2 : roundUpCents (100 * (((0 : ℤ)) : ℚ)) = 0 := by
    rw [roundUpCents_eq_of _ 0 (by decide!)]; norm_num
  have c3 : roundUpCents 100 = 100 := by
    rw [roundUpCents_eq_of _ 10000 (by decide!)]; norm_num
  have b1 : ¬ (sampleUser 10000 []).balance < roundUpCents (100 * (((-10 : ℤ)) : ℚ)) := by
    rw [c1]; norm_num [sampleUser]
  have b2 : ¬ (sampleUser 10000 []).balance < roundUpCents (100 * (((0 : ℤ)) : ℚ)) := by
    rw [c2]; norm_num [sampleUser]
  have g3 : portfolioGet (sampleUser 10000 [("X", { shares := 10, avgPrice := 100 })]).portfolio
      "X" = some { shares := 10, avgPrice := 100 } := by
    simp [sampleUser, portfolioGet]
  have b3 : ¬ ({ shares := 10, avgPrice := 100 } : Holding).shares < -5 := by decide
  refine ⟨⟨?_, ?_⟩, ⟨?_, ?_⟩, ⟨?_, ?_⟩⟩
  · rw [buyStock_bought _ 1 "A" "X" (-10) _ _ (findOne_sampleDb _ _) b1, c1]
    norm_num [sampleUser]
  · rw [balanceOf_buyStock _ 1 "A" "X" (-10) _ _ (findOne_sampleDb _ _) b1, c1]
    norm_num [sampleUser]
  · rw [buyStock_bought _ 1 "A" "X" 0 _ _ (findOne_sampleDb _ _) b2, c2]
    norm_num [sampleUser]
  · rw [holdingOf_buyStock _ 1 "A" "X" 0 _ _ (findOne_sampleDb _ _) b2]
    simp only [buyEntry, sampleUser, portfolioGet, c3]
  · rw [sellStock_sold _ 1 "A" "X" (-5) _ _ _ (findOne_sampleDb _ _) g3 b3]
    norm_num [sampleUser]
  · rw [balanceOf_sellStock _ 1 "A" "X" (-5) _ _ _ (findOne_sampleDb _ _) g3 b3]
    norm_num [sampleUser]

/-- C4, amended: `buyStock` and `sellStock` do not check the sign of `shares`; an order
whose share count is zero or negative goes through the same checks as any other.  On an
existing account with an oracle price `p` it returns a failure exactly when (buy) the
balance is less than `roundUpCents(p*shares)`, resp. (sell) the symbol is not held or
fewer shares are held than requested; and whenever it returns a failure the user
documents (balances, portfolios) and the transaction log are unchanged. -/
theorem nonpositive_shares_same_checks (db : State) (data : FmpData) (now : Nat)
    (userId symbol : String) (shares : ℤ) (user : User)
    (hu : findOne db.users userId = some user) (_hs : shares ≤ 0) :
    (∀ p, data = .quotes p →
        ((buyStock db data now userId symbol shares).2.map BuyResult.success = some false ↔
          user.balance < roundUpCents (p * shares))) ∧
      (∀ p, data = .quotes p →
        ((sellStock db data now userId symbol shares).2.map SellResult.success = some false ↔
          (portfolioGet user.portfolio symbol = none ∨
            ∃ held, portfolioGet user.portfolio symbol = some held ∧ held.shares < shares))) ∧
      (∀ r, (buyStock db data now userId symbol shares).2 = some r → r.success = false →
        (buyStock db data now userId symbol shares).1.users = db.users ∧
          (buyStock db data now userId symbol shares).1.transactions = db.transactions) ∧
      (∀ r, (sellStock db data now userId symbol shares).2 = some r → r.success = false →
        (sellStock db data now userId symbol shares).1.users = db.users ∧
          (sellStock db data now userId symbol shares).1.transactions = db.transactions) := by
  refine ⟨?_, ?_, ?_, ?_⟩
  · intro p hd
    subst hd
    by_cases hb : user.balance < roundUpCents (p * shares)
    · rw [buyStock_insufficient db now userId symbol shares p user hu hb]
      simp [hb, BuyResult.success]
    · rw [buyStock_bought db now userId symbol shares p user hu hb]
      simp [hb, BuyResult.success]
  · intro p hd
    subst hd
    cases hg : portfolioGet user.portfolio symbol with
    | none =>
      rw [sellStock_absent db now userId symbol shares p user hu hg]
      simp [SellResult.success]
    | some held =>
      by_cases hs : held.shares < shares
      · rw [sellStock_insufficient db now userId symbol shares p user held hu hg hs]
        simp [SellResult.success, hs]
      · rw [sellStock_sold db now userId symbol shares p user held hu hg hs]
        simp [SellResult.success, hs]
  · intro r hr hs
    apply buyStock_unchanged_of_not_success
    intro r1 hr1
    rw [hr] at hr1
    cases hr1
    exact hs
  · intro r hr hs
    apply sellStock_unchanged_of_not_success
    intro r1 hr1
    rw [hr] at hr1
    cases hr1
    exact hs

/-- Witness for C4 (amended): an order of -10 shares on account `"A"`. -/
theorem nonpositive_shares_same_checks_witness :
    ((buyStock (sampleDb 10000 []) (.quotes 100) 1 "A" "X" (-10)).2.map BuyResult.success =
        some false ↔
      (sampleUser 10000 []).balance < roundUpCents (100 * (((-10 : ℤ)) : ℚ))) ∧
    ((sellStock (sampleDb 10000 []) (.quotes 100) 1 "A" "X" (-10)).2.map SellResult.success =
        some false ↔
      (portfolioGet (sampleUser 10000 []).portfolio "X" = none ∨
        ∃ held, portfolioGet (sampleUser 10000 []).portfolio "X" = some held ∧
          held.shares < -10)) :=
  have h := nonpositive_shares_same_checks (sampleDb 10000 []) (.quotes 100) 1 "A" "X" (-10)
    (sampleUser 10000 []) (findOne_sampleDb _ _) (by decide)
  ⟨h.1 100 rfl, h.2.1 100 rfl⟩

/-- C5: for every account holding `h` shares of a symbol and every sell of `s <= h`
shares at an oracle price (in particular `0 < s <= h` with `h > 0`), the sell succeeds;
if `s = h` the symbol is removed from the portfolio, and if `s < h` the entry keeps its
`avgPrice` and its shares become exactly `h - s`; in both cases every other entry of
the portfolio, and every other account, is unchanged. -/
theorem sellStock_portfolio_frame (db : State) (now : Nat) (userId symbol : String)
    (shares : ℤ) (p : ℚ) (user : User) (held : Holding)
    (hu : findOne db.users userId = some user)
    (hg : portfolioGet user.portfolio symbol = some held) (hs : shares ≤ held.shares) :
    (sellStock db (.quotes p) now userId symbol shares).2.map SellResult.success = some true ∧
      (shares = held.shares →
        holdingOf (sellStock db (.quotes p) now userId symbol shares).1 userId symbol = none) ∧
      (shares < held.shares →
        holdingOf (sellStock db (.quotes p) now userId symbol shares).1 userId symbol =
          some { shares := held.shares - shares, avgPrice := held.avgPrice }) ∧
      (∀ other, other ≠ symbol →
        holdingOf (sellStock db (.quotes p) now userId symbol shares).1 userId other =
          holdingOf db userId other) ∧
      (∀ otherId, otherId ≠ userId →
        findOne (sellStock db (.quotes p) now userId symbol shares).1.users otherId =
          findOne db.users otherId) := by
  have hs1 : ¬ held.shares < shares := not_lt.mpr hs
  refine ⟨?_, ?_, ?_, ?_, ?_⟩
  · rw [sellStock_sold db now userId symbol shares p user held hu hg hs1]
    rfl
  · intro he
    rw [holdingOf_sellStock db now userId symbol symbol shares p user held hu hg hs1]
    have hr : ¬ held.shares - shares > 0 := by omega
    simp only [sellUpdate, hr, if_false]
    exact portfolioGet_unset_same _ _
  · intro hlt
    rw [holdingOf_sellStock db now userId symbol symbol shares p user held hu hg hs1]
    have hr : held.shares - shares > 0 := by omega
    simp only [sellUpdate, hr, if_true]
    exact portfolioGet_setShares_same _ _ _ held hg
  · intro other hne
    rw [holdingOf_sellStock db now userId symbol other shares p user held hu hg hs1]
    simp only [holdingOf, hu, Option.some_bind]
    by_cases hr : held.shares - shares > 0
    · simp only [sellUpdate, hr, if_true]
      exact portfolioGet_setShares_other _ _ _ _ hne
    · simp only [sellUpdate, hr, if_false]
      exact portfolioGet_unset_other _ _ _ hne
  · intro otherId hne
    rw [sellStock_sold db now userId symbol shares p user held hu hg hs1]
    exact findOne_updateOne_other db.users userId otherId _
      (fun u => sellUpdate_userId _ _ _ u) hne

/-- Witness for C5: account `"A"` holds 10 shares of `X` and 4 of `Y`, and sells 10
shares of `X`. -/
theorem sellStock_portfolio_frame_witness :
    holdingOf (sellStock
        (sampleDb 9000 [("X", { shares := 10, avgPrice := 100 }),
          ("Y", { shares := 4, avgPrice := 5 })])
        (.quotes 110) 2 "A" "X" 10).1 "A" "X" = none ∧
      holdingOf (sellStock
        (sampleDb 9000 [("X", { shares := 10, avgPrice := 100 }),
          ("Y", { shares := 4, avgPrice := 5 })])
        (.quotes 110) 2 "A" "X" 10).1 "A" "Y" =
      holdingOf (sampleDb 9000 [("X", { shares := 10, avgPrice := 100 }),
          ("Y", { shares := 4, avgPrice := 5 })]) "A" "Y" :=
  have h := sellStock_portfolio_frame
    (sampleDb 9000 [("X", { shares := 10, avgPrice := 100 }),
      ("Y", { shares := 4, avgPrice := 5 })])
    2 "A" "X" 10 110
    (sampleUser 9000 [("X", { shares := 10, avgPrice := 100 }),
      ("Y", { shares := 4, avgPrice := 5 })])
    { shares := 10, avgPrice := 100 } (findOne_sampleDb _ _)
    (by simp [sampleUser, portfolioGet]) (by decide)
  ⟨h.2.1 rfl, h.2.2.2.1 "Y" (by decide)⟩

/-- C6, counterexample: on a symbol held with zero shares `sellStock` does not fail for
every requested share count.  A request of 0 shares at 10.00 returns `success: true`;
a request of -5 shares at 10.00 returns `success: true` and changes the balance from
10000 to 9950. -/
theorem sellStock_zero_holding_not_always_failure :
    (sellStock (sampleDb 10000 [("X", { shares := 0, avgPrice := 100 })])
        (.quotes 10) 1 "A" "X" 0).2 = some (.sold "alice" "X" 0 0 10) ∧
      (sellStock (sampleDb 10000 [("X", { shares := 0, avgPrice := 100 })])
        (.quotes 10) 1 "A" "X" (-5)).2 = some (.sold "alice" "X" 5 (-50) 10) ∧
      balanceOf (sellStock (sampleDb 10000 [("X", { shares := 0, avgPrice := 100 })])
        (.quotes 10) 1 "A" "X" (-5)).1 "A" = some 9950 := by
  have g : portfolioGet (sampleUser 10000 [("X", { shares := 0, avgPrice := 100 })]).portfolio
      "X" = some { shares := 0, avgPrice := 100 } := by
    simp [sampleUser, portfolioGet]
  have b1 : ¬ ({ shares := 0, avgPrice := 100 } : Holding).shares < 0 := by decide
  have b2 : ¬ ({ shares := 0, avgPrice := 100 } : Holding).shares < -5 := by decide
  refine ⟨?_, ?_, ?_⟩
  · rw [sellStock_sold _ 1 "A" "X" 0 _ _ _ (findOne_sampleDb _ _) g b1]
    norm_num [sampleUser]
  · rw [sellStock_sold _ 1 "A" "X" (-5) _ _ _ (findOne_sampleDb _ _) g b2]
    norm_num [sampleUser]
  · rw [balanceOf_sellStock _ 1 "A" "X" (-5) _ _ _ (findOne_sampleDb _ _) g b2]
    norm_num [sampleUser]

/-- C6, amended: on an existing account, `sellStock` on a symbol that the portfolio
does not contain returns a failure and changes no user document and no transaction,
for every requested share count and every oracle answer (with an oracle price the
failure is the insufficient-shares result); on a symbol held with fewer shares than
requested (in particular held with zero shares, for every positive requested share
count) it does the same. -/
theorem sellStock_insufficient_shares (db : State) (data : FmpData) (now : Nat)
    (userId symbol : String) (shares : ℤ) (user : User)
    (hu : findOne db.users userId = some user) :
    (portfolioGet user.portfolio symbol = none →
        (sellStock db data now userId symbol shares).2.map SellResult.success = some false ∧
        (sellStock db data now userId symbol shares).1.users = db.users ∧
        (sellStock db data now userId symbol shares).1.transactions = db.transactions ∧
        (∀ p, data = .quotes p → (sellStock db data now userId symbol shares).2 =
          some (.insufficientShares user.username symbol shares 0 p))) ∧
      (∀ held, portfolioGet user.portfolio symbol = some held → held.shares < shares →
        (sellStock db data now userId symbol shares).2.map SellResult.success = some false ∧
        (sellStock db data now userId symbol shares).1.users = db.users ∧
        (sellStock db data now userId symbol shares).1.transactions = db.transactions ∧
        (∀ p, data = .quotes p → (sellStock db data now userId symbol shares).2 =
          some (.insufficientShares user.username symbol shares held.shares p))) := by
  constructor
  · intro hg
    cases data with
    | error =>
      rw [sellStock_error db now userId symbol shares user hu]
      exact ⟨rfl, rfl, rfl, fun p hp => by cases hp⟩
    | other =>
      rw [sellStock_other db now userId symbol shares user hu]
      exact ⟨rfl, rfl, rfl, fun p hp => by cases hp⟩
    | quotes q =>
      rw [sellStock_absent db now userId symbol shares q user hu hg]
      exact ⟨rfl, rfl, rfl, fun p hp => by cases hp; rfl⟩
  · intro held hg hlt
    cases data with
    | error =>
      rw [sellStock_error db now userId symbol shares user hu]
      exact ⟨rfl, rfl, rfl, fun p hp => by cases hp⟩
    | other =>
      rw [sellStock_other db now userId symbol shares user hu]
      exact ⟨rfl, rfl, rfl, fun p hp => by cases hp⟩
    | quotes q =>
      rw [sellStock_insufficient db now userId symbol shares q user held hu hg hlt]
      exact ⟨rfl, rfl, rfl, fun p hp => by cases hp; rfl⟩

/-- Witness for C6 (amended): account `"A"` holds `Y` with zero shares and no `X`; it
asks to sell 3 shares of `X`, and 3 shares of `Y`. -/
theorem sellStock_insufficient_shares_witness :
    (sellStock (sampleDb 10000 [("Y", { shares := 0, avgPrice := 5 })])
        (.quotes 10) 1 "A" "X" 3).2 = some (.insufficientShares "alice" "X" 3 0 10) ∧
      (sellStock (sampleDb 10000 [("Y", { shares := 0, avgPrice := 5 })])
        (.quotes 10) 1 "A" "Y" 3).2 = some (.insufficientShares "alice" "Y" 3 0 10) ∧
      (sellStock (sampleDb 10000 [("Y", { shares := 0, avgPrice := 5 })])
        (.quotes 10) 1 "A" "Y" 3).1.users =
          (sampleDb 10000 [("Y", { shares := 0, avgPrice := 5 })]).users :=
  ⟨((sellStock_insufficient_shares (sampleDb 10000 [("Y", { shares := 0, avgPrice := 5 })])
      (.quotes 10) 1 "A" "X" 3 (sampleUser 10000 [("Y", { shares := 0, avgPrice := 5 })])
      (findOne_sampleDb _ _)).1 (by simp [sampleUser, portfolioGet])).2.2.2 10 rfl,
   ((sellStock_insufficient_shares (sampleDb 10000 [("Y", { shares := 0, avgPrice := 5 })])
      (.quotes 10) 1 "A" "Y" 3 (sampleUser 10000 [("Y", { shares := 0, avgPrice := 5 })])
      (findOne_sampleDb _ _)).2 { shares := 0, avgPrice := 5 }
      (by simp [sampleUser, portfolioGet]) (by decide)).2.2.2 10 rfl,
   ((sellStock_insufficient_shares (sampleDb 10000 [("Y", { shares := 0, avgPrice := 5 })])
      (.quotes 10) 1 "A" "Y" 3 (sampleUser 10000 [("Y", { shares := 0, avgPrice := 5 })])
      (findOne_sampleDb _ _)).2 { shares := 0, avgPrice := 5 }
      (by simp [sampleUser, portfolioGet]) (by decide)).2.1⟩

/-- C7: for every sell that goes through (existing account, oracle price `p`, a holding
of `h` shares and a request of `s <= h` shares), the stored balance increases by exactly
`p*s`, and the result is `success: true` with `sharesLeft = h - s`, `gains = p*s` and
`sellPrice = p`. -/
theorem sellStock_credits_proceeds (db : State) (now : Nat) (userId symbol : String)
    (shares : ℤ) (p : ℚ) (user : User) (held : Holding)
    (hu : findOne db.users userId = some user)
    (hg : portfolioGet user.portfolio symbol = some held) (hs : shares ≤ held.shares) :
    balanceOf (sellStock db (.quotes p) now userId symbol shares).1 userId =
        some (user.balance + p * shares) ∧
      (sellStock db (.quotes p) now userId symbol shares).2 =
        some (.sold user.username symbol (held.shares - shares) (p * shares) p) := by
  have hs1 : ¬ held.shares < shares := not_lt.mpr hs
  exact ⟨balanceOf_sellStock db now userId symbol shares p user held hu hg hs1,
    by rw [sellStock_sold db now userId symbol shares p user held hu hg hs1]⟩

/-- Witness for C7: account `"A"` with balance 9000 sells its 10 shares of `X` at
110.00; the balance becomes 10100. -/
theorem sellStock_credits_proceeds_witness :
    balanceOf (sellStock (sampleDb 9000 [("X", { shares := 10, avgPrice := 100 })])
        (.quotes 110) 2 "A" "X" 10).1 "A" = some 10100 ∧
      (sellStock (sampleDb 9000 [("X", { shares := 10, avgPrice := 100 })])
        (.quotes 110) 2 "A" "X" 10).2 = some (.sold "alice" "X" 0 1100 110) := by
  have h := sellStock_credits_proceeds
    (sampleDb 9000 [("X", { shares := 10, avgPrice := 100 })])
    2 "A" "X" 10 110 (sampleUser 9000 [("X", { shares := 10, avgPrice := 100 })])
    { shares := 10, avgPrice := 100 } (findOne_sampleDb _ _)
    (by simp [sampleUser, portfolioGet]) (by decide)
  norm_num [sampleUser] at h
  exact h

/-- C9, counterexample: a sell at a price with a sub-cent fraction leaves a balance that
is not a whole number of cents.  Account `"A"` with balance 100.00 sells 1 share at
10.005; the sell succeeds and the stored balance is 110.005. -/
theorem sellStock_balance_not_wholeCents :
    WholeCents (100 : ℚ) ∧
      (sellStock (sampleDb 100 [("X", { shares := 1, avgPrice := 10 })])
        (.quotes (2001 / 200)) 1 "A" "X" 1).2 =
          some (.sold "alice" "X" 0 (2001 / 200) (2001 / 200)) ∧
      balanceOf (sellStock (sampleDb 100 [("X", { shares := 1, avgPrice := 10 })])
        (.quotes (2001 / 200)) 1 "A" "X" 1).1 "A" = some (22001 / 200) ∧
      ¬ WholeCents (22001 / 200 : ℚ) := by
  have g : portfolioGet (sampleUser 100 [("X", { shares := 1, avgPrice := 10 })]).portfolio
      "X" = some { shares := 1, avgPrice := 10 } := by
    simp [sampleUser, portfolioGet]
  have b : ¬ ({ shares := 1, avgPrice := 10 } : Holding).shares < 1 := by decide
  refine ⟨⟨10000, by norm_num⟩, ?_, ?_, ?_⟩
  · rw [sellStock_sold _ 1 "A" "X" 1 _ _ _ (findOne_sampleDb _ _) g b]
    norm_num [sampleUser]
  · rw [balanceOf_sellStock _ 1 "A" "X" 1 _ _ _ (findOne_sampleDb _ _) g b]
    norm_num [sampleUser]
  · rintro ⟨n, hn⟩
    have h1 : ((22001 : ℤ) : ℚ) = ((2 * n : ℤ) : ℚ) := by
      push_cast
      linarith
    have h2 : (22001 : ℤ) = 2 * n := by exact_mod_cast h1
    omega

/-- C9, amended: only the cost of a buy is rounded up to cents.  A `buyStock` that goes
through leaves the balance `balance - roundUpCents(price*shares)`; a `sellStock` that
goes through leaves the balance `balance + price*shares` and reports these proceeds as
its gains, `price*shares` not being rounded; no balance is rounded after the update. -/
theorem trade_rounds_cost_only (db : State) (now : Nat) (userId symbol : String)
    (shares : ℤ) (p : ℚ) (user : User) (hu : findOne db.users userId = some user) :
    (roundUpCents (p * shares) ≤ user.balance →
        balanceOf (buyStock db (.quotes p) now userId symbol shares).1 userId =
          some (user.balance - roundUpCents (p * shares))) ∧
      (∀ held, portfolioGet user.portfolio symbol = some held → shares ≤ held.shares →
        balanceOf (sellStock db (.quotes p) now userId symbol shares).1 userId =
            some (user.balance + p * shares) ∧
          (sellStock db (.quotes p) now userId symbol shares).2 =
            some (.sold user.username symbol (held.shares - shares) (p * shares) p)) := by
  constructor
  · intro hb
    exact balanceOf_buyStock db now userId symbol shares p user hu (not_lt.mpr hb)
  · intro held hg hs
    exact ⟨balanceOf_sellStock db now userId symbol shares p user held hu hg (not_lt.mpr hs),
      by rw [sellStock_sold db now userId symbol shares p user held hu hg (not_lt.mpr hs)]⟩

/-- Witness for C9 (amended): account `"A"` with balance 100.00 and 1 share of `X` buys
1 share at 10.005, which costs 10.01, and sells 1 share at 10.005, which credits
10.005. -/
theorem trade_rounds_cost_only_witness :
    balanceOf (buyStock (sampleDb 100 [("X", { shares := 1, avgPrice := 10 })])
        (.quotes (2001 / 200)) 1 "A" "X" 1).1 "A" = some (100 - 1001 / 100) ∧
      balanceOf (sellStock (sampleDb 100 [("X", { shares := 1, avgPrice := 10 })])
        (.quotes (2001 / 200)) 1 "A" "X" 1).1 "A" = some (100 + 2001 / 200) := by
  have hr : roundUpCents (2001 / 200 * ((1 : ℤ) : ℚ)) = 1001 / 100 := by
    rw [roundUpCents_eq_of _ 1001 (by decide!)]
    norm_num
  have h := trade_rounds_cost_only (sampleDb 100 [("X", { shares := 1, avgPrice := 10 })]) 1
    "A" "X" 1 (2001 / 200) (sampleUser 100 [("X", { shares := 1, avgPrice := 10 })])
    (findOne_sampleDb _ _)
  have hbuy := h.1 (by rw [hr]; norm_num [sampleUser])
  have hsell := (h.2 { shares := 1, avgPrice := 10 } (by simp [sampleUser, portfolioGet])
    (by decide)).1
  refine ⟨?_, ?_⟩
  · rw [hbuy, hr]
    rfl
  · rw [hsell]
    norm_num [sampleUser]

/-- C10: the invariant "every portfolio entry has `shares > 0` and `avgPrice >= 0`" holds
for the empty portfolio an account starts with, and if it holds for every account then
it holds again after every `buyStock` and after every `sellStock` made with a positive
share count at a non-negative oracle price (whatever the outcome of the call): no entry
is ever stored with zero or negative shares, an entry whose shares reach zero being
removed. -/
theorem portfolio_invariant_preserved (db : State) (data : FmpData) (now : Nat)
    (userId symbol : String) (shares : ℤ) (hinv : StateInv db) (hs : 0 < shares)
    (hp : ∀ p, data = .quotes p → 0 ≤ p) :
    PortfolioInv [] ∧
      StateInv (buyStock db data now userId symbol shares).1 ∧
      StateInv (sellStock db data now userId symbol shares).1 := by
  refine ⟨fun e he => (List.not_mem_nil e he).elim, ?_, ?_⟩
  · cases data with
    | error => rw [buyStock_error]; exact hinv
    | other => rw [buyStock_other]; exact stateInv_of_users_eq rfl hinv
    | quotes p =>
      cases hu : findOne db.users userId with
      | none => rw [buyStock_no_user db now userId symbol shares p hu]; exact hinv
      | some user =>
        by_cases hb : user.balance < roundUpCents (p * shares)
        · rw [buyStock_insufficient db now userId symbol shares p user hu hb]; exact hinv
        · rw [buyStock_bought db now userId symbol shares p user hu hb]
          intro u hmem
          rcases mem_updateOne _ _ _ u hmem with h1 | ⟨u0, h1, h2⟩
          · exact hinv u h1
          · rw [hu] at h1
            cases h1
            subst h2
            have huinv := hinv user (findOne_mem _ _ _ hu).1
            intro e he
            rcases mem_portfolioSet _ _ _ e he with h3 | h3
            · exact huinv e h3
            · rw [h3]
              exact buyEntry_inv user symbol shares p huinv hs (hp p rfl)
  · cases hu : findOne db.users userId with
    | none =>
      rw [sellStock_no_user db data now userId symbol shares hu]
      exact stateInv_of_users_eq (getStockPrice_users db data).1 hinv
    | some user =>
      have huinv := hinv user (findOne_mem _ _ _ hu).1
      cases data with
      | error => rw [sellStock_error db now userId symbol shares user hu]; exact hinv
      | other =>
        rw [sellStock_other db now userId symbol shares user hu]
        exact stateInv_of_users_eq rfl hinv
      | quotes p =>
        cases hg : portfolioGet user.portfolio symbol with
        | none => rw [sellStock_absent db now userId symbol shares p user hu hg]; exact hinv
        | some held =>
          by_cases hlt : held.shares < shares
          · rw [sellStock_insufficient db now userId symbol shares p user held hu hg hlt]
            exact hinv
          · rw [sellStock_sold db now userId symbol shares p user held hu hg hlt]
            intro u hmem
            rcases mem_updateOne _ _ _ u hmem with h1 | ⟨u0, h1, h2⟩
            · exact hinv u h1
            · rw [hu] at h1
              cases h1
              subst h2
              intro e he
              by_cases hr : held.shares - shares > 0
              · simp only [sellUpdate, hr, if_true] at he
                rcases mem_portfolioSetShares _ _ _ e he with h3 | ⟨h3, e0, he0, h4⟩
                · exact huinv e h3
                · rw [h3, h4]
                  exact ⟨hr, (huinv e0 he0).2⟩
              · simp only [sellUpdate, hr, if_false] at he
                exact huinv e (mem_portfolioUnset _ _ e he)

/-- Witness for C10: account `"A"` holds 10 shares of `X`; an order of 10 shares at
110.00. -/
theorem portfolio_invariant_preserved_witness :
    StateInv (sampleDb 9000 [("X", { shares := 10, avgPrice := 100 })]) ∧
      StateInv (buyStock (sampleDb 9000 [("X", { shares := 10, avgPrice := 100 })])
        (.quotes 110) 2 "A" "X" 10).1 ∧
      StateInv (sellStock (sampleDb 9000 [("X", { shares := 10, avgPrice := 100 })])
        (.quotes 110) 2 "A" "X" 10).1 :=
  have hinv : StateInv (sampleDb 9000 [("X", { shares := 10, avgPrice := 100 })]) := by
    intro u hu e he
    simp only [sampleDb, List.mem_singleton] at hu
    subst hu
    simp only [sampleUser, List.mem_singleton] at he
    subst he
    norm_num
  have h := portfolio_invariant_preserved
    (sampleDb 9000 [("X", { shares := 10, avgPrice := 100 })]) (.quotes 110) 2 "A" "X" 10
    hinv (by decide) (by intro p hp; cases hp; norm_num)
  ⟨hinv, h.2.1, h.2.2⟩

/-! ## The claims on the transaction log and on accounts -/

theorem length_updateOne (users : List User) (userId : String) (f : User → User) :
    (updateOne users userId f).length = users.length := by
  induction users with
  | nil => rfl
  | cons u rest ih =>
    by_cases hk : u.userId = userId
    · simp [updateOne, hk]
    · simp [updateOne, hk, ih]

/-- C11: the transaction log is append-only.  Every `buyStock` or `sellStock` that
returns `success: true` had an oracle price `p` and leaves the log equal to the old log
followed by exactly one record, carrying the order's `userId`, `symbol`, `shares`, the
price `p` and the type `buy` resp. `sell`; every `buyStock` or `sellStock` that does not
return `success: true` leaves the log as it was. -/
theorem transaction_log_append_only (db : State) (data : FmpData) (now : Nat)
    (userId symbol : String) (shares : ℤ) :
    (∀ r, (buyStock db data now userId symbol shares).2 = some r → r.success = true →
        ∃ p, data = .quotes p ∧
          (buyStock db data now userId symbol shares).1.transactions =
            db.transactions ++
              [{ userId := userId, symbol := symbol, shares := shares, price := p,
                 type := .buy, timestamp := now }]) ∧
      (∀ r, (sellStock db data now userId symbol shares).2 = some r → r.success = true →
        ∃ p, data = .quotes p ∧
          (sellStock db data now userId symbol shares).1.transactions =
            db.transactions ++
              [{ userId := userId, symbol := symbol, shares := shares, price := p,
                 type := .sell, timestamp := now }]) ∧
      ((∀ r, (buyStock db data now userId symbol shares).2 = some r → r.success = false) →
        (buyStock db data now userId symbol shares).1.transactions = db.transactions) ∧
      ((∀ r, (sellStock db data now userId symbol shares).2 = some r → r.success = false) →
        (sellStock db data now userId symbol shares).1.transactions = db.transactions) := by
  refine ⟨?_, ?_, fun h => (buyStock_unchanged_of_not_success db data now userId symbol shares h).2,
    fun h => (sellStock_unchanged_of_not_success db data now userId symbol shares h).2⟩
  · intro r hr hs
    cases data with
    | error => rw [buyStock_error] at hr; cases hr; simp [BuyResult.success] at hs
    | other => rw [buyStock_other] at hr; cases hr; simp [BuyResult.success] at hs
    | quotes p =>
      refine ⟨p, rfl, ?_⟩
      cases hu : findOne db.users userId with
      | none => rw [buyStock_no_user db now userId symbol shares p hu] at hr; cases hr
      | some user =>
        by_cases hb : user.balance < roundUpCents (p * shares)
        · rw [buyStock_insufficient db now userId symbol shares p user hu hb] at hr
          cases hr
          simp [BuyResult.success] at hs
        · rw [buyStock_bought db now userId symbol shares p user hu hb]
  · intro r hr hs
    cases hu : findOne db.users userId with
    | none => rw [sellStock_no_user db data now userId symbol shares hu] at hr; cases hr
    | some user =>
      cases data with
      | error =>
        rw [sellStock_error db now userId symbol shares user hu] at hr
        cases hr
        simp [SellResult.success] at hs
      | other =>
        rw [sellStock_other db now userId symbol shares user hu] at hr
        cases hr
        simp [SellResult.success] at hs
      | quotes p =>
        refine ⟨p, rfl, ?_⟩
        cases hg : portfolioGet user.portfolio symbol with
        | none =>
          rw [sellStock_absent db now userId symbol shares p user hu hg] at hr
          cases hr
          simp [SellResult.success] at hs
        | some held =>
          by_cases hlt : held.shares < shares
          · rw [sellStock_insufficient db now userId symbol shares p user held hu hg hlt] at hr
            cases hr
            simp [SellResult.success] at hs
          · rw [sellStock_sold db now userId symbol shares p user held hu hg hlt]

/-- C12: `createAccount(id, name)` on an id that is already present returns
`success: false` and rewrites only the `username` and the `updated` stamp of that
document, so that its balance and portfolio, every other account, the number of
accounts, the transactions and the properties are unchanged; on an absent id it returns
`success: true` and adds exactly one document, with the given id and name, the balance
`Settings.startingBalance || 10000` (the configured starting balance when that is not 0)
and an empty portfolio. -/
theorem createAccount_spec (settings : Settings) (db : State) (now : Nat)
    (userId username : String) :
    (∀ existing, findOne db.users userId = some existing →
        (createAccount settings db now userId username).2.success = false ∧
        findOne (createAccount settings db now userId username).1.users userId =
          some { existing with username := username, updated := some now } ∧
        balanceOf (createAccount settings db now userId username).1 userId =
          balanceOf db userId ∧
        (∀ symbol, holdingOf (createAccount settings db now userId username).1 userId symbol =
          holdingOf db userId symbol) ∧
        (∀ other, other ≠ userId →
          findOne (createAccount settings db now userId username).1.users other =
            findOne db.users other) ∧
        (createAccount settings db now userId username).1.users.length = db.users.length ∧
        (createAccount settings db now userId username).1.transactions = db.transactions ∧
        (createAccount settings db now userId username).1.properties = db.properties) ∧
      (findOne db.users userId = none →
        (createAccount settings db now userId username).2.success = true ∧
        (createAccount settings db now userId username).1 =
          { db with users := db.users ++
              [{ userId := userId, username := username,
                 balance := startingBalanceOrDefault settings, portfolio := [],
                 created := now }] } ∧
        (settings.startingBalance ≠ 0 →
          startingBalanceOrDefault settings = settings.startingBalance)) := by
  constructor
  · intro existing hu
    have hid := (findOne_mem db.users userId existing hu).2
    have hfind : findOne (createAccount settings db now userId username).1.users userId =
        some { existing with username := username, updated := some now } := by
      simp only [createAccount, hu]
      exact findOne_updateOne_same db.users userId _ existing hu hid
    refine ⟨?_, hfind, ?_, ?_, ?_, ?_, ?_, ?_⟩
    · simp only [createAccount, hu]; rfl
    · simp only [balanceOf, hfind, hu, Option.map_some']
    · intro symbol
      simp only [holdingOf, hfind, hu, Option.some_bind]
    · intro other hne
      simp only [createAccount, hu]
      exact findOne_updateOne_other db.users userId other _ (fun _ => rfl) hne
    · simp only [createAccount, hu]
      exact length_updateOne _ _ _
    · simp only [createAccount, hu]
    · simp only [createAccount, hu]
  · intro hu
    refine ⟨?_, ?_, ?_⟩
    · simp only [createAccount, hu]; rfl
    · simp only [createAccount, hu]
    · intro h
      simp [startingBalanceOrDefault, h]

/-! ## The claims on the month settlement -/

theorem selectStep_inv (done : List (String × ℚ)) (best : Option ℚ × List (String × ℚ))
    (e : String × ℚ) (h : SelectInv done best) : SelectInv (done ++ [e]) (selectStep best e) := by
  obtain ⟨bg, bs⟩ := best
  cases bg with
  | none =>
    obtain ⟨h1, h2⟩ := h
    simp only at h1
    subst h1
    by_cases hp : e.2 > 0
    · have hstep : selectStep (none, []) e = (some e.2, [e]) := by
        simp [selectStep, hp, bestGainNegative]
      rw [hstep]
      refine ⟨hp, ?_, ?_, by simp, by simp⟩
      · intro v hv
        rcases List.mem_append.mp hv with hv | hv
        · exact le_trans (h2 v hv) (le_of_lt hp)
        · rw [List.mem_singleton.mp hv]
      · intro u
        constructor
        · intro hu
          rw [List.mem_singleton.mp hu]
          exact ⟨by simp, rfl⟩
        · rintro ⟨hu, hg⟩
          rcases List.mem_append.mp hu with hu | hu
          · have := h2 u hu
            have hp' : e.2 > 0 := hp
            exfalso
            have h3 : u.2 = e.2 := hg
            linarith
          · exact hu
    · have hstep : selectStep (none, []) e = (none, []) := by
        simp [selectStep, hp]
      rw [hstep]
      refine ⟨rfl, ?_⟩
      intro v hv
      rcases List.mem_append.mp hv with hv | hv
      · exact h2 v hv
      · rw [List.mem_singleton.mp hv]; exact not_lt.mp hp
  | some g =>
    obtain ⟨h1, h2, h3, h4, h5⟩ := h
    simp only at h1 h2 h3 h4 h5
    have hneg : bestGainNegative (some g) = false := by
      simp [bestGainNegative, le_of_lt h1]
    by_cases hp : e.2 > 0
    · by_cases heq : e.2 = g
      · have hstep : selectStep (some g, bs) e = (some g, bs ++ [e]) := by
          simp [selectStep, hp, hneg, heq]
          intro h6; linarith
        rw [hstep]
        refine ⟨h1, ?_, ?_, by simp, ?_⟩
        · intro v hv
          rcases List.mem_append.mp hv with hv | hv
          · exact h2 v hv
          · rw [List.mem_singleton.mp hv, heq]
        · intro u
          constructor
          · intro hu
            rcases List.mem_append.mp hu with hu | hu
            · exact ⟨List.mem_append_left _ ((h3 u).mp hu).1, ((h3 u).mp hu).2⟩
            · rw [List.mem_singleton.mp hu]
              exact ⟨by simp, heq⟩
          · rintro ⟨hu, hg⟩
            rcases List.mem_append.mp hu with hu | hu
            · exact List.mem_append_left _ ((h3 u).mpr ⟨hu, hg⟩)
            · exact List.mem_append_right _ hu
        · exact List.Sublist.append h5 (List.Sublist.refl _)
      · by_cases hgt : e.2 > g
        · have hstep : selectStep (some g, bs) e = (some e.2, [e]) := by
            simp [selectStep, hp, hneg, heq, exceedsBestGain, hgt]
            intro h6
            exact absurd h6.symm heq
          rw [hstep]
          refine ⟨hp, ?_, ?_, by simp, by simp⟩
          · intro v hv
            rcases List.mem_append.mp hv with hv | hv
            · exact le_trans (h2 v hv) (le_of_lt hgt)
            · rw [List.mem_singleton.mp hv]
          · intro u
            constructor
            · intro hu
              rw [List.mem_singleton.mp hu]
              exact ⟨by simp, rfl⟩
            · rintro ⟨hu, hg⟩
              rcases List.mem_append.mp hu with hu | hu
              · have := h2 u hu
                have h6 : u.2 = e.2 := hg
                exfalso
                linarith
              · exact hu
        · have hstep : selectStep (some g, bs) e = (some g, bs) := by
            simp [selectStep, hp, hneg, heq, exceedsBestGain, hgt]
            exact fun h6 => heq h6.symm
          rw [hstep]
          have hlt : e.2 < g := lt_of_le_of_ne (not_lt.mp hgt) heq
          refine ⟨h1, ?_, ?_, h4, ?_⟩
          · intro v hv
            rcases List.mem_append.mp hv with hv | hv
            · exact h2 v hv
            · rw [List.mem_singleton.mp hv]; exact le_of_lt hlt
          · intro u
            constructor
            · intro hu
              exact ⟨List.mem_append_left _ ((h3 u).mp hu).1, ((h3 u).mp hu).2⟩
            · rintro ⟨hu, hg⟩
              rcases List.mem_append.mp hu with hu | hu
              · exact (h3 u).mpr ⟨hu, hg⟩
              · rw [List.mem_singleton.mp hu] at hg
                exact absurd hg heq
          · exact List.Sublist.trans h5 (List.sublist_append_left _ _)
    · have hstep : selectStep (some g, bs) e = (some g, bs) := by
        simp [selectStep, hp]
      rw [hstep]
      have hle : e.2 ≤ 0 := not_lt.mp hp
      refine ⟨h1, ?_, ?_, h4, ?_⟩
      · intro v hv
        rcases List.mem_append.mp hv with hv | hv
        · exact h2 v hv
        · rw [List.mem_singleton.mp hv]; linarith
      · intro u
        constructor
        · intro hu
          exact ⟨List.mem_append_left _ ((h3 u).mp hu).1, ((h3 u).mp hu).2⟩
        · rintro ⟨hu, hg⟩
          rcases List.mem_append.mp hu with hu | hu
          · exact (h3 u).mpr ⟨hu, hg⟩
          · rw [List.mem_singleton.mp hu] at hg
            exfalso
            linarith
      · exact List.Sublist.trans h5 (List.sublist_append_left _ _)

theorem foldl_selectStep_inv (l done : List (String × ℚ)) (best : Option ℚ × List (String × ℚ))
    (h : SelectInv done best) : SelectInv (done ++ l) (l.foldl selectStep best) := by
  induction l generalizing done best with
  | nil => simpa using h
  | cons e rest ih =>
    have h1 := ih (done ++ [e]) (selectStep best e) (selectStep_inv done best e h)
    simpa [List.append_assoc] using h1

theorem selectBest_inv (scores : List (String × ℚ)) : SelectInv scores (selectBest scores) := by
  have h := foldl_selectStep_inv scores [] (none, []) ⟨rfl, fun v hv => by cases hv⟩
  simpa [selectBest] using h

theorem mem_selectBest (scores : List (String × ℚ)) (u : String × ℚ) :
    u ∈ (selectBest scores).2 ↔ u ∈ scores ∧ 0 < u.2 ∧ ∀ v ∈ scores, v.2 ≤ u.2 := by
  have h := selectBest_inv scores
  unfold SelectInv at h
  cases hb : (selectBest scores).1 with
  | none =>
    rw [hb] at h
    obtain ⟨h1, h2⟩ := h
    rw [h1]
    constructor
    · intro hu; cases hu
    · rintro ⟨hu, hp, _⟩
      have := h2 u hu
      exfalso
      linarith
  | some g =>
    rw [hb] at h
    obtain ⟨h1, h2, h3, h4, _⟩ := h
    constructor
    · intro hu
      obtain ⟨hu1, hu2⟩ := (h3 u).mp hu
      exact ⟨hu1, by rw [hu2]; exact h1, fun v hv => by rw [hu2]; exact h2 v hv⟩
    · rintro ⟨hu, _, hmax⟩
      obtain ⟨w, hw⟩ := List.exists_mem_of_ne_nil _ h4
      obtain ⟨hw1, hw2⟩ := (h3 w).mp hw
      have h5 : g ≤ u.2 := by rw [← hw2]; exact hmax w hw1
      exact (h3 u).mpr ⟨hu, le_antisymm (h2 u hu) h5⟩

/-- C14: for every map of account scores, the winner selection of the month settlement
picks exactly the accounts whose score is positive and is the maximum score; it picks
nobody when no score is positive; and the set picked does not depend on the order in
which the accounts are visited. -/
theorem selectBest_picks_positive_maximum (scores : List (String × ℚ)) :
    (∀ u, u ∈ (selectBest scores).2 ↔ u ∈ scores ∧ 0 < u.2 ∧ ∀ v ∈ scores, v.2 ≤ u.2) ∧
      ((∀ v ∈ scores, v.2 ≤ 0) → (selectBest scores).2 = []) ∧
      (∀ visited : List (String × ℚ), visited.Perm scores →
        ∀ u, u ∈ (selectBest visited).2 ↔ u ∈ (selectBest scores).2) := by
  refine ⟨mem_selectBest scores, ?_, ?_⟩
  · intro h
    apply List.eq_nil_iff_forall_not_mem.mpr
    intro u hu
    obtain ⟨hu1, hu2, _⟩ := (mem_selectBest scores u).mp hu
    have := h u hu1
    linarith
  · intro visited hperm u
    rw [mem_selectBest, mem_selectBest]
    constructor
    · rintro ⟨h1, h2, h3⟩
      exact ⟨hperm.mem_iff.mp h1, h2, fun v hv => h3 v (hperm.mem_iff.mpr hv)⟩
    · rintro ⟨h1, h2, h3⟩
      exact ⟨hperm.mem_iff.mpr h1, h2, fun v hv => h3 v (hperm.mem_iff.mp hv)⟩

theorem propertyGet_upsert_other (props : List (String × PropValue)) (key other : String)
    (v : PropValue) (hne : other ≠ key) :
    propertyGet (upsertProperty props key v) other = propertyGet props other := by
  induction props with
  | nil => simp [upsertProperty, propertyGet, Ne.symm hne]
  | cons e rest ih =>
    obtain ⟨k, v0⟩ := e
    by_cases hk : k = key
    · subst hk
      simp [upsertProperty, propertyGet, Ne.symm hne]
    · by_cases hko : k = other
      · subst hko
        simp [upsertProperty, propertyGet, hne]
      · simp [upsertProperty, propertyGet, hk, hko, ih]

theorem SameLedger.refl (db : State) : SameLedger db db :=
  ⟨rfl, rfl, rfl, fun _ _ => rfl⟩

theorem SameLedger.trans {a b c : State} (h1 : SameLedger a b) (h2 : SameLedger b c) :
    SameLedger a c :=
  ⟨h2.1.trans h1.1, h2.2.1.trans h1.2.1, h2.2.2.1.trans h1.2.2.1,
    fun key hk => (h2.2.2.2 key hk).trans (h1.2.2.2 key hk)⟩

theorem getStockPrice_sameLedger (db : State) (data : FmpData) :
    SameLedger db (getStockPrice db data).1 := by
  cases data with
  | quotes p => exact SameLedger.refl db
  | error => exact SameLedger.refl db
  | other =>
    refine ⟨rfl, rfl, rfl, fun key hk => ?_⟩
    exact propertyGet_upsert_other db.properties "apiLimitExceeded" key _ hk

theorem maxPctGainLoop_sameLedger (oracle : Oracle) (openPrices : OpenPrices) (userId : String)
    (p : Portfolio) (db : State) (m : Option ℚ) :
    SameLedger db (maxPctGainLoop oracle openPrices userId p db m).1 := by
  induction p generalizing db m with
  | nil => exact SameLedger.refl db
  | cons e rest ih =>
    obtain ⟨symbol, stock⟩ := e
    have hq := getStockPrice_sameLedger db (oracle symbol)
    unfold maxPctGainLoop
    cases hr : getStockPrice db (oracle symbol) with
    | mk db1 response =>
      rw [hr] at hq
      cases response with
      | failed message => exact hq
      | ok price =>
        simp only
        split
        · cases m with
          | none => exact hq.trans (ih db1 _)
          | some g =>
            simp only
            split
            · exact hq.trans (ih db1 _)
            · exact hq.trans (ih db1 _)
        · exact hq.trans (ih db1 _)

theorem userPctGain_sameLedger (oracle : Oracle) (openPrices : OpenPrices) (user : User)
    (db : State) : SameLedger db (userPctGain oracle openPrices user db).1 := by
  have h := maxPctGainLoop_sameLedger oracle openPrices user.userId user.portfolio db none
  unfold userPctGain
  cases hr : maxPctGainLoop oracle openPrices user.userId user.portfolio db none with
  | mk db1 res =>
    rw [hr] at h
    cases res <;> exact h

theorem computePctGains_sameLedger (oracle : Oracle) (openPrices : OpenPrices)
    (users : List User) (db : State) (acc : List (String × ℚ)) :
    SameLedger db (computePctGains oracle openPrices users db acc).1 := by
  induction users generalizing db acc with
  | nil => exact SameLedger.refl db
  | cons user rest ih =>
    have h := userPctGain_sameLedger oracle openPrices user db
    unfold computePctGains
    cases hr : userPctGain oracle openPrices user db with
    | mk db1 res =>
      rw [hr] at h
      cases res with
      | error message => exact h
      | ok score => exact h.trans (ih db1 _)

theorem updateOne_of_findOne_none (users : List User) (userId : String) (f : User → User)
    (h : findOne users userId = none) : updateOne users userId f = users := by
  induction users with
  | nil => rfl
  | cons u rest ih =>
    by_cases hk : u.userId = userId
    · simp [findOne, hk] at h
    · simp [findOne, hk] at h
      simp [updateOne, hk, ih h]

theorem findOne_updateOne_map (users : List User) (userId : String) (f : User → User)
    (hf : ∀ u, (f u).userId = u.userId) :
    findOne (updateOne users userId f) userId = (findOne users userId).map f := by
  cases hu : findOne users userId with
  | none => rw [updateOne_of_findOne_none users userId f hu, hu]; rfl
  | some user =>
    have hid := (findOne_mem users userId user hu).2
    rw [findOne_updateOne_same users userId f user hu (by rw [hf]; exact hid)]
    rfl

theorem findOne_awardUsers (users : List User) (award : ℚ) (winners : List (String × ℚ))
    (hnd : (winners.map Prod.fst).Nodup) (userId : String) :
    findOne (awardUsers users award winners) userId =
      if userId ∈ winners.map Prod.fst then
        (findOne users userId).map fun u => { u with balance := u.balance + award }
      else findOne users userId := by
  induction winners generalizing users with
  | nil => simp [awardUsers]
  | cons w rest ih =>
    simp only [List.map_cons, List.nodup_cons] at hnd
    obtain ⟨hw, hrest⟩ := hnd
    simp only [awardUsers]
    rw [ih _ hrest]
    by_cases hid : userId = w.1
    · subst hid
      simp only [hw, if_false, List.map_cons, List.mem_cons, true_or, if_true]
      exact findOne_updateOne_map users w.1 _ (fun _ => rfl)
    · have h1 : findOne (updateOne users w.1 fun u => { u with balance := u.balance + award })
          userId = findOne users userId :=
        findOne_updateOne_other users w.1 userId _ (fun _ => rfl) hid
      simp only [h1, List.map_cons, List.mem_cons, hid, false_or]

theorem map_fst_pctGainSet (l : List (String × ℚ)) (userId : String) (score : ℚ) :
    (pctGainSet l userId score).map Prod.fst =
      if userId ∈ l.map Prod.fst then l.map Prod.fst else l.map Prod.fst ++ [userId] := by
  induction l with
  | nil => simp [pctGainSet]
  | cons e rest ih =>
    obtain ⟨k, v0⟩ := e
    by_cases hk : k = userId
    · subst hk
      simp [pctGainSet]
    · have hk' : ¬ userId = k := fun h => hk h.symm
      simp only [pctGainSet, hk, if_false, List.map_cons, ih, List.mem_cons, hk', false_or]
      split <;> simp

theorem nodup_pctGainSet (l : List (String × ℚ)) (userId : String) (score : ℚ)
    (h : (l.map Prod.fst).Nodup) : ((pctGainSet l userId score).map Prod.fst).Nodup := by
  rw [map_fst_pctGainSet]
  split
  · exact h
  · rename_i hn
    rw [List.nodup_append]
    refine ⟨h, List.nodup_singleton _, ?_⟩
    intro a ha hb
    rw [List.mem_singleton] at hb
    subst hb
    exact hn ha

theorem computePctGains_keys (oracle : Oracle) (openPrices : OpenPrices) (users : List User)
    (db : State) (acc scores : List (String × ℚ))
    (hnd : (acc.map Prod.fst).Nodup)
    (h : (computePctGains oracle openPrices users db acc).2 = .ok scores) :
    (scores.map Prod.fst).Nodup ∧
      ∀ k ∈ scores.map Prod.fst, k ∈ acc.map Prod.fst ∨ k ∈ users.map fun u => u.userId := by
  induction users generalizing db acc with
  | nil =>
    simp only [computePctGains] at h
    cases h
    exact ⟨hnd, fun k hk => Or.inl hk⟩
  | cons user rest ih =>
    unfold computePctGains at h
    cases hr : userPctGain oracle openPrices user db with
    | mk db1 res =>
      rw [hr] at h
      cases res with
      | error message => simp at h
      | ok score =>
        simp only at h
        obtain ⟨h1, h2⟩ := ih db1 _ (nodup_pctGainSet acc user.userId score hnd) h
        refine ⟨h1, fun k hk => ?_⟩
        rcases h2 k hk with h3 | h3
        · rw [map_fst_pctGainSet] at h3
          split at h3
          · exact Or.inl h3
          · rcases List.mem_append.mp h3 with h4 | h4
            · exact Or.inl h4
            · rw [List.mem_singleton.mp h4]
              exact Or.inr (by simp)
        · exact Or.inr (List.mem_cons_of_mem _ h3)

theorem findOne_isSome_of_mem (users : List User) (userId : String)
    (h : userId ∈ users.map fun u => u.userId) : ∃ user, findOne users userId = some user := by
  induction users with
  | nil => simp at h
  | cons u rest ih =>
    by_cases hk : u.userId = userId
    · exact ⟨u, by simp [findOne, hk]⟩
    · simp only [List.map_cons, List.mem_cons] at h
      rcases h with h | h
      · exact absurd h.symm hk
      · obtain ⟨user, hu⟩ := ih h
        exact ⟨user, by simp [findOne, hk, hu]⟩

/-- What `#calculateAndAwardTopMonthlyGains` does when the scores are computed and the
selection is not empty: it awards every selected account. -/
theorem calculate_of_winners (settings : Settings) (db db1 : State) (flag : Bool)
    (oracle : Oracle) (startOfMonth : Nat) (scores : List (String × ℚ))
    (hscores : computePctGains oracle (monthOpenPrices db startOfMonth) db.users db [] =
      (db1, .ok scores))
    (hwin : (selectBest scores).2 ≠ []) :
    ∃ ceremony, ceremony.success = true ∧
      calculateAndAwardTopMonthlyGains settings db flag oracle startOfMonth =
        ({ db1 with users := awardUsers db1.users settings.monthlyAward (selectBest scores).2 },
          flag, ceremony) := by
  have hinv := selectBest_inv scores
  unfold monthOpenPrices at hscores
  unfold SelectInv at hinv
  simp only [calculateAndAwardTopMonthlyGains, hscores]
  have hzero : ¬ (selectBest scores).1 = some 0 := by
    intro hb
    rw [hb] at hinv
    exact absurd hinv.1 (lt_irrefl 0)
  rw [if_neg hzero]
  by_cases h1 : (selectBest scores).2.length > 1
  · rw [if_pos h1]
    exact ⟨.awarded (some (String.intercalate ", " ((selectBest scores).2.map fun u => u.1)))
      (selectBest scores).1, rfl, rfl⟩
  · rw [if_neg h1]
    have h2 : (selectBest scores).2.length = 1 := by
      have h3 : (selectBest scores).2.length ≠ 0 := fun h => hwin (List.length_eq_zero.mp h)
      omega
    rw [if_pos h2]
    exact ⟨.awarded none (selectBest scores).1, rfl, rfl⟩

/-- The month settlement never sets `runRollOverBonus` and never writes a property other
than `apiLimitExceeded`: whatever the accounts and quotes, `#EOMTasks` entered with
`runRollOverBonus = false` (its initial value) leaves `prizePool` as it was. -/
theorem EOMTasks_prizePool_unchanged (settings : Settings) (db : State) (oracle : Oracle)
    (startOfMonth : Nat) :
    (EOMTasks settings db false oracle startOfMonth).2.1 = false ∧
      propertyGet (EOMTasks settings db false oracle startOfMonth).1.properties "prizePool" =
        propertyGet db.properties "prizePool" := by
  have hsame := computePctGains_sameLedger oracle (monthOpenPrices db startOfMonth) db.users db []
  unfold monthOpenPrices at hsame
  cases hr : computePctGains oracle
      (recordOpenPrices (db.transactions.filter fun tx =>
        matchesGte .date startOfMonth timestampType tx.timestamp) [])
      db.users db [] with
  | mk db1 res =>
    rw [hr] at hsame
    have hpool := hsame.2.2.2 "prizePool" (by decide)
    cases res with
    | error message =>
      simp only [EOMTasks, calculateAndAwardTopMonthlyGains, hr, Ceremony.success]
      exact ⟨rfl, hpool⟩
    | ok scores =>
      have hinv := selectBest_inv scores
      unfold SelectInv at hinv
      have hzero : ¬ (selectBest scores).1 = some 0 := by
        intro hb
        rw [hb] at hinv
        exact absurd hinv.1 (lt_irrefl 0)
      simp only [EOMTasks, calculateAndAwardTopMonthlyGains, hr, if_neg hzero]
      by_cases h1 : (selectBest scores).2.length > 1
      · rw [if_pos h1]
        exact ⟨rfl, hpool⟩
      · rw [if_neg h1]
        by_cases h2 : (selectBest scores).2.length = 1
        · rw [if_pos h2]
          exact ⟨rfl, hpool⟩
        · rw [if_neg h2]
          exact ⟨rfl, hpool⟩

/-- C15: when the month settlement computes the scores `scores` (no quote fails) and the
selection has one or more winners, every winner's stored balance increases by exactly
the full `Settings.monthlyAward` (no splitting among tied winners), every other account's
balance is unchanged, `prizePool` is unchanged, and the award step reports
`success: true`. -/
theorem monthly_award_in_full (settings : Settings) (db : State) (flag : Bool)
    (oracle : Oracle) (startOfMonth : Nat) (scores : List (String × ℚ))
    (hscores : (computePctGains oracle (monthOpenPrices db startOfMonth) db.users db []).2 =
      .ok scores)
    (hwin : (selectBest scores).2 ≠ []) :
    (∀ w ∈ (selectBest scores).2, ∃ b, balanceOf db w.1 = some b ∧
        balanceOf (EOMTasks settings db flag oracle startOfMonth).1 w.1 =
          some (b + settings.monthlyAward)) ∧
      (∀ userId, userId ∉ (selectBest scores).2.map Prod.fst →
        balanceOf (EOMTasks settings db flag oracle startOfMonth).1 userId =
          balanceOf db userId) ∧
      propertyGet (EOMTasks settings db flag oracle startOfMonth).1.properties "prizePool" =
        propertyGet db.properties "prizePool" ∧
      (calculateAndAwardTopMonthlyGains settings db flag oracle startOfMonth).2.2.success =
        true := by
  have hsame := computePctGains_sameLedger oracle (monthOpenPrices db startOfMonth) db.users db []
  have hkeys := computePctGains_keys oracle (monthOpenPrices db startOfMonth) db.users db []
    scores (by simp) hscores
  cases hr : computePctGains oracle (monthOpenPrices db startOfMonth) db.users db [] with
  | mk db1 res =>
    rw [hr] at hsame hscores
    simp only at hscores
    subst hscores
    obtain ⟨ceremony, hc, hcalc⟩ :=
      calculate_of_winners settings db db1 flag oracle startOfMonth scores hr hwin
    have heom : (EOMTasks settings db flag oracle startOfMonth).1 =
        { db1 with users := awardUsers db1.users settings.monthlyAward (selectBest scores).2 } := by
      simp only [EOMTasks, hcalc, hc, if_true]
    have hsub : ((selectBest scores).2.map Prod.fst).Sublist (scores.map Prod.fst) := by
      have hinv := selectBest_inv scores
      unfold SelectInv at hinv
      cases hb : (selectBest scores).1 with
      | none => rw [hb] at hinv; exact absurd hinv.1 hwin
      | some g => rw [hb] at hinv; exact hinv.2.2.2.2.map _
    have hnd : ((selectBest scores).2.map Prod.fst).Nodup := hkeys.1.sublist hsub
    have hfind : ∀ userId,
        findOne (EOMTasks settings db flag oracle startOfMonth).1.users userId =
          if userId ∈ (selectBest scores).2.map Prod.fst then
            (findOne db.users userId).map fun u =>
              { u with balance := u.balance + settings.monthlyAward }
          else findOne db.users userId := by
      intro userId
      rw [heom]
      simp only
      rw [findOne_awardUsers _ _ _ hnd, hsame.1]
    refine ⟨?_, ?_, ?_, ?_⟩
    · intro w hw
      have hmem : w.1 ∈ (selectBest scores).2.map Prod.fst := List.mem_map_of_mem _ hw
      have huser : w.1 ∈ db.users.map fun u => u.userId := by
        rcases hkeys.2 w.1 (hsub.subset hmem) with h | h
        · simp at h
        · exact h
      obtain ⟨user, hu⟩ := findOne_isSome_of_mem db.users w.1 huser
      refine ⟨user.balance, by simp [balanceOf, hu], ?_⟩
      simp only [balanceOf, hfind, hmem, if_true, hu, Option.map_some']
    · intro userId hn
      simp only [balanceOf, hfind, hn, if_false]
    · rw [heom]
      exact hsame.2.2.2 "prizePool" (by decide)
    · rw [hcalc]
      exact hc

/-- Witness for C15: the accounts `"A"` and `"B"` tie at 5.00% with a monthly award of 250
and a prize pool of 500; both receive +250 and the prize pool stays at 500. -/
theorem monthly_award_in_full_witness :
    balanceOf (EOMTasks sampleSettings tiedDb false sampleOracle 0).1 "A" = some 9250 ∧
      balanceOf (EOMTasks sampleSettings tiedDb false sampleOracle 0).1 "B" = some 8250 ∧
      propertyGet (EOMTasks sampleSettings tiedDb false sampleOracle 0).1.properties
        "prizePool" = some (.num 500) := by
  have hscores : (computePctGains sampleOracle (monthOpenPrices tiedDb 0) tiedDb.users
      tiedDb []).2 = .ok [("A", 5), ("B", 5)] := by
    simp [computePctGains, userPctGain, maxPctGainLoop, pctGainOrZero, pctGainSet,
      monthOpenPrices, recordOpenPrices, tiedDb, sampleOracle, getStockPrice, openPriceOf,
      openPriceGet]
    norm_num
  have hsel : selectBest [("A", 5), ("B", 5)] = (some 5, [("A", 5), ("B", 5)]) := by
    simp [selectBest, selectStep, bestGainNegative, exceedsBestGain]
  have h := monthly_award_in_full sampleSettings tiedDb false sampleOracle 0
    [("A", 5), ("B", 5)] hscores (by rw [hsel]; simp)
  rw [hsel] at h
  obtain ⟨a, ha1, ha2⟩ := h.1 ("A", 5) (by simp)
  obtain ⟨b, hb1, hb2⟩ := h.1 ("B", 5) (by simp)
  have ha : a = 9000 := by
    have : balanceOf tiedDb "A" = some 9000 := by simp [balanceOf, findOne, tiedDb]
    rw [this] at ha1
    exact (Option.some.inj ha1).symm
  have hb : b = 8000 := by
    have : balanceOf tiedDb "B" = some 8000 := by simp [balanceOf, findOne, tiedDb]
    rw [this] at hb1
    exact (Option.some.inj hb1).symm
  subst ha
  subst hb
  refine ⟨?_, ?_, ?_⟩
  · rw [ha2]; norm_num [sampleSettings]
  · rw [hb2]; norm_num [sampleSettings]
  · rw [h.2.2.1]; simp [tiedDb, propertyGet]

/-- C13, evaluation at the failing input: a month settlement in which no account has a
positive score does not add to `prizePool`.  With a monthly award of 250, `#EOMTasks` on
an account without holdings, and on an account whose only holding lost value (10 shares
of `X` bought at 110.00, quoted at 105.00), returns the "ceremony failed" result and
leaves the whole database, balances and `prizePool` included, as it was: `bestGain`
stays at `-Infinity`, so the test `bestGain === 0` that sets `runRollOverBonus` is never
true and `rollOverBonus` is not called. -/
theorem EOMTasks_no_gain_no_rollover :
    EOMTasks sampleSettings (sampleDb 10000 []) false sampleOracle 0 =
        (sampleDb 10000 [], false, some .failed) ∧
      propertyGet (EOMTasks sampleSettings (sampleDb 10000 []) false sampleOracle 0).1.properties
        "prizePool" = none ∧
      EOMTasks sampleSettings (sampleDb 9000 [("X", { shares := 10, avgPrice := 110 })]) false
          sampleOracle 0 =
        (sampleDb 9000 [("X", { shares := 10, avgPrice := 110 })], false, some .failed) ∧
      (rollOverBonus (sampleDb 10000 [])).properties = [("prizePool", .num 250)] := by
  refine ⟨by decide, by decide, ?_, by simp [rollOverBonus, sampleDb, incProperty]⟩
  have hscores : computePctGains sampleOracle
      (recordOpenPrices ((sampleDb 9000 [("X", { shares := 10, avgPrice := 110 })]).transactions.filter
        fun tx => matchesGte .date 0 timestampType tx.timestamp) [])
      (sampleDb 9000 [("X", { shares := 10, avgPrice := 110 })]).users
      (sampleDb 9000 [("X", { shares := 10, avgPrice := 110 })]) [] =
      (sampleDb 9000 [("X", { shares := 10, avgPrice := 110 })], .ok [("A", -50 / 11)]) := by
    simp [sampleDb, sampleUser, computePctGains, userPctGain, maxPctGainLoop, pctGainOrZero,
      pctGainSet, recordOpenPrices, sampleOracle, getStockPrice, openPriceOf, openPriceGet]
    norm_num
  have hsel : selectBest [("A", (-50 / 11 : ℚ))] = (none, []) := by
    simp [selectBest, selectStep]
    norm_num
  simp only [EOMTasks, calculateAndAwardTopMonthlyGains, hscores, hsel]
  rfl

/-- C17, evaluation at the failing input: on a monthly win the prize pool is neither
paid out nor drained.  Account `"A"` (balance 9000) wins the month with a prize pool of
250 and a monthly award of 250: `#EOMTasks` throws on `ceremony.winner.userId` before it
calls `transferMonthlyPrizePool`, so the stored balance is 9250 (the award alone) and
`prizePool` is still 250; and `transferMonthlyPrizePool("A")` called on its own credits
250 but leaves `prizePool` at 250. -/
theorem EOMTasks_win_does_not_pay_prizePool :
    (EOMTasks sampleSettings winnerDb false sampleOracle 0).2.2 = none ∧
      balanceOf (EOMTasks sampleSettings winnerDb false sampleOracle 0).1 "A" = some 9250 ∧
      propertyGet (EOMTasks sampleSettings winnerDb false sampleOracle 0).1.properties
        "prizePool" = some (.num 250) ∧
      (transferMonthlyPrizePool winnerDb "A").2 = some (.transferred 250 "alice") ∧
      balanceOf (transferMonthlyPrizePool winnerDb "A").1 "A" = some 9250 ∧
      propertyGet (transferMonthlyPrizePool winnerDb "A").1.properties "prizePool" =
        some (.num 250) := by
  have hcalc : calculateAndAwardTopMonthlyGains sampleSettings winnerDb false sampleOracle 0 =
      ({ winnerDb with users :=
          [{ userId := "A", username := "alice", balance := 9250,
             portfolio := [("X", { shares := 10, avgPrice := 100 })], created := 0 }] },
        false, .awarded none (some 5)) := by
    simp [calculateAndAwardTopMonthlyGains, winnerDb, computePctGains,
      userPctGain, maxPctGainLoop, pctGainOrZero, pctGainSet, selectBest, selectStep,
      recordOpenPrices, sampleOracle, getStockPrice, openPriceOf,
      openPriceGet, bestGainNegative, exceedsBestGain, awardUsers, updateOne, sampleSettings]
    norm_num
  have heom : EOMTasks sampleSettings winnerDb false sampleOracle 0 =
      ({ winnerDb with users :=
          [{ userId := "A", username := "alice", balance := 9250,
             portfolio := [("X", { shares := 10, avgPrice := 100 })], created := 0 }] },
        false, none) := by
    simp only [EOMTasks, hcalc, Ceremony.success, if_true]
  have htr : transferMonthlyPrizePool winnerDb "A" =
      ({ winnerDb with users :=
          [{ userId := "A", username := "alice", balance := 9250,
             portfolio := [("X", { shares := 10, avgPrice := 100 })], created := 0 }] },
        some (.transferred 250 "alice")) := by
    simp [transferMonthlyPrizePool, winnerDb, propertyGet, findOne, updateOne]
    norm_num
  rw [heom, htr]
  refine ⟨rfl, ?_, ?_, rfl, ?_, ?_⟩
  · simp [balanceOf, findOne]
  · simp [winnerDb, propertyGet]
  · simp [balanceOf, findOne]
  · simp [winnerDb, propertyGet]

theorem matchesGte_date_timestamp (operand value : Nat) :
    matchesGte .date operand timestampType value = false := by
  simp [matchesGte, timestampType]

/-- The query for the transactions of the month matches no document, so no opening
price is recorded. -/
theorem monthOpenPrices_eq_nil (db : State) (startOfMonth : Nat) :
    monthOpenPrices db startOfMonth = [] := by
  unfold monthOpenPrices
  have h : (db.transactions.filter fun tx =>
      matchesGte .date startOfMonth timestampType tx.timestamp) = [] := by
    rw [List.filter_eq_nil_iff]
    intro tx _
    simp [matchesGte_date_timestamp]
  rw [h]
  rfl

theorem openPriceOf_month (db : State) (startOfMonth : Nat) (userId symbol : String)
    (avgPrice : ℚ) :
    openPriceOf (monthOpenPrices db startOfMonth) userId symbol avgPrice = avgPrice := by
  rw [monthOpenPrices_eq_nil]
  rfl

theorem maxPctGainLoop_max (oracle : Oracle) (openPrices : OpenPrices) (userId : String)
    (p : Portfolio) (db : State) (m : Option ℚ)
    (hq : ∀ e ∈ p, ∃ q, oracle e.1 = .quotes q)
    (hopen : ∀ e ∈ p, 0 < openPriceOf openPrices userId e.1 e.2.avgPrice) :
    ∃ r, maxPctGainLoop oracle openPrices userId p db m = (db, .ok r) ∧
      (∀ g, m = some g → ∃ g', r = some g' ∧ g ≤ g') ∧
      (∀ e ∈ p, ∃ g', r = some g' ∧
        pctGainSpec (quotedPrice oracle e.1)
          (openPriceOf openPrices userId e.1 e.2.avgPrice) ≤ g') ∧
      (r = m ∨ ∃ e ∈ p, r = some (pctGainSpec (quotedPrice oracle e.1)
          (openPriceOf openPrices userId e.1 e.2.avgPrice))) := by
  induction p generalizing m with
  | nil =>
    refine ⟨m, rfl, fun g hg => ⟨g, hg, le_refl g⟩, fun e he => (List.not_mem_nil e he).elim,
      Or.inl rfl⟩
  | cons e rest ih =>
    obtain ⟨symbol, stock⟩ := e
    obtain ⟨q, hqs⟩ := hq (symbol, stock) (List.mem_cons_self _ _)
    have hO := hopen (symbol, stock) (List.mem_cons_self _ _)
    simp only at hqs hO
    have hqp : quotedPrice oracle symbol = q := by simp [quotedPrice, hqs]
    have hq' : ∀ e ∈ rest, ∃ q, oracle e.1 = .quotes q :=
      fun e he => hq e (List.mem_cons_of_mem _ he)
    have hopen' : ∀ e ∈ rest, 0 < openPriceOf openPrices userId e.1 e.2.avgPrice :=
      fun e he => hopen e (List.mem_cons_of_mem _ he)
    have hgain : pctGainSpec (quotedPrice oracle symbol)
        (openPriceOf openPrices userId symbol stock.avgPrice) =
        (q - openPriceOf openPrices userId symbol stock.avgPrice) /
          openPriceOf openPrices userId symbol stock.avgPrice * 100 := by
      rw [hqp]; rfl
    cases m with
    | none =>
      obtain ⟨r, h1, h2, h3, h4⟩ := ih (some ((q - openPriceOf openPrices userId symbol
        stock.avgPrice) / openPriceOf openPrices userId symbol stock.avgPrice * 100)) hq' hopen'
      refine ⟨r, ?_, fun g hg => Option.noConfusion hg, ?_, ?_⟩
      · simp only [maxPctGainLoop, hqs, getStockPrice, gt_iff_lt, hO, if_true]
        exact h1
      · intro e he
        rcases List.mem_cons.mp he with he | he
        · subst he
          simp only
          rw [hgain]
          exact h2 _ rfl
        · exact h3 e he
      · right
        rcases h4 with h4 | ⟨e, he, h4⟩
        · exact ⟨(symbol, stock), List.mem_cons_self _ _, by rw [h4, hgain]⟩
        · exact ⟨e, List.mem_cons_of_mem _ he, h4⟩
    | some g =>
      by_cases hgt : (q - openPriceOf openPrices userId symbol stock.avgPrice) /
          openPriceOf openPrices userId symbol stock.avgPrice * 100 > g
      · obtain ⟨r, h1, h2, h3, h4⟩ := ih (some ((q - openPriceOf openPrices userId symbol
          stock.avgPrice) / openPriceOf openPrices userId symbol stock.avgPrice * 100)) hq' hopen'
        refine ⟨r, ?_, ?_, ?_, ?_⟩
        · simp only [maxPctGainLoop, hqs, getStockPrice, gt_iff_lt, hO, if_true]
          rw [if_pos hgt]
          exact h1
        · intro g0 hg0
          cases hg0
          obtain ⟨g', hr, hle⟩ := h2 _ rfl
          exact ⟨g', hr, le_trans (le_of_lt hgt) hle⟩
        · intro e he
          rcases List.mem_cons.mp he with he | he
          · subst he
            simp only
            rw [hgain]
            exact h2 _ rfl
          · exact h3 e he
        · right
          rcases h4 with h4 | ⟨e, he, h4⟩
          · exact ⟨(symbol, stock), List.mem_cons_self _ _, by rw [h4, hgain]⟩
          · exact ⟨e, List.mem_cons_of_mem _ he, h4⟩
      · obtain ⟨r, h1, h2, h3, h4⟩ := ih (some g) hq' hopen'
        refine ⟨r, ?_, ?_, ?_, ?_⟩
        · simp only [maxPctGainLoop, hqs, getStockPrice, gt_iff_lt, hO, if_true]
          rw [if_neg hgt]
          exact h1
        · intro g0 hg0
          exact h2 g0 hg0
        · intro e he
          rcases List.mem_cons.mp he with he | he
          · subst he
            simp only
            rw [hgain]
            obtain ⟨g', hr, hle⟩ := h2 g rfl
            exact ⟨g', hr, le_trans (not_lt.mp hgt) hle⟩
          · exact h3 e he
        · rcases h4 with h4 | ⟨e, he, h4⟩
          · exact Or.inl h4
          · exact Or.inr ⟨e, List.mem_cons_of_mem _ he, h4⟩

theorem mem_pctGainSet_self (l : List (String × ℚ)) (userId : String) (score : ℚ) :
    (userId, score) ∈ pctGainSet l userId score := by
  induction l with
  | nil => simp [pctGainSet]
  | cons e rest ih =>
    obtain ⟨k, v0⟩ := e
    by_cases hk : k = userId
    · simp [pctGainSet, hk]
    · simp [pctGainSet, hk, ih]

theorem mem_pctGainSet_of_ne (l : List (String × ℚ)) (userId : String) (score : ℚ)
    (e : String × ℚ) (he : e ∈ l) (hne : e.1 ≠ userId) : e ∈ pctGainSet l userId score := by
  induction l with
  | nil => cases he
  | cons e0 rest ih =>
    obtain ⟨k, v0⟩ := e0
    by_cases hk : k = userId
    · rcases List.mem_cons.mp he with h | h
      · subst h
        exact absurd hk hne
      · simp [pctGainSet, hk, h]
    · rcases List.mem_cons.mp he with h | h
      · simp [pctGainSet, hk, h]
      · simp [pctGainSet, hk, ih h]

theorem computePctGains_mem (oracle : Oracle) (openPrices : OpenPrices) (users : List User)
    (db : State) (acc scores : List (String × ℚ))
    (hnd : (users.map fun u => u.userId).Nodup)
    (h : (computePctGains oracle openPrices users db acc).2 = .ok scores) :
    (∀ e ∈ acc, e.1 ∉ (users.map fun u => u.userId) → e ∈ scores) ∧
      (∀ user ∈ users, ∀ score,
        (∀ db0, (userPctGain oracle openPrices user db0).2 = .ok score) →
        (user.userId, score) ∈ scores) := by
  induction users generalizing db acc with
  | nil =>
    simp only [computePctGains] at h
    cases h
    exact ⟨fun e he _ => he, fun user hu => by cases hu⟩
  | cons u rest ih =>
    simp only [List.map_cons, List.nodup_cons] at hnd
    unfold computePctGains at h
    cases hr : userPctGain oracle openPrices u db with
    | mk db1 res =>
      rw [hr] at h
      cases res with
      | error message => simp at h
      | ok s =>
        simp only at h
        obtain ⟨h1, h2⟩ := ih db1 _ hnd.2 h
        constructor
        · intro e he hn
          simp only [List.map_cons, List.mem_cons, not_or] at hn
          exact h1 e (mem_pctGainSet_of_ne acc u.userId s e he hn.1) hn.2
        · intro user hu score hscore
          rcases List.mem_cons.mp hu with hu | hu
          · subst hu
            have hs := hscore db
            rw [hr] at hs
            simp only at hs
            cases hs
            exact h1 _ (mem_pctGainSet_self acc user.userId s) hnd.1
          · exact h2 user hu score hscore

/-- The score of an account in the month settlement is the largest percentage gain of its
holdings over their average cost, and 0 when it holds nothing; it is the entry of the
account in `userPctGains`.  It is stated for a run in which every held symbol is quoted
and every average cost is positive (where the quotient is defined). -/
theorem month_score_is_max_avgCost_gain (db : State) (oracle : Oracle) (startOfMonth : Nat)
    (user : User)
    (hq : ∀ e ∈ user.portfolio, ∃ q, oracle e.1 = .quotes q)
    (hopen : ∀ e ∈ user.portfolio, 0 < e.2.avgPrice) :
    ∃ score,
      (∀ db0, userPctGain oracle (monthOpenPrices db startOfMonth) user db0 =
        (db0, .ok score)) ∧
      (user.portfolio = [] → score = 0) ∧
      (user.portfolio ≠ [] →
        (∃ e ∈ user.portfolio, score = avgCostGain oracle e) ∧
        (∀ e ∈ user.portfolio, avgCostGain oracle e ≤ score)) ∧
      (∀ scores, user ∈ db.users → (db.users.map fun u => u.userId).Nodup →
        (computePctGains oracle (monthOpenPrices db startOfMonth) db.users db []).2 =
          .ok scores →
        (user.userId, score) ∈ scores) := by
  have hopen' : ∀ e ∈ user.portfolio,
      0 < openPriceOf (monthOpenPrices db startOfMonth) user.userId e.1 e.2.avgPrice := by
    intro e he
    rw [openPriceOf_month]
    exact hopen e he
  obtain ⟨r, h1, _, h3, h4⟩ := maxPctGainLoop_max oracle (monthOpenPrices db startOfMonth)
    user.userId user.portfolio db none hq hopen'
  have hall : ∀ db0, userPctGain oracle (monthOpenPrices db startOfMonth) user db0 =
      (db0, .ok (pctGainOrZero r)) := by
    intro db0
    obtain ⟨r0, h01, _, h03, h04⟩ := maxPctGainLoop_max oracle
      (monthOpenPrices db startOfMonth) user.userId user.portfolio db0 none hq hopen'
    have hr : pctGainOrZero r0 = pctGainOrZero r := by
      cases hp : user.portfolio with
      | nil =>
        rw [hp] at h4 h04
        rcases h4 with h4 | ⟨e, he, _⟩
        · rcases h04 with h04 | ⟨e, he, _⟩
          · rw [h4, h04]
          · cases he
        · cases he
      | cons e rest =>
        have he : e ∈ user.portfolio := by rw [hp]; exact List.mem_cons_self _ _
        obtain ⟨g, hg, _⟩ := h3 e he
        obtain ⟨g0, hg0, _⟩ := h03 e he
        rw [hg, hg0]
        simp only [pctGainOrZero]
        apply le_antisymm
        · rcases h04 with h04 | ⟨e1, he1, h04⟩
          · rw [h04] at hg0; cases hg0
          · obtain ⟨g1, hg1, hle⟩ := h3 e1 he1
            rw [hg] at hg1
            cases hg1
            rw [hg0] at h04
            cases h04
            exact hle
        · rcases h4 with h4 | ⟨e1, he1, h4⟩
          · rw [h4] at hg; cases hg
          · obtain ⟨g1, hg1, hle⟩ := h03 e1 he1
            rw [hg0] at hg1
            cases hg1
            rw [hg] at h4
            cases h4
            exact hle
    simp only [userPctGain, h01, hr]
  refine ⟨pctGainOrZero r, hall, ?_, ?_, ?_⟩
  · intro hnil
    rw [hnil] at h4
    rcases h4 with h4 | ⟨e, he, _⟩
    · rw [h4]; rfl
    · cases he
  · intro hne
    constructor
    · rcases h4 with h4 | ⟨e, he, h4⟩
      · obtain ⟨e, he⟩ := List.exists_mem_of_ne_nil _ hne
        obtain ⟨g', hr, _⟩ := h3 e he
        rw [h4] at hr
        cases hr
      · refine ⟨e, he, ?_⟩
        rw [h4]
        simp only [pctGainOrZero, avgCostGain]
        rw [openPriceOf_month]
    · intro e he
      obtain ⟨g', hr, hle⟩ := h3 e he
      rw [hr]
      simp only [pctGainOrZero, avgCostGain]
      rw [← openPriceOf_month db startOfMonth user.userId e.1 e.2.avgPrice]
      exact hle
  · intro scores hmem hnd hscores
    exact (computePctGains_mem oracle (monthOpenPrices db startOfMonth) db.users db []
      scores hnd hscores).2 user hmem (pctGainOrZero r) (fun db0 => by rw [hall db0])

/-- C16, evaluation at the failing input: the month score does not take the price of the
first buy of the month as the opening price.  The query for the transactions of the
month compares the stored `timestamp`, a string, with a `Date` and matches no document,
so `userOpenPrices` stays empty and every opening price is the average cost of the
holding.  Account `"A"` holds 20 `X` at an average cost of 90.00, bought at 80.00 before
the month and at 100.00 in it; with `X` quoted at 105.00 the opening price the comments
describe is 100.00 and the gain 5%, but the score computed, and awarded, is
`(105 - 90) / 90 * 100 = 16.67%`.  In every run the score of an account is the largest
gain of its holdings over their average cost. -/
theorem month_score_ignores_month_buys :
    (∀ db startOfMonth, monthOpenPrices db startOfMonth = []) ∧
      openPriceSpec openingDb.transactions 10 "A" "X" 90 = 100 ∧
      entryGainSpec openingDb sampleOracle 10 "A" ("X", { shares := 20, avgPrice := 90 }) = 5 ∧
      userPctGain sampleOracle (monthOpenPrices openingDb 10) openingUser openingDb =
        (openingDb, .ok (50 / 3)) ∧
      (calculateAndAwardTopMonthlyGains sampleSettings openingDb false sampleOracle 10).2.2 =
        .awarded none (some (50 / 3)) ∧
      (∀ (db : State) (oracle : Oracle) (startOfMonth : Nat) (user : User),
        (∀ e ∈ user.portfolio, ∃ q, oracle e.1 = .quotes q) →
        (∀ e ∈ user.portfolio, 0 < e.2.avgPrice) →
        ∃ score,
          (∀ db0, userPctGain oracle (monthOpenPrices db startOfMonth) user db0 =
            (db0, .ok score)) ∧
          (user.portfolio = [] → score = 0) ∧
          (user.portfolio ≠ [] →
            (∃ e ∈ user.portfolio, score = avgCostGain oracle e) ∧
            (∀ e ∈ user.portfolio, avgCostGain oracle e ≤ score))) := by
  have hX : openPriceSpec openingDb.transactions 10 "A" "X" 90 = 100 := by
    simp [openPriceSpec, openingDb, List.filter]
  have hq : sampleOracle "X" = .quotes 105 := by simp [sampleOracle]
  refine ⟨monthOpenPrices_eq_nil, hX, ?_, ?_, ?_, ?_⟩
  · simp only [entryGainSpec, hX, pctGainSpec, quotedPrice, hq]
    norm_num
  · rw [monthOpenPrices_eq_nil]
    simp [userPctGain, maxPctGainLoop, pctGainOrZero, openingUser, sampleOracle,
      getStockPrice, openPriceOf, openPriceGet]
    norm_num
  · have hnil : (openingDb.transactions.filter fun tx =>
        matchesGte .date 10 timestampType tx.timestamp) = [] := by
      rw [List.filter_eq_nil_iff]
      intro tx _
      simp [matchesGte_date_timestamp]
    simp only [calculateAndAwardTopMonthlyGains, hnil]
    simp [openingDb, openingUser, computePctGains,
      userPctGain, maxPctGainLoop, pctGainOrZero, pctGainSet, selectBest, selectStep,
      recordOpenPrices, sampleOracle, getStockPrice, openPriceOf,
      openPriceGet, bestGainNegative, exceedsBestGain, awardUsers, updateOne, sampleSettings]
    norm_num
  · intro db oracle startOfMonth user hq hopen
    obtain ⟨score, h1, h2, h3, _⟩ :=
      month_score_is_max_avgCost_gain db oracle startOfMonth user hq hopen
    exact ⟨score, h1, h2, h3⟩

/-! ## The claims on the year settlement -/

theorem finalizeYearChecks_throws (db : State) : finalizeYearChecks db = none := rfl

theorem finalizeYear_throws (settings : Settings) (db : State) (oracle : Oracle)
    (now wallYear : Nat) : finalizeYear settings db oracle now wallYear = (db, none) := rfl

/-- C18, evaluation at the failing input: on `readyDb`, where the game has started, the
year is not finalized, two accounts exist and `lastDayOfYear` is `2025-12-31` for the
game year 2025, `finalizeYearChecks` does not return `true`: it throws, and on no
database does it return `true`.  It awaits none of its store calls, so that the first
check always fails on the promise, and its last check reads the identifier
`currentYear`, which is not declared. -/
theorem finalizeYearChecks_never_true :
    propertyGet readyDb.properties "gameStarted" = some (.bool true) ∧
      propertyGet readyDb.properties "currentYearFinalized" = some (.bool false) ∧
      readyDb.users.length = 2 ∧
      propertyGet readyDb.properties "year" = some (.num 2025) ∧
      propertyGet readyDb.properties "lastDayOfYear" = some (.str "2025-12-31") ∧
      finalizeYearChecks readyDb = none ∧
      ∀ db, finalizeYearChecks db ≠ some true := by
  refine ⟨by decide, by decide, rfl, by decide, by decide, rfl, ?_⟩
  intro db h
  rw [finalizeYearChecks_throws] at h
  cases h

/-- C19, evaluation at the failing input: `finalizeYear` called while
`currentYearFinalized = true` changes nothing, but it does not return the failure report:
the `ReferenceError` of `finalizeYearChecks` propagates. -/
theorem finalizeYear_finalized_throws :
    propertyGet finalizedDb.properties "currentYearFinalized" = some (.bool true) ∧
      (finalizeYear sampleSettings finalizedDb sampleOracle 0 2025).1 = finalizedDb ∧
      (finalizeYear sampleSettings finalizedDb sampleOracle 0 2025).2 = none ∧
      (finalizeYear sampleSettings finalizedDb sampleOracle 0 2025).2 ≠
        some .checksFailed := by
  refine ⟨by decide, rfl, rfl, ?_⟩
  rw [finalizeYear_throws]
  intro h
  cases h

/-- C20, evaluation at the failing input: on `readyDb`, whose guards hold, `finalizeYear`
awards nothing, writes no annals record and returns no winner: the account `"A"` with
the greatest balance keeps its balance of 12000, the annals stay empty and
`currentYearFinalized` stays `false`. -/
theorem finalizeYear_ready_awards_nothing :
    (finalizeYear sampleSettings readyDb sampleOracle 0 2025).2 = none ∧
      balanceOf (finalizeYear sampleSettings readyDb sampleOracle 0 2025).1 "A" =
        some 12000 ∧
      (finalizeYear sampleSettings readyDb sampleOracle 0 2025).1.annals = [] ∧
      propertyGet (finalizeYear sampleSettings readyDb sampleOracle 0 2025).1.properties
        "currentYearFinalized" = some (.bool false) := by
  rw [finalizeYear_throws]
  refine ⟨rfl, ?_, rfl, by decide⟩
  simp [balanceOf, findOne, readyDb]

/-! ## Witnesses for the claims stated without a hypothesis -/

/-- Witness for C11: account `"A"` buys 10 shares of `X` at 100.00; the log gets the one
record of the order. -/
theorem transaction_log_append_only_witness :
    ∃ p, FmpData.quotes 100 = .quotes p ∧
      (buyStock (sampleDb 10000 []) (.quotes 100) 1 "A" "X" 10).1.transactions =
        (sampleDb 10000 []).transactions ++
          [{ userId := "A", symbol := "X", shares := 10, price := p, type := .buy,
             timestamp := 1 }] := by
  have hb : ¬ (sampleUser 10000 []).balance < roundUpCents (100 * ((10 : ℤ) : ℚ)) := by
    rw [roundUpCents_eq_of _ 100000 (by decide!)]
    norm_num [sampleUser]
  exact (transaction_log_append_only (sampleDb 10000 []) (.quotes 100) 1 "A" "X" 10).1
    (.bought ((sampleUser 10000 []).balance - roundUpCents (100 * ((10 : ℤ) : ℚ)))
      (roundUpCents (100 * ((10 : ℤ) : ℚ))) 10 100)
    (by rw [buyStock_bought _ 1 "A" "X" 10 100 _ (findOne_sampleDb _ _) hb]) rfl

/-- Witness for C12: on a database holding account `"A"` with balance 5000 and an entry
for `X`, `createAccount("A", "zed")` keeps balance and portfolio, and
`createAccount("B", "bob")` adds an account with the starting balance 10000. -/
theorem createAccount_spec_witness :
    balanceOf (createAccount sampleSettings
        (sampleDb 5000 [("X", { shares := 1, avgPrice := 10 })]) 7 "A" "zed").1 "A" =
      balanceOf (sampleDb 5000 [("X", { shares := 1, avgPrice := 10 })]) "A" ∧
    (createAccount sampleSettings
        (sampleDb 5000 [("X", { shares := 1, avgPrice := 10 })]) 7 "B" "bob").1 =
      { sampleDb 5000 [("X", { shares := 1, avgPrice := 10 })] with
        users := (sampleDb 5000 [("X", { shares := 1, avgPrice := 10 })]).users ++
          [{ userId := "B", username := "bob",
             balance := startingBalanceOrDefault sampleSettings, portfolio := [],
             created := 7 }] } ∧
    startingBalanceOrDefault sampleSettings = 10000 :=
  ⟨((createAccount_spec sampleSettings (sampleDb 5000 [("X", { shares := 1, avgPrice := 10 })])
      7 "A" "zed").1 _ (findOne_sampleDb _ _)).2.2.1,
   ((createAccount_spec sampleSettings (sampleDb 5000 [("X", { shares := 1, avgPrice := 10 })])
      7 "B" "bob").2 (by simp [sampleDb, sampleUser, findOne])).2.1,
   ((createAccount_spec sampleSettings (sampleDb 5000 [("X", { shares := 1, avgPrice := 10 })])
      7 "B" "bob").2 (by simp [sampleDb, sampleUser, findOne])).2.2
      (by norm_num [sampleSettings])⟩

/-- Witness for C14: with the scores `A: 5`, `B: -1`, `C: 5`, `D: 2` the selection holds
`A` and `C` and does not hold `D`. -/
theorem selectBest_picks_positive_maximum_witness :
    (("A", 5) : String × ℚ) ∈ (selectBest [("A", 5), ("B", -1), ("C", 5), ("D", 2)]).2 ∧
      (("C", 5) : String × ℚ) ∈ (selectBest [("A", 5), ("B", -1), ("C", 5), ("D", 2)]).2 ∧
      (("D", 2) : String × ℚ) ∉ (selectBest [("A", 5), ("B", -1), ("C", 5), ("D", 2)]).2 := by
  have h := (selectBest_picks_positive_maximum [("A", 5), ("B", -1), ("C", 5), ("D", 2)]).1
  refine ⟨(h _).mpr ⟨by simp, by norm_num, ?_⟩, (h _).mpr ⟨by simp, by norm_num, ?_⟩, ?_⟩
  · intro v hv
    simp only [List.mem_cons, List.mem_singleton, List.not_mem_nil, or_false] at hv
    rcases hv with hv | hv | hv | hv <;> subst hv <;> norm_num
  · intro v hv
    simp only [List.mem_cons, List.mem_singleton, List.not_mem_nil, or_false] at hv
    rcases hv with hv | hv | hv | hv <;> subst hv <;> norm_num
  · intro hd
    have h2 := ((h _).mp hd).2.2 ("A", 5) (by simp)
    norm_num at h2

/-! ## The claims on rounding and the average cost -/

/-- C29, evaluation at the failing input: the second example of the docstring of
`roundUpCents`, `100.054 => 100.05`, is not what the function returns:
`roundUpCents(100.054)` is 100.06, as is `roundUpCents(100.056)`, the first example. -/
theorem roundUpCents_docstring_example_fails :
    roundUpCents (100054 / 1000) = 10006 / 100 ∧ (10006 / 100 : ℚ) ≠ 10005 / 100 ∧
      roundUpCents (100056 / 1000) = 10006 / 100 := by
  refine ⟨?_, by norm_num, ?_⟩
  · rw [roundUpCents_eq_of _ 10006 (by decide!)]
    norm_num
  · rw [roundUpCents_eq_of _ 10006 (by decide!)]
    norm_num

/-- C30, evaluation at the failing input: the average cost stored by a first buy is not
below `p + 0.01`.  A first buy of 1 share at 10.05 stores `avgPrice` 10.06, which is
`p + 0.01` (on doubles `10.05 * 100` is `1005.0000000000001`), and a first buy of 1 share
at 1.10 stores 1.11. -/
theorem buyStock_first_avgPrice_a_cent_above :
    holdingOf (buyStock (sampleDb 10000 []) (.quotes (1005 / 100)) 1 "A" "X" 1).1 "A" "X" =
        some { shares := 1, avgPrice := 1006 / 100 } ∧
      ¬ ((1006 / 100 : ℚ) < 1005 / 100 + 1 / 100) ∧
      holdingOf (buyStock (sampleDb 10000 []) (.quotes (110 / 100)) 1 "A" "X" 1).1 "A" "X" =
        some { shares := 1, avgPrice := 111 / 100 } ∧
      ¬ ((111 / 100 : ℚ) < 110 / 100 + 1 / 100) := by
  have hc1 : roundUpCents (1005 / 100 * ((1 : ℤ) : ℚ)) = 1006 / 100 := by
    rw [roundUpCents_eq_of _ 1006 (by decide!)]
    norm_num
  have ha1 : roundUpCents (1005 / 100) = 1006 / 100 := by
    rw [roundUpCents_eq_of _ 1006 (by decide!)]
    norm_num
  have hc2 : roundUpCents (110 / 100 * ((1 : ℤ) : ℚ)) = 111 / 100 := by
    rw [roundUpCents_eq_of _ 111 (by decide!)]
    norm_num
  have ha2 : roundUpCents (110 / 100) = 111 / 100 := by
    rw [roundUpCents_eq_of _ 111 (by decide!)]
    norm_num
  refine ⟨?_, by norm_num, ?_, by norm_num⟩
  · rw [holdingOf_buyStock _ 1 "A" "X" 1 (1005 / 100) (sampleUser 10000 [])
      (findOne_sampleDb _ _) (by rw [hc1]; norm_num [sampleUser])]
    simp [buyEntry, sampleUser, portfolioGet, ha1]
  · rw [holdingOf_buyStock _ 1 "A" "X" 1 (110 / 100) (sampleUser 10000 [])
      (findOne_sampleDb _ _) (by rw [hc2]; norm_num [sampleUser])]
    simp [buyEntry, sampleUser, portfolioGet, ha2]

/-! ## The claim on the balance floor -/

theorem updateOne_append_of_not_mem (pre rest : List User) (u : User) (f : User → User)
    (h : u.userId ∉ pre.map fun v => v.userId) :
    updateOne (pre ++ u :: rest) u.userId f = pre ++ f u :: rest := by
  induction pre with
  | nil => simp [updateOne]
  | cons v pre ih =>
    simp only [List.map_cons, List.mem_cons, not_or] at h
    have hv : ¬ v.userId = u.userId := fun e => h.1 e.symm
    simp [updateOne, hv, ih h.2]

theorem topUpBalances_eq (settings : Settings) (snap pre : List User) (db : State)
    (hdb : db.users = pre ++ snap)
    (hnd : ((pre ++ snap).map fun v => v.userId).Nodup) :
    topUpBalances settings snap db =
      { db with users := pre ++ snap.map (toppedUp settings) } := by
  induction snap generalizing pre db with
  | nil =>
    simp only [topUpBalances, List.map_nil]
    rw [← hdb]
  | cons u rest ih =>
    have hnot : u.userId ∉ pre.map fun v => v.userId := by
      rw [List.map_append, List.nodup_append] at hnd
      intro hmem
      exact hnd.2.2 hmem (by simp)
    by_cases hlt : u.balance < settings.startingBalance
    · simp only [topUpBalances, hlt, if_true]
      have hupd : updateOne db.users u.userId (fun v =>
          { v with balance := v.balance + (settings.startingBalance - u.balance) }) =
          (pre ++ [toppedUp settings u]) ++ rest := by
        rw [hdb, updateOne_append_of_not_mem pre rest u _ hnot]
        simp [toppedUp, hlt]
      have hnd' : (((pre ++ [toppedUp settings u]) ++ rest).map fun v => v.userId).Nodup := by
        have : (toppedUp settings u).userId = u.userId := by simp [toppedUp, hlt]
        simpa [this] using hnd
      rw [ih (pre ++ [toppedUp settings u]) _ hupd hnd']
      simp [hupd]
    · simp only [topUpBalances, hlt, if_false]
      have heq : toppedUp settings u = u := by simp [toppedUp, hlt]
      have hdb' : db.users = (pre ++ [u]) ++ rest := by simp [hdb]
      have hnd' : (((pre ++ [u]) ++ rest).map fun v => v.userId).Nodup := by
        simpa using hnd
      rw [ih (pre ++ [u]) db hdb' hnd']
      simp [heq]

/-- C21: the top-up step of the year settlement, entered with accounts of distinct ids
(the `users` collection has a unique index on `userId`), leaves every account with a
balance of at least `Settings.startingBalance`: an account below the floor ends exactly
at the floor, an account at or above the floor is not changed, and nothing else of the
database changes. -/
theorem topUpStep_floor (settings : Settings) (db : State)
    (hnd : (db.users.map fun u => u.userId).Nodup) :
    topUpStep settings db = { db with users := db.users.map (toppedUp settings) } ∧
      (∀ u, u.balance < settings.startingBalance →
        toppedUp settings u = { u with balance := settings.startingBalance }) ∧
      (∀ u, settings.startingBalance ≤ u.balance → toppedUp settings u = u) ∧
      (∀ u ∈ (topUpStep settings db).users, settings.startingBalance ≤ u.balance) := by
  have heq : topUpStep settings db = { db with users := db.users.map (toppedUp settings) } := by
    have h := topUpBalances_eq settings db.users [] db (by simp) (by simpa using hnd)
    simpa [topUpStep] using h
  refine ⟨heq, ?_, ?_, ?_⟩
  · intro u hu
    simp [toppedUp, hu]
  · intro u hu
    simp [toppedUp, not_lt.mpr hu]
  · intro u hmem
    rw [heq] at hmem
    simp only [List.mem_map] at hmem
    obtain ⟨v, _, hv⟩ := hmem
    rw [← hv]
    unfold toppedUp
    split
    · exact le_refl _
    · rename_i h
      exact not_lt.mp h

/-- Witness for C21: with a floor of 10000, account `"A"` (12000) is left as it is and
account `"B"` (9000) ends at 10000. -/
theorem topUpStep_floor_witness :
    (topUpStep sampleSettings readyDb).users.map (fun u => (u.userId, u.balance)) =
      [("A", 12000), ("B", 10000)] := by
  have h := (topUpStep_floor sampleSettings readyDb (by decide)).1
  rw [h]
  simp [readyDb, toppedUp, sampleSettings]
  norm_num

/-! ## The claims on the heartbeat and the month and year checks -/

theorem propertyGet_upsert_same (props : List (String × PropValue)) (key : String)
    (v : PropValue) : propertyGet (upsertProperty props key v) key = some v := by
  induction props with
  | nil => simp [upsertProperty, propertyGet]
  | cons e rest ih =>
    obtain ⟨k, v0⟩ := e
    by_cases hk : k = key
    · simp [upsertProperty, propertyGet, hk]
    · simp [upsertProperty, propertyGet, hk, ih]

theorem propertyGet_update_same (props : List (String × PropValue)) (key : String)
    (v : PropValue) :
    propertyGet (updateProperty props key v) key = (propertyGet props key).map fun _ => v := by
  induction props with
  | nil => simp [updateProperty, propertyGet]
  | cons e rest ih =>
    obtain ⟨k, v0⟩ := e
    by_cases hk : k = key
    · simp [updateProperty, propertyGet, hk]
    · simp [updateProperty, propertyGet, hk, ih]

theorem propertyGet_update_other (props : List (String × PropValue)) (key other : String)
    (v : PropValue) (hne : other ≠ key) :
    propertyGet (updateProperty props key v) other = propertyGet props other := by
  induction props with
  | nil => simp [updateProperty, propertyGet]
  | cons e rest ih =>
    obtain ⟨k, v0⟩ := e
    by_cases hk : k = key
    · subst hk
      simp [updateProperty, propertyGet, Ne.symm hne]
    · by_cases hko : k = other
      · subst hko
        simp [updateProperty, propertyGet, hne]
      · simp [updateProperty, propertyGet, hk, hko, ih]

theorem checkForMonthChange_keep (db : State) (now d : JsDate)
    (hs : propertyGet db.properties "lastDayOfCurrentMonth" = some (.date d))
    (hm : d.month = now.month) (hy : d.year = now.year) :
    checkForMonthChange db now =
      { db with
        properties := (upsertProperty db.properties "endOfMonthFlag"
          (.bool (decide (now.timeValue ≥ d.timeValue)))) } := by
  simp only [checkForMonthChange, hs, hm, hy, ne_eq, not_true_eq_false, or_self, if_false]
  by_cases h : now.timeValue ≥ d.timeValue
  · simp [h]
  · simp [h]

theorem checkForMonthChange_recompute (db : State) (now : JsDate)
    (hs : ∀ d, propertyGet db.properties "lastDayOfCurrentMonth" = some (.date d) →
      d.month ≠ now.month ∨ d.year ≠ now.year) :
    checkForMonthChange db now =
      { db with
        properties := (upsertProperty
          (upsertProperty db.properties "lastDayOfCurrentMonth" (.date (lastDayOfMonth now)))
          "endOfMonthFlag"
          (.bool (decide (now.timeValue ≥ (lastDayOfMonth now).timeValue)))) } := by
  have hrec : (match propertyGet db.properties "lastDayOfCurrentMonth" with
      | some (.date stored) =>
        if stored.month ≠ now.month ∨ stored.year ≠ now.year then
          (upsertProperty db.properties "lastDayOfCurrentMonth" (.date (lastDayOfMonth now)),
            lastDayOfMonth now)
        else (db.properties, stored)
      | _ => (upsertProperty db.properties "lastDayOfCurrentMonth"
          (.date (lastDayOfMonth now)), lastDayOfMonth now)) =
      (upsertProperty db.properties "lastDayOfCurrentMonth" (.date (lastDayOfMonth now)),
        lastDayOfMonth now) := by
    split
    · rename_i stored heq
      rw [if_pos (hs stored heq)]
    · rfl
  simp only [checkForMonthChange, hrec]
  by_cases h : now.timeValue ≥ (lastDayOfMonth now).timeValue
  · simp [h]
  · simp [h]

/-- C24: after `#checkForMonthChange` runs at the wall-clock time `now`, the stored
`lastDayOfCurrentMonth` is the last day of the calendar month of `now`, and
`endOfMonthFlag` is `true` if `now >= lastDayOfCurrentMonth` and `false` otherwise; the
date is left as it is when it was computed for the month and year of `now`, and it is
recomputed when it is absent or was computed for another month or year.  The stored date,
when there is one, is taken to be the last day of its own month, as this function, the
only one to write it, leaves it. -/
theorem checkForMonthChange_spec (db : State) (now : JsDate)
    (hinv : ∀ d, propertyGet db.properties "lastDayOfCurrentMonth" = some (.date d) →
      d = lastDayOfMonth d) :
    propertyGet (checkForMonthChange db now).properties "lastDayOfCurrentMonth" =
        some (.date (lastDayOfMonth now)) ∧
      propertyGet (checkForMonthChange db now).properties "endOfMonthFlag" =
        some (.bool (decide (now.timeValue ≥ (lastDayOfMonth now).timeValue))) ∧
      (∀ d, propertyGet db.properties "lastDayOfCurrentMonth" = some (.date d) →
        d.month = now.month → d.year = now.year →
        checkForMonthChange db now =
          { db with
            properties := (upsertProperty db.properties "endOfMonthFlag"
              (.bool (decide (now.timeValue ≥ d.timeValue)))) }) ∧
      ((∀ d, propertyGet db.properties "lastDayOfCurrentMonth" = some (.date d) →
          d.month ≠ now.month ∨ d.year ≠ now.year) →
        checkForMonthChange db now =
          { db with
            properties := (upsertProperty
              (upsertProperty db.properties "lastDayOfCurrentMonth"
                (.date (lastDayOfMonth now)))
              "endOfMonthFlag"
              (.bool (decide (now.timeValue ≥ (lastDayOfMonth now).timeValue)))) }) := by
  have hcases : (∃ d, propertyGet db.properties "lastDayOfCurrentMonth" = some (.date d) ∧
        d.month = now.month ∧ d.year = now.year) ∨
      (∀ d, propertyGet db.properties "lastDayOfCurrentMonth" = some (.date d) →
        d.month ≠ now.month ∨ d.year ≠ now.year) := by
    by_cases h : ∃ d, propertyGet db.properties "lastDayOfCurrentMonth" = some (.date d) ∧
        d.month = now.month ∧ d.year = now.year
    · exact Or.inl h
    · right
      intro d hd
      by_contra hcon
      push_neg at hcon
      exact h ⟨d, hd, hcon.1, hcon.2⟩
  refine ⟨?_, ?_, fun d hd hm hy => checkForMonthChange_keep db now d hd hm hy,
    fun h => checkForMonthChange_recompute db now h⟩
  · rcases hcases with ⟨d, hd, hm, hy⟩ | h
    · rw [checkForMonthChange_keep db now d hd hm hy]
      have hdl : d = lastDayOfMonth now := by
        rw [hinv d hd]
        simp [lastDayOfMonth, hm, hy]
      simp only
      rw [propertyGet_upsert_other _ _ _ _ (by decide), hd, hdl]
    · rw [checkForMonthChange_recompute db now h]
      simp only
      rw [propertyGet_upsert_other _ _ _ _ (by decide), propertyGet_upsert_same]
  · rcases hcases with ⟨d, hd, hm, hy⟩ | h
    · rw [checkForMonthChange_keep db now d hd hm hy]
      have hdl : d = lastDayOfMonth now := by
        rw [hinv d hd]
        simp [lastDayOfMonth, hm, hy]
      simp only
      rw [propertyGet_upsert_same, hdl]
    · rw [checkForMonthChange_recompute db now h]
      simp only
      rw [propertyGet_upsert_same]

theorem msPerDay_pos : (0 : ℚ) < (msPerDay : ℚ) := by
  norm_num [msPerDay]

theorem daysLeftInYear_of_year (db : State) (now : JsDate) (y : ℚ)
    (hy : propertyGet db.properties "year" = some (.num y)) :
    ∃ d : ℤ, daysLeftInYear db now = some d ∧ 0 ≤ d ∧
      (d = 0 ↔
        (endOfYearOf y).timeValue ≤
          now.timeValue) := by
  simp only [daysLeftInYear, hy]
  by_cases hpos : ⌈((((endOfYearOf y).timeValue - now.timeValue : ℤ) : ℚ)) / (msPerDay : ℚ)⌉ > 0
  · refine ⟨_, by rw [if_pos hpos], le_of_lt hpos, ?_⟩
    constructor
    · intro h0
      rw [h0] at hpos
      exact absurd hpos (lt_irrefl 0)
    · intro hle
      exfalso
      have h1 : ((((endOfYearOf y).timeValue - now.timeValue : ℤ) : ℚ)) ≤ 0 := by
        have : (endOfYearOf y).timeValue - now.timeValue ≤ 0 := by omega
        exact_mod_cast this
      have h2 : ((((endOfYearOf y).timeValue - now.timeValue : ℤ) : ℚ)) / (msPerDay : ℚ) ≤ ((0 : ℤ) : ℚ) := by
        rw [Int.cast_zero]
        exact div_nonpos_of_nonpos_of_nonneg h1 (le_of_lt msPerDay_pos)
      have h3 := Int.ceil_le.mpr h2
      omega
  · refine ⟨0, by rw [if_neg hpos], le_refl 0, ?_⟩
    constructor
    · intro _
      have h3 : ⌈((((endOfYearOf y).timeValue - now.timeValue : ℤ) : ℚ)) / (msPerDay : ℚ)⌉ ≤ 0 := not_lt.mp hpos
      have h2 := Int.ceil_le.mp h3
      rw [Int.cast_zero, div_le_iff₀ msPerDay_pos, zero_mul] at h2
      have h1 : (endOfYearOf y).timeValue - now.timeValue ≤ 0 := by exact_mod_cast h2
      omega
    · intro _
      rfl

/-- C23: with a stored game year `y`, the rollover step `#checkForYearChange` fires exactly
when `currentYearFinalized` is `true`, `y` differs from the wall-clock year and
`daysLeftInYear()` is 0.  When it fires it sets `year` to the wall-clock year and
`currentYearFinalized` to `false`, and it sets `gameStarted` to `false` and `lastDayOfYear`
to `<new year>-12-31` where these properties exist (the updates do not insert), which is
the value the `lastDayOfYear` guard of the year settlement asks for in the new year; when
it does not fire the database is unchanged. -/
theorem checkForYearChange_spec (db : State) (now : JsDate) (y : ℚ)
    (hy : propertyGet db.properties "year" = some (.num y)) :
    ((checkForYearChange db now).2 = some true ↔
        propertyGet db.properties "currentYearFinalized" = some (.bool true) ∧
          y ≠ (now.year : ℚ) ∧ daysLeftInYear db now = some 0) ∧
      ((checkForYearChange db now).2 = some true →
        propertyGet (checkForYearChange db now).1.properties "year" =
          some (.num now.year) ∧
        propertyGet (checkForYearChange db now).1.properties "currentYearFinalized" =
          some (.bool false) ∧
        ((propertyGet db.properties "lastDayOfYear").isSome →
          propertyGet (checkForYearChange db now).1.properties "lastDayOfYear" =
            some (.str (toString now.year ++ "-12-31"))) ∧
        ((propertyGet db.properties "gameStarted").isSome →
          propertyGet (checkForYearChange db now).1.properties "gameStarted" =
            some (.bool false))) ∧
      ((checkForYearChange db now).2 ≠ some true →
        (checkForYearChange db now).2 = some false ∧ (checkForYearChange db now).1 = db) := by
  obtain ⟨d, hd, hd0, _⟩ := daysLeftInYear_of_year db now y hy
  have hgy : getCurrentGameYear db now.year = (db, .num y) := by
    simp only [getCurrentGameYear, hy]
  have hne : (PropValue.num y ≠ PropValue.num (now.year : ℚ)) ↔ y ≠ (now.year : ℚ) := by
    constructor
    · intro h e
      exact h (by rw [e])
    · intro h e
      exact h (PropValue.num.inj e)
  by_cases hf : propertyGet db.properties "currentYearFinalized" = some (.bool true)
  · by_cases hyr : y ≠ (now.year : ℚ)
    · have hcond : propertyGet db.properties "currentYearFinalized" = some (.bool true) ∧
          PropValue.num y ≠ PropValue.num (now.year : ℚ) := ⟨hf, hne.mpr hyr⟩
      by_cases hz : d ≤ 0
      · have hd' : d = 0 := le_antisymm hz hd0
        have hres : checkForYearChange db now =
            ({ db with
                properties := (updateProperty
                  (updateProperty
                    (updateProperty (updateProperty db.properties "year" (.num now.year))
                      "currentYearFinalized" (.bool false))
                    "lastDayOfYear" (.str (toString now.year ++ "-12-31")))
                  "gameStarted" (.bool false)) }, some true) := by
          simp only [checkForYearChange, hgy, hd, hz, if_true]
          rw [if_pos hcond]
        rw [hres]
        refine ⟨⟨fun _ => ⟨hf, hyr, by rw [hd, hd']⟩, fun _ => rfl⟩, fun _ => ?_,
          fun h => absurd rfl h⟩
        simp only
        refine ⟨?_, ?_, ?_, ?_⟩
        · rw [propertyGet_update_other _ _ _ _ (by decide),
            propertyGet_update_other _ _ _ _ (by decide),
            propertyGet_update_other _ _ _ _ (by decide), propertyGet_update_same, hy]
          rfl
        · rw [propertyGet_update_other _ _ _ _ (by decide),
            propertyGet_update_other _ _ _ _ (by decide), propertyGet_update_same,
            propertyGet_update_other _ _ _ _ (by decide), hf]
          rfl
        · intro hsome
          rw [propertyGet_update_other _ _ _ _ (by decide), propertyGet_update_same,
            propertyGet_update_other _ _ _ _ (by decide),
            propertyGet_update_other _ _ _ _ (by decide)]
          obtain ⟨v, hv⟩ := Option.isSome_iff_exists.mp hsome
          rw [hv]
          rfl
        · intro hsome
          rw [propertyGet_update_same, propertyGet_update_other _ _ _ _ (by decide),
            propertyGet_update_other _ _ _ _ (by decide),
            propertyGet_update_other _ _ _ _ (by decide)]
          obtain ⟨v, hv⟩ := Option.isSome_iff_exists.mp hsome
          rw [hv]
          rfl
      · have hres : checkForYearChange db now = (db, some false) := by
          simp only [checkForYearChange, hgy, hd, hz, if_false]
          rw [if_pos hcond]
        rw [hres]
        refine ⟨⟨fun h => (by cases h), fun h => ?_⟩, fun h => (by cases h), fun _ => ⟨rfl, rfl⟩⟩
        rw [hd] at h
        have hd' : d = 0 := Option.some.inj h.2.2
        exact absurd (le_of_eq hd') hz
    · have hcond : ¬ (propertyGet db.properties "currentYearFinalized" = some (.bool true) ∧
          PropValue.num y ≠ PropValue.num (now.year : ℚ)) := fun h => hyr (hne.mp h.2)
      have hres : checkForYearChange db now = (db, some false) := by
        simp only [checkForYearChange, hgy]
        rw [if_neg hcond]
      rw [hres]
      exact ⟨⟨fun h => (by cases h), fun h => absurd h.2.1 hyr⟩, fun h => (by cases h),
        fun _ => ⟨rfl, rfl⟩⟩
  · have hcond : ¬ (propertyGet db.properties "currentYearFinalized" = some (.bool true) ∧
        PropValue.num y ≠ PropValue.num (now.year : ℚ)) := fun h => hf h.1
    have hres : checkForYearChange db now = (db, some false) := by
      simp only [checkForYearChange, hgy]
      rw [if_neg hcond]
    rw [hres]
    exact ⟨⟨fun h => (by cases h), fun h => absurd h.1 hf⟩, fun h => (by cases h),
      fun _ => ⟨rfl, rfl⟩⟩

/-- Witness for C24: on 31 January 2025, 10:00, with a `lastDayOfCurrentMonth` computed
in December 2024, the date is recomputed to 31 January 2025 and the flag is set. -/
theorem checkForMonthChange_spec_witness :
    propertyGet (checkForMonthChange decemberDb lastOfJanuary).properties
        "lastDayOfCurrentMonth" =
        some (.date { year := 2025, month := 0, date := 31, msOfDay := 0 }) ∧
      propertyGet (checkForMonthChange decemberDb lastOfJanuary).properties "endOfMonthFlag" =
        some (.bool true) := by
  have h := checkForMonthChange_spec decemberDb lastOfJanuary (by
    intro d hd
    have hd' : d = { year := 2024, month := 11, date := 31, msOfDay := 0 } := by
      have h0 : propertyGet decemberDb.properties "lastDayOfCurrentMonth" =
          some (.date { year := 2024, month := 11, date := 31, msOfDay := 0 }) := by decide
      rw [h0] at hd
      exact (PropValue.date.inj (Option.some.inj hd)).symm
    rw [hd']
    decide)
  refine ⟨?_, ?_⟩
  · rw [h.1]
    decide
  · rw [h.2.1]
    decide

/-- Witness for C23: on 1 January 2026 with the game year 2025 finalized, the rollover
fires and leaves `year = 2026`, `currentYearFinalized = false`,
`lastDayOfYear = '2026-12-31'` and `gameStarted = false`. -/
theorem checkForYearChange_spec_witness :
    (checkForYearChange finalizedDb newYearsDay).2 = some true ∧
      propertyGet (checkForYearChange finalizedDb newYearsDay).1.properties "year" =
        some (.num 2026) ∧
      propertyGet (checkForYearChange finalizedDb newYearsDay).1.properties
        "currentYearFinalized" = some (.bool false) ∧
      propertyGet (checkForYearChange finalizedDb newYearsDay).1.properties "lastDayOfYear" =
        some (.str "2026-12-31") ∧
      propertyGet (checkForYearChange finalizedDb newYearsDay).1.properties "gameStarted" =
        some (.bool false) := by
  have hy : propertyGet finalizedDb.properties "year" = some (.num 2025) := by decide
  have h := checkForYearChange_spec finalizedDb newYearsDay 2025 hy
  have hdays : daysLeftInYear finalizedDb newYearsDay = some 0 := by
    obtain ⟨d, hd, _, hiff⟩ := daysLeftInYear_of_year finalizedDb newYearsDay 2025 hy
    have hfloor : endOfYearOf 2025 = { year := 2025, month := 11, date := 31, msOfDay := 0 } := by
      have hf : ⌊(2025 : ℚ)⌋ = 2025 := by
        rw [Int.floor_eq_iff]
        norm_num
      simp [endOfYearOf, hf]
    have hle : (endOfYearOf 2025).timeValue ≤ newYearsDay.timeValue := by
      rw [hfloor]
      decide
    rw [hd, hiff.mpr hle]
  have hfire : (checkForYearChange finalizedDb newYearsDay).2 = some true :=
    h.1.mpr ⟨by decide, by norm_num [newYearsDay], hdays⟩
  obtain ⟨h1, h2, h3, h4⟩ := h.2.1 hfire
  refine ⟨hfire, ?_, h2, ?_, h4 (by decide)⟩
  · rw [h1]
    norm_num [newYearsDay]
  · rw [h3 (by decide)]
    decide

theorem heartbeatTick_ledger (db : State) (now : JsDate) :
    (heartbeatTick db now).1.users = db.users ∧
      (heartbeatTick db now).1.transactions = db.transactions ∧
      (heartbeatTick db now).1.annals = db.annals := by
  have hm : (checkForMonthChange db now).users = db.users ∧
      (checkForMonthChange db now).transactions = db.transactions ∧
      (checkForMonthChange db now).annals = db.annals := by
    unfold checkForMonthChange
    simp only
    split <;> exact ⟨rfl, rfl, rfl⟩
  have hg : ∀ d : State, (getCurrentGameYear d now.year).1.users = d.users ∧
      (getCurrentGameYear d now.year).1.transactions = d.transactions ∧
      (getCurrentGameYear d now.year).1.annals = d.annals := by
    intro d
    unfold getCurrentGameYear
    split <;> exact ⟨rfl, rfl, rfl⟩
  have hyc : ∀ d : State, (checkForYearChange d now).1.users = d.users ∧
      (checkForYearChange d now).1.transactions = d.transactions ∧
      (checkForYearChange d now).1.annals = d.annals := by
    intro d
    have hgd := hg d
    unfold checkForYearChange
    simp only
    split
    · split
      · exact hgd
      · split
        · exact hgd
        · exact hgd
    · exact hgd
  have hy := hyc (checkForMonthChange db now)
  unfold heartbeatTick
  simp only
  split
  · rename_i db2 heq
    rw [heq] at hy
    exact ⟨hy.1.trans hm.1, hy.2.1.trans hm.2.1, hy.2.2.trans hm.2.2⟩
  · rename_i db2 r heq
    rw [heq] at hy
    exact ⟨hy.1.trans hm.1, hy.2.1.trans hm.2.1, hy.2.2.trans hm.2.2⟩

/-- C22, evaluation at the failing input: a heartbeat tick on which `endOfMonthFlag` is
observed true does not run the month settlement.  On 31 January 2025, 10:00, with account
`"A"` holding a 5% gain and a prize pool of 250, the tick checks the month (the flag
becomes `true`), checks the year and refreshes `heartbeatDate`, and leaves accounts,
transactions and `prizePool` as they were: no bonus is awarded or rolled over.  No tick
ever touches the accounts, the transactions or the annals. -/
theorem heartbeatTick_runs_no_settlement :
    (heartbeatTick winnerDb lastOfJanuary).2 = some () ∧
      propertyGet (heartbeatTick winnerDb lastOfJanuary).1.properties "endOfMonthFlag" =
        some (.bool true) ∧
      propertyGet (heartbeatTick winnerDb lastOfJanuary).1.properties "heartbeatDate" =
        some (.date lastOfJanuary) ∧
      (heartbeatTick winnerDb lastOfJanuary).1.users = winnerDb.users ∧
      (heartbeatTick winnerDb lastOfJanuary).1.transactions = winnerDb.transactions ∧
      propertyGet (heartbeatTick winnerDb lastOfJanuary).1.properties "prizePool" =
        some (.num 250) ∧
      (∀ db now, (heartbeatTick db now).1.users = db.users ∧
        (heartbeatTick db now).1.transactions = db.transactions ∧
        (heartbeatTick db now).1.annals = db.annals) := by
  refine ⟨by decide, by decide, by decide, by decide, by decide, by decide,
    heartbeatTick_ledger⟩

theorem isEndOfTheMonth_last_day (db : State) (now : JsDate)
    (h : now.date = daysInMonth now.year now.month) : isEndOfTheMonth db now ≠ some true := by
  unfold isEndOfTheMonth
  simp only
  split
  · intro hc
    cases hc
  · intro hc
    have hlt : ¬ now.date < (lastDayOfMonth now).date := by
      simp [lastDayOfMonth, h]
    simp [hlt] at hc

/-- C28, evaluation at the failing input: on the last day of the month `#isEndOfTheMonth`
returns `false`.  On 31 January 2025, 10:00, right after `#checkForMonthChange` has set
`endOfMonthFlag` to `true`, `#isEndOfTheMonth` returns `false` (it tests
`getDate() < lastDay.getDate()`), and `executeMonthlyAwardsCeremony` does not run the
end-of-month tasks: it returns the "not yet" message with `daysLeft = 0` and changes
nothing.  On the last day of any month it never returns `true`. -/
theorem isEndOfTheMonth_false_on_last_day :
    propertyGet (checkForMonthChange winnerDb lastOfJanuary).properties "endOfMonthFlag" =
        some (.bool true) ∧
      lastOfJanuary.date = daysInMonth lastOfJanuary.year lastOfJanuary.month ∧
      isEndOfTheMonth (checkForMonthChange winnerDb lastOfJanuary) lastOfJanuary =
        some false ∧
      executeMonthlyAwardsCeremony sampleSettings (checkForMonthChange winnerDb lastOfJanuary)
          false sampleOracle lastOfJanuary =
        (checkForMonthChange winnerDb lastOfJanuary, false, some (.notYet 0)) ∧
      (∀ db now, now.date = daysInMonth now.year now.month →
        isEndOfTheMonth db now ≠ some true) := by
  have hend : isEndOfTheMonth (checkForMonthChange winnerDb lastOfJanuary) lastOfJanuary =
      some false := by decide
  refine ⟨by decide, by decide, hend, ?_, isEndOfTheMonth_last_day⟩
  simp only [executeMonthlyAwardsCeremony, hend]
  have hdiff : (lastDayOfMonth lastOfJanuary).timeValue - lastOfJanuary.timeValue =
      -36000000 := by decide
  have hceil : ⌈(((-36000000 : ℤ) : ℚ)) / (msPerDay : ℚ)⌉ = 0 := by
    rw [Int.ceil_eq_iff]
    norm_num [msPerDay]
  rw [hdiff, hceil]

/-- C26, evaluation at the failing input: for an existing account whose portfolio is
empty `getUserPortfolio` returns no result object at all (it runs off its end and yields
`undefined`).  For an unknown account it returns `success: false`; for a portfolio that
is not empty it returns `success: true` with `currentPrice = 105` and
`gains = roundUpCents((105 - 100) * 10) = 50` for the quoted `X`, and `currentPrice = 0`
for `Z`, whose quote fails. -/
theorem getUserPortfolio_empty_returns_nothing :
    findOne (sampleDb 10000 []).users "A" = some (sampleUser 10000 []) ∧
      getUserPortfolio (sampleDb 10000 []) sampleOracle "A" = (sampleDb 10000 [], none) ∧
      getUserPortfolio (sampleDb 10000 []) sampleOracle "nobody" =
        (sampleDb 10000 [], some .notFound) ∧
      (getUserPortfolio
          (sampleDb 9000 [("X", { shares := 10, avgPrice := 100 }),
            ("Z", { shares := 1, avgPrice := 50 })]) sampleOracle "A").2 =
        some (.valued
          [("X", { shares := 10, avgPrice := 100, currentPrice := 105, gains := some 50 }),
           ("Z", { shares := 1, avgPrice := 50, currentPrice := 0, gains := none })]) := by
  refine ⟨findOne_sampleDb _ _, by decide, by decide, ?_⟩
  have hr : roundUpCents ((105 - 100) * 10) = 50 := by
    rw [roundUpCents_eq_of _ 5000 (by decide!)]
    norm_num
  simp [getUserPortfolio, sampleDb, sampleUser, findOne, valueHoldings, sampleOracle,
    getStockPrice, hr]

/-! ## The claim on the liquidation of all portfolios -/

theorem updateOne_const_self (users : List User) (userId : String) (cur : User)
    (hu : findOne users userId = some cur) :
    updateOne users userId (fun _ => cur) = users := by
  induction users with
  | nil => rfl
  | cons u rest ih =>
    by_cases hk : u.userId = userId
    · simp [findOne, hk] at hu
      subst hu
      simp [updateOne, hk]
    · simp [findOne, hk] at hu
      simp [updateOne, hk, ih hu]

theorem updateOne_eq_const (users : List User) (userId : String) (f : User → User)
    (cur : User) (hu : findOne users userId = some cur) :
    updateOne users userId f = updateOne users userId (fun _ => f cur) := by
  induction users with
  | nil => rfl
  | cons u rest ih =>
    by_cases hk : u.userId = userId
    · simp [findOne, hk] at hu
      subst hu
      simp [updateOne, hk]
    · simp [findOne, hk] at hu
      simp [updateOne, hk, ih hu]

theorem updateOne_updateOne_const (users : List User) (userId : String) (x y : User)
    (hx : x.userId = userId) :
    updateOne (updateOne users userId (fun _ => x)) userId (fun _ => y) =
      updateOne users userId (fun _ => y) := by
  induction users with
  | nil => rfl
  | cons u rest ih =>
    by_cases hk : u.userId = userId
    · simp [updateOne, hk, hx]
    · simp [updateOne, hk, ih]

theorem findOne_append_of_not_mem (pre rest : List User) (u : User)
    (h : u.userId ∉ pre.map fun v => v.userId) :
    findOne (pre ++ u :: rest) u.userId = some u := by
  induction pre with
  | nil => simp [findOne]
  | cons v pre ih =>
    simp only [List.map_cons, List.mem_cons, not_or] at h
    have hv : ¬ v.userId = u.userId := fun e => h.1 e.symm
    simp [findOne, hv, ih h.2]

theorem findOne_map_of_nodup (users : List User) (f : User → User)
    (hf : ∀ u, (f u).userId = u.userId)
    (hnd : (users.map fun u => u.userId).Nodup) (u : User) (hu : u ∈ users) :
    findOne (users.map f) u.userId = some (f u) := by
  induction users with
  | nil => cases hu
  | cons v rest ih =>
    simp only [List.map_cons, List.nodup_cons] at hnd
    rcases List.mem_cons.mp hu with h | h
    · subst h
      simp [findOne, hf]
    · have hne : ¬ v.userId = u.userId := by
        intro e
        exact hnd.1 (e ▸ List.mem_map_of_mem (fun w => w.userId) h)
      simp [findOne, hf, hne, ih hnd.2 h]

theorem portfolioGet_of_mem_nodup (p : Portfolio) (hnd : (p.map Prod.fst).Nodup)
    (e : String × Holding) (he : e ∈ p) : portfolioGet p e.1 = some e.2 := by
  induction p with
  | nil => cases he
  | cons e0 rest ih =>
    obtain ⟨k, h0⟩ := e0
    simp only [List.map_cons, List.nodup_cons] at hnd
    rcases List.mem_cons.mp he with h | h
    · subst h
      simp [portfolioGet]
    · have hne : ¬ k = e.1 := by
        intro e1
        exact hnd.1 (e1 ▸ List.mem_map_of_mem Prod.fst h)
      simp [portfolioGet, hne, ih hnd.2 h]

theorem liquidateEntry_userId (oracle : Oracle) (u : User) (e : String × Holding) :
    (liquidateEntry oracle u e).userId = u.userId := by
  unfold liquidateEntry
  split
  · exact sellUpdate_userId _ _ _ _
  · rfl

theorem liquidateEntries_userId (oracle : Oracle) (entries : Portfolio) (u : User) :
    (liquidateEntries oracle entries u).userId = u.userId := by
  induction entries generalizing u with
  | nil => rfl
  | cons e rest ih =>
    show (liquidateEntries oracle rest (liquidateEntry oracle u e)).userId = u.userId
    rw [ih, liquidateEntry_userId]

theorem liquidateEntry_balance (oracle : Oracle) (u : User) (e : String × Holding) :
    (liquidateEntry oracle u e).balance = u.balance + saleProceeds oracle e := by
  unfold liquidateEntry saleProceeds
  split
  · rename_i price hq
    simp [sellUpdate]
  · simp

theorem liquidateEntries_balance (oracle : Oracle) (entries : Portfolio) (u : User) :
    (liquidateEntries oracle entries u).balance =
      u.balance + (entries.map (saleProceeds oracle)).sum := by
  induction entries generalizing u with
  | nil => simp [liquidateEntries]
  | cons e rest ih =>
    show (liquidateEntries oracle rest (liquidateEntry oracle u e)).balance = _
    rw [ih, liquidateEntry_balance, List.map_cons, List.sum_cons, add_assoc]

theorem liquidateEntry_portfolio (oracle : Oracle) (u : User) (e : String × Holding) :
    (liquidateEntry oracle u e).portfolio =
      match oracle e.1 with
      | .quotes _ => portfolioUnset u.portfolio e.1
      | _ => u.portfolio := by
  unfold liquidateEntry
  split <;> simp [sellUpdate]

theorem liquidateEntries_get_none (oracle : Oracle) (entries : Portfolio) (u : User)
    (symbol : String) (h : portfolioGet u.portfolio symbol = none) :
    portfolioGet (liquidateEntries oracle entries u).portfolio symbol = none := by
  induction entries generalizing u with
  | nil => exact h
  | cons e rest ih =>
    show portfolioGet (liquidateEntries oracle rest (liquidateEntry oracle u e)).portfolio
      symbol = none
    apply ih
    rw [liquidateEntry_portfolio]
    split
    · by_cases hk : symbol = e.1
      · rw [hk]
        exact portfolioGet_unset_same _ _
      · rw [portfolioGet_unset_other _ _ _ hk]
        exact h
    · exact h

theorem liquidateEntries_get_sold (oracle : Oracle) (entries : Portfolio) (u : User)
    (symbol : String) (p : ℚ) (hq : oracle symbol = .quotes p)
    (hmem : symbol ∈ entries.map Prod.fst) :
    portfolioGet (liquidateEntries oracle entries u).portfolio symbol = none := by
  induction entries generalizing u with
  | nil => cases hmem
  | cons e rest ih =>
    show portfolioGet (liquidateEntries oracle rest (liquidateEntry oracle u e)).portfolio
      symbol = none
    by_cases hk : e.1 = symbol
    · apply liquidateEntries_get_none
      rw [liquidateEntry_portfolio, hk, hq]
      exact portfolioGet_unset_same _ _
    · apply ih
      simp only [List.map_cons, List.mem_cons] at hmem
      rcases hmem with h | h
      · exact (hk h.symm).elim
      · exact h

theorem liquidateEntries_get_kept (oracle : Oracle) (entries : Portfolio) (u : User)
    (symbol : String) (hq : ∀ p, oracle symbol ≠ .quotes p) :
    portfolioGet (liquidateEntries oracle entries u).portfolio symbol =
      portfolioGet u.portfolio symbol := by
  induction entries generalizing u with
  | nil => rfl
  | cons e rest ih =>
    show portfolioGet (liquidateEntries oracle rest (liquidateEntry oracle u e)).portfolio
      symbol = _
    rw [ih, liquidateEntry_portfolio]
    split
    · rename_i price hp
      have hne : symbol ≠ e.1 := by
        intro e1
        rw [← e1] at hp
        exact hq _ hp
      exact portfolioGet_unset_other _ _ _ hne
    · rfl

/-- One step of the liquidation loop: asking `sellStock` for all shares of an entry the
stored document holds replaces the document by `liquidateEntry` of it. -/
theorem sellStock_all_users (db : State) (oracle : Oracle) (now : Nat) (userId : String)
    (cur : User) (e : String × Holding) (hu : findOne db.users userId = some cur)
    (hg : portfolioGet cur.portfolio e.1 = some e.2) :
    (sellStock db (oracle e.1) now userId e.1 e.2.shares).1.users =
      updateOne db.users userId (fun _ => liquidateEntry oracle cur e) := by
  unfold liquidateEntry
  cases hq : oracle e.1 with
  | quotes p =>
    rw [sellStock_sold db now userId e.1 e.2.shares p cur e.2 hu hg (lt_irrefl _)]
    simp only [sub_self]
    exact updateOne_eq_const _ _ _ _ hu
  | error =>
    rw [sellStock_error db now userId e.1 e.2.shares cur hu]
    exact (updateOne_const_self _ _ _ hu).symm
  | other =>
    rw [sellStock_other db now userId e.1 e.2.shares cur hu]
    exact (updateOne_const_self _ _ _ hu).symm

theorem autoSellPortfolio_users (oracle : Oracle) (now : Nat) (userId : String)
    (entries : Portfolio) (db : State) (cur : User)
    (hu : findOne db.users userId = some cur)
    (hnd : (entries.map Prod.fst).Nodup)
    (hpos : ∀ e ∈ entries, 0 < e.2.shares)
    (hheld : ∀ e ∈ entries, portfolioGet cur.portfolio e.1 = some e.2) :
    (autoSellPortfolio oracle now userId entries db).users =
      updateOne db.users userId (fun _ => liquidateEntries oracle entries cur) := by
  induction entries generalizing db cur with
  | nil =>
    exact (updateOne_const_self _ _ _ hu).symm
  | cons e rest ih =>
    obtain ⟨symbol, stock⟩ := e
    simp only [List.map_cons, List.nodup_cons] at hnd
    have hp : stock.shares > 0 := hpos (symbol, stock) (List.mem_cons_self _ _)
    have hstep := sellStock_all_users db oracle now userId cur (symbol, stock) hu
      (hheld (symbol, stock) (List.mem_cons_self _ _))
    have hid : cur.userId = userId := (findOne_mem _ _ _ hu).2
    have hid' : (liquidateEntry oracle cur (symbol, stock)).userId = userId := by
      rw [liquidateEntry_userId, hid]
    have hu' : findOne (sellStock db (oracle symbol) now userId symbol stock.shares).1.users
        userId = some (liquidateEntry oracle cur (symbol, stock)) := by
      rw [hstep]
      exact findOne_updateOne_same _ _ _ _ hu hid'
    have hheld' : ∀ e ∈ rest,
        portfolioGet (liquidateEntry oracle cur (symbol, stock)).portfolio e.1 = some e.2 := by
      intro e he
      have hne : e.1 ≠ symbol := by
        intro e1
        exact hnd.1 (e1 ▸ List.mem_map_of_mem Prod.fst he)
      rw [liquidateEntry_portfolio]
      split
      · rw [portfolioGet_unset_other _ _ _ hne]
        exact hheld e (List.mem_cons_of_mem _ he)
      · exact hheld e (List.mem_cons_of_mem _ he)
    simp only [autoSellPortfolio, hp, if_true]
    rw [ih _ _ hu' hnd.2 (fun e he => hpos e (List.mem_cons_of_mem _ he)) hheld', hstep,
      updateOne_updateOne_const _ _ _ _ hid']
    rfl

theorem autoSellPlayers_users (oracle : Oracle) (now : Nat) (snap pre : List User)
    (db : State) (hdb : db.users = pre ++ snap)
    (hnd : ((pre ++ snap).map fun v => v.userId).Nodup)
    (hkeys : ∀ u ∈ snap, (u.portfolio.map Prod.fst).Nodup)
    (hpos : ∀ u ∈ snap, ∀ e ∈ u.portfolio, 0 < e.2.shares) :
    (autoSellPlayers oracle now snap db).users = pre ++ snap.map (liquidateUser oracle) := by
  induction snap generalizing pre db with
  | nil => simpa [autoSellPlayers] using hdb
  | cons u rest ih =>
    have hnot : u.userId ∉ pre.map fun v => v.userId := by
      rw [List.map_append, List.nodup_append] at hnd
      intro hmem
      exact hnd.2.2 hmem (by simp)
    have hfind : findOne db.users u.userId = some u := by
      rw [hdb]
      exact findOne_append_of_not_mem pre rest u hnot
    have hstep := autoSellPortfolio_users oracle now u.userId u.portfolio db u hfind
      (hkeys u (List.mem_cons_self _ _)) (hpos u (List.mem_cons_self _ _))
      (fun e he => portfolioGet_of_mem_nodup _ (hkeys u (List.mem_cons_self _ _)) e he)
    have hupd : (autoSellPortfolio oracle now u.userId u.portfolio db).users =
        (pre ++ [liquidateUser oracle u]) ++ rest := by
      rw [hstep, hdb, updateOne_append_of_not_mem pre rest u _ hnot]
      simp [liquidateUser]
    have hnd' : (((pre ++ [liquidateUser oracle u]) ++ rest).map fun v => v.userId).Nodup := by
      have : (liquidateUser oracle u).userId = u.userId := liquidateEntries_userId _ _ _
      simpa [this] using hnd
    simp only [autoSellPlayers]
    rw [ih (pre ++ [liquidateUser oracle u]) _ hupd hnd'
      (fun v hv => hkeys v (List.mem_cons_of_mem _ hv))
      (fun v hv => hpos v (List.mem_cons_of_mem _ hv))]
    simp

theorem autoSellPlayers_empty (oracle : Oracle) (now : Nat) (snap : List User) (db : State)
    (h : ∀ u ∈ snap, u.portfolio = []) : autoSellPlayers oracle now snap db = db := by
  induction snap generalizing db with
  | nil => rfl
  | cons u rest ih =>
    simp only [autoSellPlayers, h u (List.mem_cons_self _ _), autoSellPortfolio]
    exact ih db (fun v hv => h v (List.mem_cons_of_mem _ hv))

/-- C25: `autoSellStocks`, run on accounts with distinct ids whose portfolios satisfy the
data-model invariant (distinct symbols, `shares > 0`), does for every account the
following.  Every held symbol the provider quotes is sold in full: its entry is removed.
Every held symbol the provider does not quote is skipped: its entry stays as it was.  The
balance grows by the sum of `price * shares` over the quoted entries (`saleProceeds` is
`price * shares` for a quoted entry and `0` for one that is not quoted).  On a state in
which every portfolio is empty, `autoSellStocks` changes nothing at all. -/
theorem autoSellStocks_liquidates (db : State) (oracle : Oracle) (now : Nat)
    (hids : (db.users.map fun u => u.userId).Nodup)
    (hkeys : ∀ u ∈ db.users, (u.portfolio.map Prod.fst).Nodup)
    (hinv : StateInv db) :
    (∀ u ∈ db.users,
      (∀ e ∈ u.portfolio, ∀ p, oracle e.1 = .quotes p →
        holdingOf (autoSellStocks db oracle now).1 u.userId e.1 = none) ∧
      (∀ e ∈ u.portfolio, (∀ p, oracle e.1 ≠ .quotes p) →
        holdingOf (autoSellStocks db oracle now).1 u.userId e.1 = some e.2) ∧
      balanceOf (autoSellStocks db oracle now).1 u.userId =
        some (u.balance + (u.portfolio.map (saleProceeds oracle)).sum)) ∧
    ((∀ u ∈ db.users, u.portfolio = []) → (autoSellStocks db oracle now).1 = db) := by
  have husers : (autoSellStocks db oracle now).1.users =
      db.users.map (liquidateUser oracle) := by
    have h := autoSellPlayers_users oracle now db.users [] db (by simp) (by simpa using hids)
      hkeys (fun u hu e he => (hinv u hu e he).1)
    simpa [autoSellStocks] using h
  refine ⟨?_, ?_⟩
  · intro u hu
    have hfind : findOne (autoSellStocks db oracle now).1.users u.userId =
        some (liquidateUser oracle u) := by
      rw [husers]
      exact findOne_map_of_nodup _ _ (fun v => liquidateEntries_userId _ _ _) hids u hu
    refine ⟨?_, ?_, ?_⟩
    · intro e he p hq
      simp only [holdingOf, hfind, Option.some_bind]
      exact liquidateEntries_get_sold oracle _ _ _ p hq (List.mem_map_of_mem Prod.fst he)
    · intro e he hq
      simp only [holdingOf, hfind, Option.some_bind]
      rw [liquidateUser, liquidateEntries_get_kept oracle _ _ _ hq]
      exact portfolioGet_of_mem_nodup _ (hkeys u hu) e he
    · simp only [balanceOf, hfind, Option.map_some']
      rw [liquidateUser, liquidateEntries_balance]
  · intro hempty
    simp only [autoSellStocks]
    exact autoSellPlayers_empty oracle now db.users db hempty

/-- Witness for C25: with `X` quoted at 105.00, `Y` at 210.00 and `Z` not quoted,
account `"A"` (10 `X`, 1 `Z`, balance 9000) ends without `X`, still with its `Z`, and
with 10050; account `"B"` (2 `Y`, balance 8000) ends without `Y` and with 8420. -/
theorem autoSellStocks_liquidates_witness :
    holdingOf (autoSellStocks liquidationDb sampleOracle 7).1 "A" "X" = none ∧
      holdingOf (autoSellStocks liquidationDb sampleOracle 7).1 "A" "Z" =
        some { shares := 1, avgPrice := 50 } ∧
      balanceOf (autoSellStocks liquidationDb sampleOracle 7).1 "A" = some 10050 ∧
      holdingOf (autoSellStocks liquidationDb sampleOracle 7).1 "B" "Y" = none ∧
      balanceOf (autoSellStocks liquidationDb sampleOracle 7).1 "B" = some 8420 := by
  have hinv : StateInv liquidationDb := by
    intro u hu e he
    simp only [liquidationDb, List.mem_cons, List.mem_singleton, List.not_mem_nil,
      or_false] at hu
    rcases hu with hu | hu
    · subst hu
      simp only [liquidationA, List.mem_cons, List.mem_singleton, List.not_mem_nil,
        or_false] at he
      rcases he with he | he <;> subst he <;> norm_num
    · subst hu
      simp only [liquidationB, List.mem_singleton] at he
      subst he
      norm_num
  have h := (autoSellStocks_liquidates liquidationDb sampleOracle 7 (by decide)
    (by decide) hinv).1
  have hA := h liquidationA (by simp [liquidationDb])
  have hB := h liquidationB (by simp [liquidationDb])
  refine ⟨?_, ?_, ?_, ?_, ?_⟩
  · exact hA.1 ("X", { shares := 10, avgPrice := 100 }) (by simp [liquidationA]) 105
      (by decide)
  · exact hA.2.1 ("Z", { shares := 1, avgPrice := 50 }) (by simp [liquidationA])
      (fun p hp => by simp [sampleOracle] at hp)
  · have hb := hA.2.2
    simp only [liquidationA, List.map_cons, List.map_nil, List.sum_cons, List.sum_nil,
      saleProceeds] at hb
    rw [hb]
    have hz : sampleOracle "Z" = .error := by decide
    have hx : sampleOracle "X" = .quotes 105 := by decide
    simp only [hz, hx]
    norm_num
  · exact hB.1 ("Y", { shares := 2, avgPrice := 200 }) (by simp [liquidationB]) 210
      (by decide)
  · have hb := hB.2.2
    simp only [liquidationB, List.map_cons, List.map_nil, List.sum_cons, List.sum_nil,
      saleProceeds] at hb
    rw [hb]
    have hy : sampleOracle "Y" = .quotes 210 := by decide
    simp only [hy]
    norm_num

/-! ## The claim on operations that overlap -/

theorem buyStock_eq_write (db : State) (now : Nat) (userId symbol : String) (shares : ℤ)
    (p : ℚ) (user : User) (hu : findOne db.users userId = some user) :
    buyStock db (.quotes p) now userId symbol shares =
      buyStockWrite db user p now userId symbol shares := by
  simp only [buyStock, getStockPrice, hu, buyStockWrite]

theorem sellStock_eq_write (db : State) (now : Nat) (userId symbol : String) (shares : ℤ)
    (p : ℚ) (user : User) (hu : findOne db.users userId = some user) :
    sellStock db (.quotes p) now userId symbol shares =
      sellStockWrite db user p now userId symbol shares := by
  simp only [sellStock, getStockPrice, hu, sellStockWrite]

theorem buyStockWrite_users (db : State) (now : Nat) (userId symbol : String) (shares : ℤ)
    (p : ℚ) (user : User) (hb : ¬ user.balance < roundUpCents (p * shares)) :
    (buyStockWrite db user p now userId symbol shares).1.users =
      updateOne db.users userId
        (buyUpdate symbol (buyEntry user symbol shares p) (roundUpCents (p * shares))) := by
  simp only [buyStockWrite, hb, if_false]
  rfl

theorem sellStockWrite_users (db : State) (now : Nat) (userId symbol : String)
    (shares : ℤ) (p : ℚ) (user : User) (held : Holding)
    (hg : portfolioGet user.portfolio symbol = some held) (hs : ¬ held.shares < shares) :
    (sellStockWrite db user p now userId symbol shares).1.users =
      updateOne db.users userId (sellUpdate symbol (held.shares - shares) (p * shares)) := by
  simp only [sellStockWrite, hg, hs, if_false]
  by_cases hr : held.shares - shares > 0
  · simp only [hr, if_true]
    have : sellUpdate symbol (held.shares - shares) (p * shares) = fun u =>
        { u with
          portfolio := portfolioSetShares u.portfolio symbol (held.shares - shares)
          balance := u.balance + p * shares } := by
      funext u; simp [sellUpdate, hr]
    rw [this]
  · simp only [hr, if_false]
    have : sellUpdate symbol (held.shares - shares) (p * shares) = fun u =>
        { u with
          portfolio := portfolioUnset u.portfolio symbol
          balance := u.balance + p * shares } := by
      funext u; simp [sellUpdate, hr]
    rw [this]

theorem sellUpdate_portfolio_pos (symbol : String) (n : ℤ) (gains : ℚ) (u : User)
    (h : n > 0) :
    (sellUpdate symbol n gains u).portfolio = portfolioSetShares u.portfolio symbol n := by
  simp [sellUpdate, h]

theorem sellUpdate_portfolio_nonpos (symbol : String) (n : ℤ) (gains : ℚ) (u : User)
    (h : ¬ n > 0) :
    (sellUpdate symbol n gains u).portfolio = portfolioUnset u.portfolio symbol := by
  simp only [sellUpdate, h, if_false]

/-- Two buys of one symbol whose reads both precede the writes: both costs are debited,
and the holding is the one the second write computed from the document read. -/
theorem buyStockWrite_twice (db : State) (user : User) (userId symbol : String)
    (s1 s2 : ℤ) (p1 p2 : ℚ) (now1 now2 : Nat)
    (hu : findOne db.users userId = some user)
    (hb1 : ¬ user.balance < roundUpCents (p1 * s1))
    (hb2 : ¬ user.balance < roundUpCents (p2 * s2)) :
    balanceOf (buyStockWrite (buyStockWrite db user p1 now1 userId symbol s1).1 user p2 now2
        userId symbol s2).1 userId =
        some (user.balance - roundUpCents (p1 * s1) - roundUpCents (p2 * s2)) ∧
      holdingOf (buyStockWrite (buyStockWrite db user p1 now1 userId symbol s1).1 user p2 now2
        userId symbol s2).1 userId symbol = some (buyEntry user symbol s2 p2) := by
  have hid := (findOne_mem db.users userId user hu).2
  have h1 : findOne (buyStockWrite db user p1 now1 userId symbol s1).1.users userId =
      some (buyUpdate symbol (buyEntry user symbol s1 p1) (roundUpCents (p1 * s1)) user) := by
    rw [buyStockWrite_users db now1 userId symbol s1 p1 user hb1]
    exact findOne_updateOne_same _ _ _ _ hu (by rw [buyUpdate_userId]; exact hid)
  have h2 : findOne (buyStockWrite (buyStockWrite db user p1 now1 userId symbol s1).1 user
      p2 now2 userId symbol s2).1.users userId =
      some (buyUpdate symbol (buyEntry user symbol s2 p2) (roundUpCents (p2 * s2))
        (buyUpdate symbol (buyEntry user symbol s1 p1) (roundUpCents (p1 * s1)) user)) := by
    rw [buyStockWrite_users _ now2 userId symbol s2 p2 user hb2]
    exact findOne_updateOne_same _ _ _ _ h1 (by rw [buyUpdate_userId, buyUpdate_userId]; exact hid)
  refine ⟨?_, ?_⟩
  · simp only [balanceOf, h2, Option.map_some']
    simp [buyUpdate, sub_eq_add_neg]
  · simp only [holdingOf, h2, Option.some_bind]
    simp [buyUpdate, portfolioGet_set_same]

/-- Two sells of one symbol whose reads both precede the writes, the first write leaving
shares: both proceeds are credited, and the holding is the one the second write computed
from the document read. -/
theorem sellStockWrite_twice (db : State) (user : User) (userId symbol : String)
    (s1 s2 : ℤ) (p1 p2 : ℚ) (now1 now2 : Nat) (held : Holding)
    (hu : findOne db.users userId = some user)
    (hg : portfolioGet user.portfolio symbol = some held)
    (h1 : s1 < held.shares) (h2 : s2 ≤ held.shares) :
    balanceOf (sellStockWrite (sellStockWrite db user p1 now1 userId symbol s1).1 user p2
        now2 userId symbol s2).1 userId = some (user.balance + p1 * s1 + p2 * s2) ∧
      holdingOf (sellStockWrite (sellStockWrite db user p1 now1 userId symbol s1).1 user p2
        now2 userId symbol s2).1 userId symbol =
        if s2 < held.shares then
          some { shares := held.shares - s2, avgPrice := held.avgPrice }
        else none := by
  have hid := (findOne_mem db.users userId user hu).2
  have hs1 : ¬ held.shares < s1 := not_lt.mpr (le_of_lt h1)
  have hs2 : ¬ held.shares < s2 := not_lt.mpr h2
  have hr1 : held.shares - s1 > 0 := sub_pos.mpr h1
  have hf1 : findOne (sellStockWrite db user p1 now1 userId symbol s1).1.users userId =
      some (sellUpdate symbol (held.shares - s1) (p1 * s1) user) := by
    rw [sellStockWrite_users db now1 userId symbol s1 p1 user held hg hs1]
    exact findOne_updateOne_same _ _ _ _ hu (by rw [sellUpdate_userId]; exact hid)
  have hf2 : findOne (sellStockWrite (sellStockWrite db user p1 now1 userId symbol s1).1 user
      p2 now2 userId symbol s2).1.users userId =
      some (sellUpdate symbol (held.shares - s2) (p2 * s2)
        (sellUpdate symbol (held.shares - s1) (p1 * s1) user)) := by
    rw [sellStockWrite_users _ now2 userId symbol s2 p2 user held hg hs2]
    exact findOne_updateOne_same _ _ _ _ hf1
      (by rw [sellUpdate_userId, sellUpdate_userId]; exact hid)
  refine ⟨?_, ?_⟩
  · simp only [balanceOf, hf2, Option.map_some', sellUpdate_balance]
  · simp only [holdingOf, hf2, Option.some_bind]
    have hget1 : portfolioGet (sellUpdate symbol (held.shares - s1) (p1 * s1) user).portfolio
        symbol = some { shares := held.shares - s1, avgPrice := held.avgPrice } := by
      rw [sellUpdate_portfolio_pos _ _ _ _ hr1]
      exact portfolioGet_setShares_same _ _ _ held hg
    by_cases hlt : s2 < held.shares
    · have hr2 : held.shares - s2 > 0 := sub_pos.mpr hlt
      rw [sellUpdate_portfolio_pos _ _ _ _ hr2, if_pos hlt]
      exact portfolioGet_setShares_same _ _ _
        { shares := held.shares - s1, avgPrice := held.avgPrice } hget1
    · have hr2 : ¬ held.shares - s2 > 0 := by
        intro h
        exact hlt (sub_pos.mp h)
      rw [sellUpdate_portfolio_nonpos _ _ _ _ hr2, if_neg hlt]
      exact portfolioGet_unset_same _ _

/-- C27, counterexample: an overlap of two operations on one account whose result no
serial execution gives.  Account `"A"` has a balance of 1000 and no holding; two buys of
6 `X` at 105.00 (630.00 each) both read the account before either writes.  Both pass the
funds check, the balance ends at -260.00 and 6 shares are stored for 12 paid; run one
after the other, in either order, the second buy is refused and the balance ends at
370.00.  With a holding of 10 `X` and a balance of 9000, a sale of 5 and a sale of all
10 that both read the account before either writes credit 15 shares: the balance ends
at 10575.00, where the two serial orders end at 9525.00 and at 10050.00. -/
theorem overlapping_trades_not_serial :
    findOne (sampleDb 1000 []).users "A" = some (sampleUser 1000 []) ∧
      balanceOf (buyStockWrite (buyStockWrite (sampleDb 1000 []) (sampleUser 1000 []) 105 1
        "A" "X" 6).1 (sampleUser 1000 []) 105 2 "A" "X" 6).1 "A" = some (-260) ∧
      holdingOf (buyStockWrite (buyStockWrite (sampleDb 1000 []) (sampleUser 1000 []) 105 1
        "A" "X" 6).1 (sampleUser 1000 []) 105 2 "A" "X" 6).1 "A" "X" =
        some { shares := 6, avgPrice := 105 } ∧
      (∀ n1 n2 : Nat,
        balanceOf (buyStock (buyStock (sampleDb 1000 []) (.quotes 105) n1 "A" "X" 6).1
          (.quotes 105) n2 "A" "X" 6).1 "A" = some 370) ∧
      balanceOf (sellStockWrite (sellStockWrite
          (sampleDb 9000 [("X", { shares := 10, avgPrice := 100 })])
          (sampleUser 9000 [("X", { shares := 10, avgPrice := 100 })]) 105 1 "A" "X" 5).1
          (sampleUser 9000 [("X", { shares := 10, avgPrice := 100 })]) 105 2 "A" "X" 10).1
        "A" = some 10575 ∧
      balanceOf (sellStock (sellStock
          (sampleDb 9000 [("X", { shares := 10, avgPrice := 100 })])
          (.quotes 105) 1 "A" "X" 5).1 (.quotes 105) 2 "A" "X" 10).1 "A" = some 9525 ∧
      balanceOf (sellStock (sellStock
          (sampleDb 9000 [("X", { shares := 10, avgPrice := 100 })])
          (.quotes 105) 1 "A" "X" 10).1 (.quotes 105) 2 "A" "X" 5).1 "A" = some 10050 := by
  have hr : roundUpCents (105 * ((6 : ℤ) : ℚ)) = 630 := by
    rw [roundUpCents_eq_of _ 63000 (by decide!)]
    norm_num
  have hb : ¬ (sampleUser 1000 []).balance < roundUpCents (105 * ((6 : ℤ) : ℚ)) := by
    rw [hr]
    norm_num [sampleUser]
  have hbuys := buyStockWrite_twice (sampleDb 1000 []) (sampleUser 1000 []) "A" "X" 6 6
    105 105 1 2 (findOne_sampleDb _ _) hb hb
  have hsells := sellStockWrite_twice
    (sampleDb 9000 [("X", { shares := 10, avgPrice := 100 })])
    (sampleUser 9000 [("X", { shares := 10, avgPrice := 100 })]) "A" "X" 5 10 105 105 1 2
    { shares := 10, avgPrice := 100 } (findOne_sampleDb _ _) (by decide) (by decide)
    (by decide)
  refine ⟨findOne_sampleDb _ _, ?_, ?_, ?_, ?_, ?_, ?_⟩
  · rw [hbuys.1, hr]
    norm_num [sampleUser]
  · rw [hbuys.2]
    have hp : roundUpCents 105 = 105 := by
      rw [roundUpCents_eq_of _ 10500 (by decide!)]
      norm_num
    simp [buyEntry, sampleUser, portfolioGet, hp]
  · intro n1 n2
    have hfirst := buyStock_bought (sampleDb 1000 []) n1 "A" "X" 6 105 (sampleUser 1000 [])
      (findOne_sampleDb _ _) hb
    have hfind : findOne (buyStock (sampleDb 1000 []) (.quotes 105) n1 "A" "X" 6).1.users
        "A" = some (buyUpdate "X" (buyEntry (sampleUser 1000 []) "X" 6 105)
          (roundUpCents (105 * ((6 : ℤ) : ℚ))) (sampleUser 1000 [])) := by
      rw [hfirst]
      exact findOne_updateOne_same _ _ _ _ (findOne_sampleDb _ _) rfl
    have hlow : (buyUpdate "X" (buyEntry (sampleUser 1000 []) "X" 6 105)
        (roundUpCents (105 * ((6 : ℤ) : ℚ))) (sampleUser 1000 [])).balance <
        roundUpCents (105 * ((6 : ℤ) : ℚ)) := by
      rw [hr]
      norm_num [buyUpdate, sampleUser]
    rw [buyStock_insufficient _ n2 "A" "X" 6 105 _ hfind hlow]
    simp only [balanceOf, hfind, Option.map_some']
    rw [hr]
    norm_num [buyUpdate, sampleUser]
  · rw [hsells.1]
    norm_num [sampleUser]
  · have hfirst := sellStock_sold
      (sampleDb 9000 [("X", { shares := 10, avgPrice := 100 })]) 1 "A" "X" 5 105
      (sampleUser 9000 [("X", { shares := 10, avgPrice := 100 })])
      { shares := 10, avgPrice := 100 } (findOne_sampleDb _ _) (by decide) (by decide)
    have hfind : findOne (sellStock
        (sampleDb 9000 [("X", { shares := 10, avgPrice := 100 })])
        (.quotes 105) 1 "A" "X" 5).1.users "A" =
        some (sellUpdate "X" (10 - 5) (105 * ((5 : ℤ) : ℚ))
          (sampleUser 9000 [("X", { shares := 10, avgPrice := 100 })])) := by
      rw [hfirst]
      exact findOne_updateOne_same _ _ _ _ (findOne_sampleDb _ _) rfl
    rw [sellStock_insufficient _ 2 "A" "X" 10 105 _ { shares := 5, avgPrice := 100 } hfind
      (by decide) (by decide)]
    simp only [balanceOf, hfind, Option.map_some', sellUpdate_balance]
    norm_num [sampleUser]
  · have hfirst := sellStock_sold
      (sampleDb 9000 [("X", { shares := 10, avgPrice := 100 })]) 1 "A" "X" 10 105
      (sampleUser 9000 [("X", { shares := 10, avgPrice := 100 })])
      { shares := 10, avgPrice := 100 } (findOne_sampleDb _ _) (by decide) (by decide)
    have hfind : findOne (sellStock
        (sampleDb 9000 [("X", { shares := 10, avgPrice := 100 })])
        (.quotes 105) 1 "A" "X" 10).1.users "A" =
        some (sellUpdate "X" (10 - 10) (105 * ((10 : ℤ) : ℚ))
          (sampleUser 9000 [("X", { shares := 10, avgPrice := 100 })])) := by
      rw [hfirst]
      exact findOne_updateOne_same _ _ _ _ (findOne_sampleDb _ _) rfl
    rw [sellStock_absent _ 2 "A" "X" 5 105 _ hfind (by decide)]
    simp only [balanceOf, hfind, Option.map_some', sellUpdate_balance]
    norm_num [sampleUser]

/-- C27, amended: `buyStock` and `sellStock` are a read of the account document followed
by writes computed from that read; only when nothing runs between the two are they a
read-modify-write.  Without overlap the operation is the read followed by
`buyStockWrite` resp. `sellStockWrite` on the same database.  When two buys of one
symbol both read the document `user` before either writes, and each cost is at most the
balance read, the balance ends at `balance - cost1 - cost2` and the stored holding is
what the later write computed from `user` alone.  When two sells of one symbol both read
a holding `held` before either writes, the first selling fewer than `held.shares` and
the second at most that many, both proceeds are credited and the stored holding has
`held.shares - s2` shares, or is removed when that is 0. -/
theorem overlapping_trades_last_write_wins (db : State) (user : User)
    (userId symbol : String) (s1 s2 : ℤ) (p1 p2 : ℚ) (now1 now2 : Nat)
    (hu : findOne db.users userId = some user) :
    buyStock db (.quotes p1) now1 userId symbol s1 =
        buyStockWrite db user p1 now1 userId symbol s1 ∧
      sellStock db (.quotes p1) now1 userId symbol s1 =
        sellStockWrite db user p1 now1 userId symbol s1 ∧
      (roundUpCents (p1 * s1) ≤ user.balance → roundUpCents (p2 * s2) ≤ user.balance →
        balanceOf (buyStockWrite (buyStockWrite db user p1 now1 userId symbol s1).1 user p2
          now2 userId symbol s2).1 userId =
          some (user.balance - roundUpCents (p1 * s1) - roundUpCents (p2 * s2)) ∧
        holdingOf (buyStockWrite (buyStockWrite db user p1 now1 userId symbol s1).1 user p2
          now2 userId symbol s2).1 userId symbol = some (buyEntry user symbol s2 p2)) ∧
      (∀ held, portfolioGet user.portfolio symbol = some held →
        s1 < held.shares → s2 ≤ held.shares →
        balanceOf (sellStockWrite (sellStockWrite db user p1 now1 userId symbol s1).1 user p2
          now2 userId symbol s2).1 userId = some (user.balance + p1 * s1 + p2 * s2) ∧
        holdingOf (sellStockWrite (sellStockWrite db user p1 now1 userId symbol s1).1 user p2
          now2 userId symbol s2).1 userId symbol =
          if s2 < held.shares then
            some { shares := held.shares - s2, avgPrice := held.avgPrice }
          else none) :=
  ⟨buyStock_eq_write db now1 userId symbol s1 p1 user hu,
    sellStock_eq_write db now1 userId symbol s1 p1 user hu,
    fun hb1 hb2 => buyStockWrite_twice db user userId symbol s1 s2 p1 p2 now1 now2 hu
      (not_lt.mpr hb1) (not_lt.mpr hb2),
    fun held hg h1 h2 => sellStockWrite_twice db user userId symbol s1 s2 p1 p2 now1 now2
      held hu hg h1 h2⟩

/-- Witness for C27, amended: account `"A"` with 9000 and 10 `X` at 100.00.  Two buys of
2 `X` at 105.00 that both read the account first leave a balance of 8580.00 and 12
shares (14 were paid for); a sale of 5 and a sale of 10 at 105.00 that both read the
account first leave a balance of 10575.00 and no holding. -/
theorem overlapping_trades_last_write_wins_witness :
    balanceOf (buyStockWrite (buyStockWrite
        (sampleDb 9000 [("X", { shares := 10, avgPrice := 100 })])
        (sampleUser 9000 [("X", { shares := 10, avgPrice := 100 })]) 105 1 "A" "X" 2).1
        (sampleUser 9000 [("X", { shares := 10, avgPrice := 100 })]) 105 2 "A" "X" 2).1
        "A" = some 8580 ∧
      (holdingOf (buyStockWrite (buyStockWrite
        (sampleDb 9000 [("X", { shares := 10, avgPrice := 100 })])
        (sampleUser 9000 [("X", { shares := 10, avgPrice := 100 })]) 105 1 "A" "X" 2).1
        (sampleUser 9000 [("X", { shares := 10, avgPrice := 100 })]) 105 2 "A" "X" 2).1
        "A" "X").map (fun h => h.shares) = some 12 ∧
      balanceOf (sellStockWrite (sellStockWrite
        (sampleDb 9000 [("X", { shares := 10, avgPrice := 100 })])
        (sampleUser 9000 [("X", { shares := 10, avgPrice := 100 })]) 105 1 "A" "X" 5).1
        (sampleUser 9000 [("X", { shares := 10, avgPrice := 100 })]) 105 2 "A" "X" 10).1
        "A" = some 10575 ∧
      holdingOf (sellStockWrite (sellStockWrite
        (sampleDb 9000 [("X", { shares := 10, avgPrice := 100 })])
        (sampleUser 9000 [("X", { shares := 10, avgPrice := 100 })]) 105 1 "A" "X" 5).1
        (sampleUser 9000 [("X", { shares := 10, avgPrice := 100 })]) 105 2 "A" "X" 10).1
        "A" "X" = none := by
  have hr : roundUpCents (105 * ((2 : ℤ) : ℚ)) = 210 := by
    rw [roundUpCents_eq_of _ 21000 (by decide!)]
    norm_num
  have hle : roundUpCents (105 * ((2 : ℤ) : ℚ)) ≤
      (sampleUser 9000 [("X", { shares := 10, avgPrice := 100 })]).balance := by
    rw [hr]
    norm_num [sampleUser]
  have h := overlapping_trades_last_write_wins
    (sampleDb 9000 [("X", { shares := 10, avgPrice := 100 })])
    (sampleUser 9000 [("X", { shares := 10, avgPrice := 100 })]) "A" "X"
  have hbuy := (h 2 2 105 105 1 2 (findOne_sampleDb _ _)).2.2.1 hle hle
  have hsell := (h 5 10 105 105 1 2 (findOne_sampleDb _ _)).2.2.2
    { shares := 10, avgPrice := 100 } (by decide) (by decide) (by decide)
  refine ⟨?_, ?_, ?_, ?_⟩
  · rw [hbuy.1, hr]
    norm_num [sampleUser]
  · rw [hbuy.2]
    simp [buyEntry, sampleUser, portfolioGet]
  · rw [hsell.1]
    norm_num [sampleUser]
  · rw [hsell.2]
    decide

end DumpIt
